import Mathlib

/-!
# PandoraPFA: track recovery helix algorithm

A shallow embedding of `TrackRecoveryHelixAlgorithm` (candidate generation and the
greedy association loop) together with the parts of `Track` it reads, and of the class
`RunningMeanRMS` of `ECalPhotonClusteringAlgorithm`.

Conventions of the embedding

* `float` and `double` values are rationals; `FLT_MAX` is
  `std::numeric_limits<float>::max()`. NaN and infinities are outside the model.
  Comparisons, `std::fabs` and `std::min` are exact. The two arithmetic operations of
  the candidate generator, the sum and the product of its z cut, are rounded to `float`
  (`floatAdd`, `floatMul`). The `double` arithmetic of `RunningMeanRMS` is given twice:
  exact (`Fill`), for the claims stated in exact arithmetic, and with every operation
  rounded (`FillRounded`). The library function `sqrt` is a parameter.
* An object address that the code dereferences unconditionally (the elements of the
  track and cluster lists, the keys of the association map) is an `Address`;
  a pointer that the code compares with `NULL` is an `Option Address`.
* `unsigned int` arithmetic is taken modulo `2 ^ 32`.
* `int` arithmetic wraps on 32 bits (two's complement).
* `std::map<Track *, AssociationInfoVector>` is an association list whose keys are
  strictly increasing, which is the iteration order of the map.
-/

namespace pandora

/-- Address of an object owned by one of the managers. -/
abbrev Address := Nat

/-- The type `PseudoLayer` is an `unsigned int`. -/
abbrev PseudoLayer := Nat

/-- Wrap-around of `unsigned int` arithmetic. -/
def UINT_MOD : Nat := 2 ^ 32

/-- Value of `std::numeric_limits<float>::max()`. -/
def FLT_MAX : ℚ := 340282346638528859811704183484516925440

/-- Status codes returned by the framework calls. -/
inductive StatusCode
  | STATUS_CODE_SUCCESS
  | STATUS_CODE_FAILURE
  | STATUS_CODE_NOT_FOUND
  | STATUS_CODE_NOT_INITIALIZED
  | STATUS_CODE_INVALID_PARAMETER
  deriving DecidableEq, Repr

open StatusCode

/-- Data members of `Track` (Track.h) that the algorithms read. -/
structure Track where
  m_momentumMagnitudeAtDca : ℚ
  m_energyAtDca : ℚ
  /-- Value of `m_trackStateAtECal.GetPosition().GetZ()`. -/
  m_trackStateAtECalZ : ℚ
  m_reachesECal : Bool
  m_pHelixFitAtECal : Option Address
  m_pAssociatedCluster : Option Address
  m_daughterTrackList : List Address

namespace Track

/-- Source: `Track::HasAssociatedCluster`, `NULL != m_pAssociatedCluster`. -/
def HasAssociatedCluster (t : Track) : Bool := t.m_pAssociatedCluster.isSome

/-- Source: `Track::ReachesECal`. -/
def ReachesECal (t : Track) : Bool := t.m_reachesECal

/-- Source: `Track::GetDaughterTrackList`. -/
def GetDaughterTrackList (t : Track) : List Address := t.m_daughterTrackList

/-- Source: `Track::GetHelixFitAtECal`. -/
def GetHelixFitAtECal (t : Track) : Option Address := t.m_pHelixFitAtECal

/-- Source: `Track::GetEnergyAtDca`. -/
def GetEnergyAtDca (t : Track) : ℚ := t.m_energyAtDca

end Track

/-- The accessors of `Cluster` that the algorithm calls; the class itself is declared
outside the files at hand, so each accessor is a field. -/
structure Cluster where
  GetNCaloHits : Nat
  GetAssociatedTrackList : List Address
  IsPhoton : Bool
  GetInnerPseudoLayer : PseudoLayer
  /-- Value of `GetCentroid(layer).GetZ()`. -/
  GetCentroidZ : PseudoLayer → ℚ
  GetHadronicEnergy : ℚ

/-- The member settings of the algorithm, as assigned by `ReadSettings`. -/
structure Settings where
  m_maxTrackClusterDeltaZ : ℚ
  m_maxAbsoluteTrackClusterChi : ℚ
  m_maxLayersCrossed : Nat
  m_maxSearchLayer : Nat
  m_parallelDistanceCut : ℚ
  m_helixComparisonNLayers : Nat
  m_helixComparisonMaxOccupiedLayers : Nat
  m_maxTrackClusterDistance : ℚ
  m_maxClosestHelixClusterDistance : ℚ
  m_maxMeanHelixClusterDistance : ℚ

/-- The external helper functions, taken as parameters. A helper with output
arguments returns the status together with the values the outputs hold afterwards. -/
structure Helpers where
  /-- `ReclusterHelper::GetTrackClusterCompatibility(clusterEnergy, trackEnergy)`. -/
  GetTrackClusterCompatibility : ℚ → ℚ → ℚ
  /-- `FragmentRemovalHelper::GetNLayersCrossed(pHelix, zStart, zEnd)`. -/
  GetNLayersCrossed : Option Address → ℚ → ℚ → PseudoLayer
  /-- `ClusterHelper::GetTrackClusterDistance(pTrack, pCluster, maxSearchLayer,
  parallelDistanceCut, trackClusterDistance)`. -/
  GetTrackClusterDistance : Address → Address → Nat → ℚ → StatusCode × ℚ
  /-- `FragmentRemovalHelper::GetClusterHelixDistance(pCluster, pHelix, startLayer,
  endLayer, maxOccupiedLayers, closestDistanceToHit, meanDistanceToHits)`. -/
  GetClusterHelixDistance : Address → Option Address → PseudoLayer → PseudoLayer → Nat →
    StatusCode × ℚ × ℚ

/-- What `PandoraContentApi` shows of the event: the current lists (with the status
of their retrieval) and the objects behind the addresses. -/
structure Pandora where
  GetCurrentTrackList : StatusCode × List Address
  GetCurrentClusterList : StatusCode × List Address
  track : Address → Track
  cluster : Address → Cluster

/-- The class `AssociationInfo`: a cluster and the closest approach to it. -/
structure AssociationInfo where
  m_pCluster : Address
  m_closestApproach : ℚ
  deriving DecidableEq, Repr

namespace AssociationInfo

/-- Source: `AssociationInfo::GetCluster`. -/
def GetCluster (a : AssociationInfo) : Address := a.m_pCluster

/-- Source: `AssociationInfo::GetClosestApproach`. -/
def GetClosestApproach (a : AssociationInfo) : ℚ := a.m_closestApproach

end AssociationInfo

/-- The type `AssociationInfoVector`. -/
abbrev AssociationInfoVector := List AssociationInfo

/-- The type `TrackAssociationInfoMap`, in iteration order. -/
abbrev TrackAssociationInfoMap := List (Address × AssociationInfoVector)

namespace TrackAssociationInfoMap

/-- Keys of the map in iteration order. -/
def keys (m : TrackAssociationInfoMap) : List Address := m.map Prod.fst

/-- Class invariant of `std::map`: the keys are strictly increasing. -/
def WellFormed (m : TrackAssociationInfoMap) : Prop := (keys m).Sorted (· < ·)

instance (m : TrackAssociationInfoMap) : Decidable (WellFormed m) := by
  unfold WellFormed; infer_instance

/-- The vector stored under a key, if the key is present (`std::map::find`). -/
def find : TrackAssociationInfoMap → Address → Option AssociationInfoVector
  | [], _ => none
  | (k, v) :: rest, pTrack => if k = pTrack then some v else find rest pTrack

/-- The statement `map[pTrack].push_back(info)`: the entry is created empty at its
place in key order when the key is new. -/
def pushBack : TrackAssociationInfoMap → Address → AssociationInfo → TrackAssociationInfoMap
  | [], pTrack, info => [(pTrack, [info])]
  | (k, v) :: rest, pTrack, info =>
    if pTrack < k then (pTrack, [info]) :: (k, v) :: rest
    else if pTrack = k then (k, v ++ [info]) :: rest
    else (k, v) :: pushBack rest pTrack info

/-- The statement `map.erase(map.find(pTrack))` for a key that is present. -/
def erase : TrackAssociationInfoMap → Address → TrackAssociationInfoMap
  | [], _ => []
  | (k, v) :: rest, pTrack => if k = pTrack then rest else (k, v) :: erase rest pTrack

end TrackAssociationInfoMap

/-- The function `std::min(a, b)`, which is `(b < a) ? b : a`. -/
def stdMin (a b : ℚ) : ℚ := if b < a then b else a

/-! ### Rounding to a binary floating-point format -/

/-- The integer nearest to `n / d`, the even one of the two when `n / d` lies half-way
between them (`d` positive). -/
def roundHalfEven (n d : Nat) : Nat :=
  if 2 * (n % d) < d then n / d
  else if d < 2 * (n % d) then n / d + 1
  else if (n / d) % 2 = 0 then n / d else n / d + 1

/-- The number of halvings that bring `n` below 2, at most `fuel` of them. -/
def halvings : Nat → Nat → Nat
  | 0, _ => 0
  | fuel + 1, n => if n < 2 then 0 else halvings fuel (n / 2) + 1

/-- The largest `k` with `2 ^ k ≤ n`, for positive `n`. -/
def binaryLog (n : Nat) : Nat := halvings n n

/-- The largest integer `e` with `2 ^ e ≤ n / d`, for positive `n` and `d`. -/
def binaryExponent (n d : Nat) : Int :=
  if binaryLog d ≤ binaryLog n then
    if n < d * 2 ^ (binaryLog n - binaryLog d) then ((binaryLog n - binaryLog d : Nat) : Int) - 1
    else ((binaryLog n - binaryLog d : Nat) : Int)
  else
    if n * 2 ^ (binaryLog d - binaryLog n) < d then -((binaryLog d - binaryLog n : Nat) : Int) - 1
    else -((binaryLog d - binaryLog n : Nat) : Int)

/-- Rounding to the nearest value of a binary floating-point format with `precision`
significant bits and least normal exponent `emin`, ties to even, subnormal values included
(IEEE 754 round-to-nearest-even). The exponent has no upper bound: a result of magnitude
beyond the largest finite value of the format stands for an infinity. -/
def roundBinary (precision : Nat) (emin : Int) (q : ℚ) : ℚ :=
  if q = 0 then 0
  else
    let quantum : Int := max (binaryExponent q.num.natAbs q.den) emin - ((precision : Int) - 1)
    let magnitude : ℚ :=
      if quantum ≤ 0 then
        mkRat (roundHalfEven (q.num.natAbs * 2 ^ (-quantum).toNat) q.den) (2 ^ (-quantum).toNat)
      else
        ((roundHalfEven q.num.natAbs (q.den * 2 ^ quantum.toNat) * 2 ^ quantum.toNat : Nat) : ℚ)
    if q < 0 then -magnitude else magnitude

/-- Rounding to `float` (binary32: 24 significant bits, least normal exponent -126). -/
def roundFloat (q : ℚ) : ℚ := roundBinary 24 (-126) q

/-- The sum `a + b` of two `float` values, as a `float`. -/
def floatAdd (a b : ℚ) : ℚ := roundFloat (a + b)

/-- The product `a * b` of two `float` values, as a `float`. -/
def floatMul (a b : ℚ) : ℚ := roundFloat (a * b)

/-- The track filter at the head of the outer loop of `GetTrackAssociationInfoMap`:
false where the source says `continue`. -/
def trackIsUsed (p : Pandora) (pTrack : Address) : Bool :=
  if (p.track pTrack).HasAssociatedCluster || !(p.track pTrack).ReachesECal then false
  else if !(p.track pTrack).GetDaughterTrackList.isEmpty then false
  else true

/-- Body of the inner loop of `GetTrackAssociationInfoMap` up to the construction of
the `AssociationInfo`: `none` where the source says `continue`. -/
def associationInfoFor (s : Settings) (h : Helpers) (p : Pandora) (pTrack pCluster : Address) :
    Option AssociationInfo :=
  let pHelix := (p.track pTrack).GetHelixFitAtECal
  let trackEnergy := (p.track pTrack).GetEnergyAtDca
  let trackECalZPosition := (p.track pTrack).m_trackStateAtECalZ
  if (p.cluster pCluster).GetNCaloHits = 0 then none
  else if !(p.cluster pCluster).GetAssociatedTrackList.isEmpty || (p.cluster pCluster).IsPhoton then none
  else
    let innerLayer := (p.cluster pCluster).GetInnerPseudoLayer
    let clusterZPosition := (p.cluster pCluster).GetCentroidZ innerLayer
    if |trackECalZPosition| > floatAdd |clusterZPosition| s.m_maxTrackClusterDeltaZ ∨
        floatMul trackECalZPosition clusterZPosition < 0 then none
    else
      let chi := h.GetTrackClusterCompatibility (p.cluster pCluster).GetHadronicEnergy trackEnergy
      if |chi| > s.m_maxAbsoluteTrackClusterChi then none
      else
        let nLayersCrossed := h.GetNLayersCrossed pHelix trackECalZPosition clusterZPosition
        if nLayersCrossed > s.m_maxLayersCrossed then none
        else
          let r1 := h.GetTrackClusterDistance pTrack pCluster s.m_maxSearchLayer s.m_parallelDistanceCut
          if r1.1 ≠ STATUS_CODE_SUCCESS then none
          else
            let trackClusterDistance := r1.2
            let r2 := h.GetClusterHelixDistance pCluster pHelix innerLayer
              ((innerLayer + s.m_helixComparisonNLayers) % UINT_MOD) s.m_helixComparisonMaxOccupiedLayers
            if r2.1 ≠ STATUS_CODE_SUCCESS then none
            else
              let closestDistanceToHit := r2.2.1
              let meanDistanceToHits := r2.2.2
              if trackClusterDistance > s.m_maxTrackClusterDistance ∧
                  (closestDistanceToHit > s.m_maxClosestHelixClusterDistance ∨
                    meanDistanceToHits > s.m_maxMeanHelixClusterDistance) then none
              else some ⟨pCluster, stdMin closestDistanceToHit trackClusterDistance⟩

/-- One pass of the inner loop body: the candidate, if any, is appended under the track. -/
def clusterStep (s : Settings) (h : Helpers) (p : Pandora) (pTrack : Address)
    (m : TrackAssociationInfoMap) (pCluster : Address) : TrackAssociationInfoMap :=
  match associationInfoFor s h p pTrack pCluster with
  | none => m
  | some info => m.pushBack pTrack info

/-- One pass of the outer loop body. -/
def trackStep (s : Settings) (h : Helpers) (p : Pandora) (clusterList : List Address)
    (m : TrackAssociationInfoMap) (pTrack : Address) : TrackAssociationInfoMap :=
  if trackIsUsed p pTrack then clusterList.foldl (clusterStep s h p pTrack) m else m

/-- Source: `TrackRecoveryHelixAlgorithm::GetTrackAssociationInfoMap`; the map argument is
passed in and handed back with the status. -/
def GetTrackAssociationInfoMap (s : Settings) (h : Helpers) (p : Pandora)
    (trackAssociationInfoMap : TrackAssociationInfoMap) : StatusCode × TrackAssociationInfoMap :=
  if p.GetCurrentTrackList.1 ≠ STATUS_CODE_SUCCESS then
    (p.GetCurrentTrackList.1, trackAssociationInfoMap)
  else if p.GetCurrentClusterList.1 ≠ STATUS_CODE_SUCCESS then
    (p.GetCurrentClusterList.1, trackAssociationInfoMap)
  else
    (STATUS_CODE_SUCCESS,
      p.GetCurrentTrackList.2.foldl (trackStep s h p p.GetCurrentClusterList.2) trackAssociationInfoMap)

/-- The locals `closestApproach`, `pBestTrack` and `pBestCluster` of the search in
`MakeTrackClusterAssociations`. -/
structure BestPairing where
  closestApproach : ℚ
  pBestTrack : Option Address
  pBestCluster : Option Address
  deriving DecidableEq, Repr

/-- Body of the loop over the vector of one track: a strictly closer approach replaces
the best pairing. -/
def considerInfo (pTrack : Address) (best : BestPairing) (info : AssociationInfo) : BestPairing :=
  if info.GetClosestApproach < best.closestApproach then
    ⟨info.GetClosestApproach, some pTrack, some info.GetCluster⟩
  else best

/-- The search "Find the closest track-cluster pairing": both loops, in the iteration order
of the map, starting from `FLT_MAX` and two null pointers. -/
def findClosestPairing (m : TrackAssociationInfoMap) : BestPairing :=
  m.foldl (fun best entry => entry.2.foldl (considerInfo entry.1) best) ⟨FLT_MAX, none, none⟩

/-- The committer `PandoraContentApi::AddTrackClusterAssociation`, an external call that acts
on a state of type `σ`. -/
abbrev Committer (σ : Type) := σ → Address → Address → StatusCode × σ

/-- What one pass through the body of the `while` loop does. -/
inductive Iteration (σ : Type)
  /-- No pairing was found; `shouldContinue` stays false. -/
  | finished : Iteration σ
  /-- The committer was called for the pairing and returned a status other than success. -/
  | aborted (status : StatusCode) (pTrack pCluster : Address) (state : σ) : Iteration σ
  /-- The committer succeeded for the pairing, the entry of the track was erased and
  `shouldContinue` was set. -/
  | committed (pTrack pCluster : Address) (m : TrackAssociationInfoMap) (state : σ) : Iteration σ
  deriving DecidableEq

/-- Body of the `while` loop of `MakeTrackClusterAssociations`. -/
def whileBody {σ : Type} (commit : Committer σ) (m : TrackAssociationInfoMap) (w : σ) : Iteration σ :=
  match (findClosestPairing m).pBestTrack, (findClosestPairing m).pBestCluster with
  | some pBestTrack, some pBestCluster =>
    if (commit w pBestTrack pBestCluster).1 ≠ STATUS_CODE_SUCCESS then
      .aborted (commit w pBestTrack pBestCluster).1 pBestTrack pBestCluster
        (commit w pBestTrack pBestCluster).2
    else
      .committed pBestTrack pBestCluster (m.erase pBestTrack) (commit w pBestTrack pBestCluster).2
  | _, _ => .finished

/-- Outcome of `MakeTrackClusterAssociations` and of `Run`: the returned status, the map and
the state at return, and the calls made to the committer, in order. -/
structure Outcome (σ : Type) where
  status : StatusCode
  map : TrackAssociationInfoMap
  state : σ
  calls : List (Address × Address)
  deriving DecidableEq

/-- The `while` loop of `MakeTrackClusterAssociations`, with a bound on the number of
passes; `none` when the bound is reached. -/
def makeLoop {σ : Type} (commit : Committer σ) : Nat → TrackAssociationInfoMap → σ → Option (Outcome σ)
  | 0, _, _ => none
  | fuel + 1, m, w =>
    match whileBody commit m w with
    | .finished => some ⟨STATUS_CODE_SUCCESS, m, w, []⟩
    | .aborted status pTrack pCluster w1 => some ⟨status, m, w1, [(pTrack, pCluster)]⟩
    | .committed pTrack pCluster m1 w1 =>
      (makeLoop commit fuel m1 w1).map
        (fun o => ⟨o.status, o.map, o.state, (pTrack, pCluster) :: o.calls⟩)

/-- Source: `TrackRecoveryHelixAlgorithm::MakeTrackClusterAssociations`. Every pass that
continues erases an entry, so one pass more than there are entries is always enough. -/
def MakeTrackClusterAssociations {σ : Type} (commit : Committer σ) (m : TrackAssociationInfoMap)
    (w : σ) : Option (Outcome σ) :=
  makeLoop commit (m.length + 1) m w

/-- Source: `TrackRecoveryHelixAlgorithm::Run`. The map starts empty. -/
def Run (s : Settings) (h : Helpers) (commit : Committer Pandora) (p : Pandora) :
    Option (Outcome Pandora) :=
  if (GetTrackAssociationInfoMap s h p []).1 ≠ STATUS_CODE_SUCCESS then
    some ⟨(GetTrackAssociationInfoMap s h p []).1, (GetTrackAssociationInfoMap s h p []).2, p, []⟩
  else
    MakeTrackClusterAssociations commit (GetTrackAssociationInfoMap s h p []).2 p

/-- What the generator guarantees of a candidate `a` stored under the track `pTrack`. -/
def Generated (s : Settings) (h : Helpers) (p : Pandora) (pTrack : Address)
    (a : AssociationInfo) : Prop :=
  pTrack ∈ p.GetCurrentTrackList.2 ∧ trackIsUsed p pTrack = true ∧
    a.m_pCluster ∈ p.GetCurrentClusterList.2 ∧
    associationInfoFor s h p pTrack a.m_pCluster = some a

/-- The candidates that the map holds for the track `pTrack` and the cluster `pCluster`. -/
def candidatesOf : TrackAssociationInfoMap → Address → Address → List AssociationInfo
  | [], _, _ => []
  | (k, v) :: rest, pTrack, pCluster =>
    (if k = pTrack then v.filter (fun a => a.m_pCluster = pCluster) else []) ++
      candidatesOf rest pTrack pCluster

/-- The track's projected z at the calorimeter surface (`zTrack` of the specification). -/
def zTrack (p : Pandora) (pTrack : Address) : ℚ := (p.track pTrack).m_trackStateAtECalZ

/-- The cluster's centroid z at its inner pseudo-layer (`zCluster` of the specification). -/
def zCluster (p : Pandora) (pCluster : Address) : ℚ :=
  (p.cluster pCluster).GetCentroidZ (p.cluster pCluster).GetInnerPseudoLayer

/-- The compatibility chi of the pair, from the cluster's hadronic energy and the track's
energy at dca. -/
def chiOf (h : Helpers) (p : Pandora) (pTrack pCluster : Address) : ℚ :=
  h.GetTrackClusterCompatibility (p.cluster pCluster).GetHadronicEnergy (p.track pTrack).GetEnergyAtDca

/-- The number of layers the helix of the track crosses between the track's ECal z and the
cluster's z. -/
def nLayersCrossedOf (h : Helpers) (p : Pandora) (pTrack pCluster : Address) : PseudoLayer :=
  h.GetNLayersCrossed (p.track pTrack).GetHelixFitAtECal (zTrack p pTrack) (zCluster p pCluster)

/-- The call of the track-cluster distance helper that the algorithm makes for the pair. -/
def trackClusterDistanceOf (s : Settings) (h : Helpers) (pTrack pCluster : Address) : StatusCode × ℚ :=
  h.GetTrackClusterDistance pTrack pCluster s.m_maxSearchLayer s.m_parallelDistanceCut

/-- The call of the cluster-helix distance helper that the algorithm makes for the pair:
status, closest distance to a hit, mean distance to the hits. -/
def clusterHelixDistanceOf (s : Settings) (h : Helpers) (p : Pandora) (pTrack pCluster : Address) :
    StatusCode × ℚ × ℚ :=
  h.GetClusterHelixDistance pCluster (p.track pTrack).GetHelixFitAtECal
    (p.cluster pCluster).GetInnerPseudoLayer
    (((p.cluster pCluster).GetInnerPseudoLayer + s.m_helixComparisonNLayers) % UINT_MOD)
    s.m_helixComparisonMaxOccupiedLayers

/-- Eligibility of a track, in the words of the specification: no current cluster
association, reaches the calorimeter surface, no daughter tracks. -/
def EligibleTrack (p : Pandora) (pTrack : Address) : Prop :=
  (p.track pTrack).m_pAssociatedCluster = none ∧ (p.track pTrack).m_reachesECal = true ∧
    (p.track pTrack).m_daughterTrackList = []

/-- Eligibility of a cluster, in the words of the specification: at least one hit, no
existing track association, not flagged as a photon. -/
def EligibleCluster (p : Pandora) (pCluster : Address) : Prop :=
  1 ≤ (p.cluster pCluster).GetNCaloHits ∧ (p.cluster pCluster).GetAssociatedTrackList = [] ∧
    (p.cluster pCluster).IsPhoton = false

/-- The longitudinal-position cut passes: neither of its two rejections applies. -/
def PassesLongitudinalCut (s : Settings) (p : Pandora) (pTrack pCluster : Address) : Prop :=
  ¬ (|zTrack p pTrack| > floatAdd |zCluster p pCluster| s.m_maxTrackClusterDeltaZ) ∧
    ¬ (floatMul (zTrack p pTrack) (zCluster p pCluster) < 0)

/-- The energy-momentum consistency cut passes. -/
def PassesChiCut (s : Settings) (h : Helpers) (p : Pandora) (pTrack pCluster : Address) : Prop :=
  ¬ (|chiOf h p pTrack pCluster| > s.m_maxAbsoluteTrackClusterChi)

/-- The helix path-length cut passes. -/
def PassesLayersCrossedCut (s : Settings) (h : Helpers) (p : Pandora) (pTrack pCluster : Address) : Prop :=
  ¬ (nLayersCrossedOf h p pTrack pCluster > s.m_maxLayersCrossed)

/-- The geometric proximity condition of the specification. -/
def PassesProximityCut (s : Settings) (h : Helpers) (p : Pandora) (pTrack pCluster : Address) : Prop :=
  (trackClusterDistanceOf s h pTrack pCluster).2 ≤ s.m_maxTrackClusterDistance ∨
    ((clusterHelixDistanceOf s h p pTrack pCluster).2.1 ≤ s.m_maxClosestHelixClusterDistance ∧
      (clusterHelixDistanceOf s h p pTrack pCluster).2.2 ≤ s.m_maxMeanHelixClusterDistance)

/-- The pair survives: both are eligible, the four cuts pass and both distance computations
succeed. -/
def PairSurvives (s : Settings) (h : Helpers) (p : Pandora) (pTrack pCluster : Address) : Prop :=
  EligibleTrack p pTrack ∧ EligibleCluster p pCluster ∧ PassesLongitudinalCut s p pTrack pCluster ∧
    PassesChiCut s h p pTrack pCluster ∧ PassesLayersCrossedCut s h p pTrack pCluster ∧
    (trackClusterDistanceOf s h pTrack pCluster).1 = STATUS_CODE_SUCCESS ∧
    (clusterHelixDistanceOf s h p pTrack pCluster).1 = STATUS_CODE_SUCCESS ∧
    PassesProximityCut s h p pTrack pCluster

instance (s : Settings) (h : Helpers) (p : Pandora) (pTrack pCluster : Address) :
    Decidable (PairSurvives s h p pTrack pCluster) := by
  unfold PairSurvives EligibleTrack EligibleCluster PassesLongitudinalCut PassesChiCut
    PassesLayersCrossedCut PassesProximityCut
  infer_instance

/-- The values that `ReadSettings` assigns before reading the configuration. -/
def defaultSettings : Settings :=
  { m_maxTrackClusterDeltaZ := 250
    m_maxAbsoluteTrackClusterChi := 5 / 2
    m_maxLayersCrossed := 50
    m_maxSearchLayer := 20
    m_parallelDistanceCut := 100
    m_helixComparisonNLayers := 20
    m_helixComparisonMaxOccupiedLayers := 9
    m_maxTrackClusterDistance := 100
    m_maxClosestHelixClusterDistance := 100
    m_maxMeanHelixClusterDistance := 150 }

/-! ### A small event used to exercise the definitions

Tracks live at the addresses 1 and 2, the only cluster at the address 10. -/

/-- A track that reaches the ECal at z = +100, without associated cluster or daughters. -/
def sampleTrack : Track :=
  { m_momentumMagnitudeAtDca := 1
    m_energyAtDca := 1
    m_trackStateAtECalZ := 100
    m_reachesECal := true
    m_pHelixFitAtECal := some 7
    m_pAssociatedCluster := none
    m_daughterTrackList := [] }

/-- A cluster of three hits whose inner-layer centroid lies at the given z. -/
def sampleCluster (z : ℚ) : Cluster :=
  { GetNCaloHits := 3
    GetAssociatedTrackList := []
    IsPhoton := false
    GetInnerPseudoLayer := 2
    GetCentroidZ := fun _ => z
    GetHadronicEnergy := 1 }

/-- Helpers for the sample event: chi 0, no layer crossed, and for the track at address
`t` the track-cluster distance `d t`; the helix distances are 60 (closest) and 70 (mean). -/
def sampleHelpers (d : Address → ℚ) : Helpers :=
  { GetTrackClusterCompatibility := fun _ _ => 0
    GetNLayersCrossed := fun _ _ _ => 0
    GetTrackClusterDistance := fun t _ _ _ => (STATUS_CODE_SUCCESS, d t)
    GetClusterHelixDistance := fun _ _ _ _ _ => (STATUS_CODE_SUCCESS, 60, 70) }

/-- The sample event with the given track list and the cluster at inner-layer z `z`. -/
def sampleEvent (tracks : List Address) (z : ℚ) : Pandora :=
  { GetCurrentTrackList := (STATUS_CODE_SUCCESS, tracks)
    GetCurrentClusterList := (STATUS_CODE_SUCCESS, [10])
    track := fun _ => sampleTrack
    cluster := fun _ => sampleCluster z }

/-- The event with the track 1 at the ECal z `zT` and the cluster 10 at the inner-layer z
`zC`; everything else as in the sample event. -/
def sampleEventAt (zT zC : ℚ) : Pandora :=
  { GetCurrentTrackList := (STATUS_CODE_SUCCESS, [1])
    GetCurrentClusterList := (STATUS_CODE_SUCCESS, [10])
    track := fun _ => { sampleTrack with m_trackStateAtECalZ := zT }
    cluster := fun _ => sampleCluster zC }

/-- A committer that always succeeds and leaves the state as it is. -/
def acceptAll {σ : Type} : Committer σ := fun w _ _ => (STATUS_CODE_SUCCESS, w)

/-- The sample helpers with the given compatibility chi for every pair. -/
def sampleHelpersWithChi (chi : ℚ) : Helpers :=
  { sampleHelpers (fun _ => 40) with GetTrackClusterCompatibility := fun _ _ => chi }

/-- The score of a pair in the words of the specification: the minimum of the track-cluster
distance and the closest helix-to-hit distance. -/
def scoreOf (s : Settings) (h : Helpers) (p : Pandora) (pTrack pCluster : Address) : ℚ :=
  min (trackClusterDistanceOf s h pTrack pCluster).2 (clusterHelixDistanceOf s h p pTrack pCluster).2.1

/-- The default settings with the limit on the track-cluster distance raised to `FLT_MAX`. -/
def wideSettings : Settings :=
  { defaultSettings with m_maxTrackClusterDistance := FLT_MAX }

/-- The sample helpers with a cluster-helix helper that reports success and leaves both of
its outputs at `FLT_MAX`, the value they hold before the call. -/
def sampleHelpersNoHelixHit (d : Address → ℚ) : Helpers :=
  { sampleHelpers d with
    GetClusterHelixDistance := fun _ _ _ _ _ => (STATUS_CODE_SUCCESS, FLT_MAX, FLT_MAX) }

instance (p : Pandora) (pTrack : Address) : Decidable (EligibleTrack p pTrack) := by
  unfold EligibleTrack
  infer_instance

instance (p : Pandora) (pCluster : Address) : Decidable (EligibleCluster p pCluster) := by
  unfold EligibleCluster
  infer_instance

instance (s : Settings) (p : Pandora) (pTrack pCluster : Address) :
    Decidable (PassesLongitudinalCut s p pTrack pCluster) := by
  unfold PassesLongitudinalCut
  infer_instance

instance (s : Settings) (h : Helpers) (p : Pandora) (pTrack pCluster : Address) :
    Decidable (PassesChiCut s h p pTrack pCluster) := by
  unfold PassesChiCut
  infer_instance

instance (s : Settings) (h : Helpers) (p : Pandora) (pTrack pCluster : Address) :
    Decidable (PassesLayersCrossedCut s h p pTrack pCluster) := by
  unfold PassesLayersCrossedCut
  infer_instance

/-- The sample helpers with the given number of layers crossed for every pair. -/
def sampleHelpersWithLayers (n : PseudoLayer) : Helpers :=
  { sampleHelpers (fun _ => 40) with GetNLayersCrossed := fun _ _ _ => n }

/-- The sample helpers with a track-cluster distance helper that reports the given status
and leaves its output at `FLT_MAX`, the value it holds before the call. -/
def sampleHelpersDistanceStatus (status : StatusCode) : Helpers :=
  { sampleHelpers (fun _ => 40) with
    GetTrackClusterDistance := fun _ _ _ _ => (status, FLT_MAX) }

/-- The sample helpers with a cluster-helix distance helper that reports the given status
and leaves its outputs at `FLT_MAX`. -/
def sampleHelpersHelixStatus (status : StatusCode) : Helpers :=
  { sampleHelpers (fun _ => 40) with
    GetClusterHelixDistance := fun _ _ _ _ _ => (status, FLT_MAX, FLT_MAX) }

/-- The sample event with the given statuses of the two list retrievals. -/
def sampleEventWithStatus (trackStatus clusterStatus : StatusCode) : Pandora :=
  { sampleEvent [1] 120 with
    GetCurrentTrackList := (trackStatus, [1])
    GetCurrentClusterList := (clusterStatus, [10]) }

/-- The state in which a committer leaves `w` after the given calls, made in order. -/
def stateAfter {σ : Type} (commit : Committer σ) (w : σ) : List (Address × Address) → σ
  | [] => w
  | (pTrack, pCluster) :: rest => stateAfter commit (commit w pTrack pCluster).2 rest

/-- A committer that refuses the given track with `STATUS_CODE_FAILURE`, accepts every
other track, and leaves the state as it is. -/
def rejectTrack {σ : Type} (pRefused : Address) : Committer σ :=
  fun w pTrack _ => (if pTrack = pRefused then STATUS_CODE_FAILURE else STATUS_CODE_SUCCESS, w)

/-- Modelled from the spec: the Association Committer (section 4.3),
`PandoraContentApi::AddTrackClusterAssociation`, whose implementation is outside the files
at hand. It succeeds, sets the track's associated-cluster reference and appends the track to
the cluster's associated-track list. -/
def AddTrackClusterAssociation : Committer Pandora :=
  fun p pTrack pCluster =>
    (STATUS_CODE_SUCCESS,
      { p with
        track := fun x =>
          if x = pTrack then { p.track x with m_pAssociatedCluster := some pCluster }
          else p.track x
        cluster := fun x =>
          if x = pCluster then
            { p.cluster x with
              GetAssociatedTrackList := (p.cluster x).GetAssociatedTrackList ++ [pTrack] }
          else p.cluster x })

namespace Track

/-- Source: `Track::operator<` (Track.h); `pThis` and `pRhs` are the addresses of the two
tracks, which the source compares when neither momentum exceeds the other. -/
def operatorLess (pThis : Address) (this : Track) (pRhs : Address) (rhs : Track) : Bool :=
  if ¬ (this.m_momentumMagnitudeAtDca > rhs.m_momentumMagnitudeAtDca) ∧
      ¬ (rhs.m_momentumMagnitudeAtDca > this.m_momentumMagnitudeAtDca) then
    decide (pThis > pRhs)
  else
    decide (this.m_momentumMagnitudeAtDca > rhs.m_momentumMagnitudeAtDca)

/-- Source: `Track::SortByEnergy` (Track.h), applied to the tracks behind the two pointers. -/
def SortByEnergy (lhs rhs : Track) : Bool :=
  decide (lhs.GetEnergyAtDca > rhs.GetEnergyAtDca)

/-- Source: `Track::GetAssociatedCluster` (Track.h); the reference argument `pCluster` is
passed in and handed back with the status. -/
def GetAssociatedCluster (t : Track) (pCluster : Option Address) : StatusCode × Option Address :=
  if t.m_pAssociatedCluster = none then (STATUS_CODE_NOT_INITIALIZED, pCluster)
  else (STATUS_CODE_SUCCESS, t.m_pAssociatedCluster)

end Track

/-- The comparison `*a < *b` of the tracks at two addresses of the event. -/
def trackLess (p : Pandora) (a b : Address) : Bool :=
  Track.operatorLess a (p.track a) b (p.track b)

/-- A list of tracks is sorted with a comparison when no later element goes before an
earlier one. -/
def SortedWith (comp : Track → Track → Bool) (l : List Track) : Prop :=
  l.Pairwise (fun a b => comp b a = false)

/-- The sample track with the given momentum magnitude and energy at dca. -/
def sampleTrackWith (momentum energy : ℚ) : Track :=
  { sampleTrack with m_momentumMagnitudeAtDca := momentum, m_energyAtDca := energy }

/-- The sample track with the given associated cluster. -/
def sampleTrackAssociated (pCluster : Option Address) : Track :=
  { sampleTrack with m_pAssociatedCluster := pCluster }

/-- The element names that `ReadSettings` asks the configuration for. -/
inductive SettingName
  | MaxTrackClusterDeltaZ
  | MaxAbsoluteTrackClusterChi
  | MaxLayersCrossed
  | MaxSearchLayer
  | ParallelDistanceCut
  | HelixComparisonNLayers
  | HelixComparisonMaxOccupiedLayers
  | MaxTrackClusterDistance
  | MaxClosestHelixClusterDistance
  | MaxMeanHelixClusterDistance
  deriving DecidableEq, Repr

/-- The calls `XmlHelper::ReadValue(xmlHandle, name, value)` on the handle that `ReadSettings`
receives, taken as parameters: given the element name and the value the variable holds
before the call, the status returned and the value the variable holds afterwards. -/
structure TiXmlHandle where
  ReadFloat : SettingName → ℚ → StatusCode × ℚ
  ReadUnsigned : SettingName → Nat → StatusCode × Nat

/-- Source: `TrackRecoveryHelixAlgorithm::ReadSettings`, on the member values `s0` held before
the call. Each member is set to its default and then read; the macro
`PANDORA_RETURN_RESULT_IF_AND_IF(STATUS_CODE_SUCCESS, STATUS_CODE_NOT_FOUND, !=, ...)` returns
the status of the read when it differs from both codes. -/
def ReadSettings (xmlHandle : TiXmlHandle) (s0 : Settings) : StatusCode × Settings :=
  let r1 := xmlHandle.ReadFloat .MaxTrackClusterDeltaZ 250
  let s1 := { s0 with m_maxTrackClusterDeltaZ := r1.2 }
  if r1.1 ≠ STATUS_CODE_SUCCESS ∧ r1.1 ≠ STATUS_CODE_NOT_FOUND then (r1.1, s1) else
  let r2 := xmlHandle.ReadFloat .MaxAbsoluteTrackClusterChi (5 / 2)
  let s2 := { s1 with m_maxAbsoluteTrackClusterChi := r2.2 }
  if r2.1 ≠ STATUS_CODE_SUCCESS ∧ r2.1 ≠ STATUS_CODE_NOT_FOUND then (r2.1, s2) else
  let r3 := xmlHandle.ReadUnsigned .MaxLayersCrossed 50
  let s3 := { s2 with m_maxLayersCrossed := r3.2 }
  if r3.1 ≠ STATUS_CODE_SUCCESS ∧ r3.1 ≠ STATUS_CODE_NOT_FOUND then (r3.1, s3) else
  let r4 := xmlHandle.ReadUnsigned .MaxSearchLayer 20
  let s4 := { s3 with m_maxSearchLayer := r4.2 }
  if r4.1 ≠ STATUS_CODE_SUCCESS ∧ r4.1 ≠ STATUS_CODE_NOT_FOUND then (r4.1, s4) else
  let r5 := xmlHandle.ReadFloat .ParallelDistanceCut 100
  let s5 := { s4 with m_parallelDistanceCut := r5.2 }
  if r5.1 ≠ STATUS_CODE_SUCCESS ∧ r5.1 ≠ STATUS_CODE_NOT_FOUND then (r5.1, s5) else
  let r6 := xmlHandle.ReadUnsigned .HelixComparisonNLayers 20
  let s6 := { s5 with m_helixComparisonNLayers := r6.2 }
  if r6.1 ≠ STATUS_CODE_SUCCESS ∧ r6.1 ≠ STATUS_CODE_NOT_FOUND then (r6.1, s6) else
  let r7 := xmlHandle.ReadUnsigned .HelixComparisonMaxOccupiedLayers 9
  let s7 := { s6 with m_helixComparisonMaxOccupiedLayers := r7.2 }
  if r7.1 ≠ STATUS_CODE_SUCCESS ∧ r7.1 ≠ STATUS_CODE_NOT_FOUND then (r7.1, s7) else
  let r8 := xmlHandle.ReadFloat .MaxTrackClusterDistance 100
  let s8 := { s7 with m_maxTrackClusterDistance := r8.2 }
  if r8.1 ≠ STATUS_CODE_SUCCESS ∧ r8.1 ≠ STATUS_CODE_NOT_FOUND then (r8.1, s8) else
  let r9 := xmlHandle.ReadFloat .MaxClosestHelixClusterDistance 100
  let s9 := { s8 with m_maxClosestHelixClusterDistance := r9.2 }
  if r9.1 ≠ STATUS_CODE_SUCCESS ∧ r9.1 ≠ STATUS_CODE_NOT_FOUND then (r9.1, s9) else
  let r10 := xmlHandle.ReadFloat .MaxMeanHelixClusterDistance 150
  let s10 := { s9 with m_maxMeanHelixClusterDistance := r10.2 }
  if r10.1 ≠ STATUS_CODE_SUCCESS ∧ r10.1 ≠ STATUS_CODE_NOT_FOUND then (r10.1, s10) else
  (STATUS_CODE_SUCCESS, s10)

/-- The statuses of the ten reads that `ReadSettings` makes when none of them stops it, in the
order of the source. -/
def readStatuses (xmlHandle : TiXmlHandle) : List StatusCode :=
  [(xmlHandle.ReadFloat .MaxTrackClusterDeltaZ 250).1,
   (xmlHandle.ReadFloat .MaxAbsoluteTrackClusterChi (5 / 2)).1,
   (xmlHandle.ReadUnsigned .MaxLayersCrossed 50).1,
   (xmlHandle.ReadUnsigned .MaxSearchLayer 20).1,
   (xmlHandle.ReadFloat .ParallelDistanceCut 100).1,
   (xmlHandle.ReadUnsigned .HelixComparisonNLayers 20).1,
   (xmlHandle.ReadUnsigned .HelixComparisonMaxOccupiedLayers 9).1,
   (xmlHandle.ReadFloat .MaxTrackClusterDistance 100).1,
   (xmlHandle.ReadFloat .MaxClosestHelixClusterDistance 100).1,
   (xmlHandle.ReadFloat .MaxMeanHelixClusterDistance 150).1]

/-- A configuration without any of the elements: every read reports not-found and leaves the
variable as it is. -/
def emptyXmlHandle : TiXmlHandle :=
  { ReadFloat := fun _ v => (STATUS_CODE_NOT_FOUND, v)
    ReadUnsigned := fun _ v => (STATUS_CODE_NOT_FOUND, v) }

/-- A configuration whose element `MaxSearchLayer` cannot be converted: that read reports
`STATUS_CODE_FAILURE`, every other read reports not-found. -/
def brokenXmlHandle : TiXmlHandle :=
  { ReadFloat := fun _ v => (STATUS_CODE_NOT_FOUND, v)
    ReadUnsigned := fun n v =>
      (if n = .MaxSearchLayer then STATUS_CODE_FAILURE else STATUS_CODE_NOT_FOUND, v) }

/-- The sample helpers (track-cluster distance 40) with the given closest distance from the
helix to a hit of the cluster; the mean distance stays 70. -/
def sampleHelpersClosest (closest : ℚ) : Helpers :=
  { sampleHelpers (fun _ => 40) with
    GetClusterHelixDistance := fun _ _ _ _ _ => (STATUS_CODE_SUCCESS, closest, 70) }

/-- The event with its two lists presented in another order; the retrieval statuses and the
objects behind the addresses stay the same. -/
def reordered (p : Pandora) (tracks clusters : List Address) : Pandora :=
  { p with
    GetCurrentTrackList := (p.GetCurrentTrackList.1, tracks)
    GetCurrentClusterList := (p.GetCurrentClusterList.1, clusters) }

/-- The first candidate of minimum score in a vector: the first one whose score is less than
or equal to the score of every candidate of the vector. -/
def firstMinimum (v : AssociationInfoVector) : Option AssociationInfo :=
  v.find? (fun a => v.all (fun x => decide (a.GetClosestApproach ≤ x.GetClosestApproach)))

/-- The independent per-track choice: each track of the map with a non-empty vector, paired
with the first candidate of minimum score in its own vector. -/
def perTrackChoice (m : TrackAssociationInfoMap) : List (Address × AssociationInfo) :=
  m.filterMap (fun e => (firstMinimum e.2).map (fun a => (e.1, a)))

/-- The pairings that the loop of `MakeTrackClusterAssociations` selects, with the score found
for each, in order, when every commit succeeds: the search, then the erase of the track. -/
def selectedPairings : Nat → TrackAssociationInfoMap → List (Address × AssociationInfo)
  | 0, _ => []
  | fuel + 1, m =>
    match (findClosestPairing m).pBestTrack, (findClosestPairing m).pBestCluster with
    | some pBestTrack, some pBestCluster =>
      (pBestTrack, ⟨pBestCluster, (findClosestPairing m).closestApproach⟩) ::
        selectedPairings fuel (m.erase pBestTrack)
    | _, _ => []

/-- The committer call that a pairing stands for. -/
def callOf (x : Address × AssociationInfo) : Address × Address := (x.1, x.2.GetCluster)

/-- An assignment of one candidate to each track of the map that has a candidate. -/
def IsAssignment (m : TrackAssociationInfoMap) (l : List (Address × AssociationInfo)) : Prop :=
  List.Forall₂ (fun e x => x.1 = e.1 ∧ x.2 ∈ e.2) (m.filter (fun e => !e.2.isEmpty)) l

/-- The total score of a list of pairings. -/
def totalScore (l : List (Address × AssociationInfo)) : ℚ :=
  (l.map (fun x => x.2.GetClosestApproach)).sum

/-- The scores of a list of pairings, in order. -/
def scoresOf (l : List (Address × AssociationInfo)) : List ℚ :=
  l.map (fun x => x.2.GetClosestApproach)

/-- The map after the statement `map.erase(map.find(pTrack))` for each of the given tracks,
in order. -/
def eraseAll (m : TrackAssociationInfoMap) (tracks : List Address) : TrackAssociationInfoMap :=
  tracks.foldl TrackAssociationInfoMap.erase m

/-- The vector stored under a track, empty when the track is not a key of the map. -/
def vectorOf (m : TrackAssociationInfoMap) (pTrack : Address) : AssociationInfoVector :=
  (m.find pTrack).getD []

/-- The candidates that the inner loop of `GetTrackAssociationInfoMap` produces for a track,
in the iteration order of the cluster list. -/
def candidatesInOrder (s : Settings) (h : Helpers) (p : Pandora) (pTrack : Address) :
    AssociationInfoVector :=
  p.GetCurrentClusterList.2.filterMap (associationInfoFor s h p pTrack)

/-- The sample event with the given track list and cluster list. -/
def sampleEventWithClusters (tracks clusters : List Address) : Pandora :=
  { sampleEvent tracks 120 with GetCurrentClusterList := (STATUS_CODE_SUCCESS, clusters) }

/-- Helpers for the sample event: chi 0, no layer crossed, for the cluster at address `c` the
track-cluster distance `d c`; the helix distances are 200 (closest) and 200 (mean). -/
def sampleHelpersByCluster (d : Address → ℚ) : Helpers :=
  { GetTrackClusterCompatibility := fun _ _ => 0
    GetNLayersCrossed := fun _ _ _ => 0
    GetTrackClusterDistance := fun _ c _ _ => (STATUS_CODE_SUCCESS, d c)
    GetClusterHelixDistance := fun _ _ _ _ _ => (STATUS_CODE_SUCCESS, 200, 200) }

/-- Whether each of the given calls, made in order from the state `w`, is accepted by the
committer. -/
def commitsSucceed {σ : Type} (commit : Committer σ) (w : σ) : List (Address × Address) → Bool
  | [] => true
  | (pTrack, pCluster) :: rest =>
    decide ((commit w pTrack pCluster).1 = STATUS_CODE_SUCCESS) &&
      commitsSucceed commit (commit w pTrack pCluster).2 rest

/-! ### The class `RunningMeanRMS` of `ECalPhotonClusteringAlgorithm`

`CalcMean`, `CalcS2` and `Fill` take the `double` operations in exact arithmetic; the
`Rounded` versions round the result of every operation. The `int` counter wraps on 32 bits,
and the library function `sqrt` is a parameter. -/

/-- The value of an `int` expression whose mathematical value is `x`: two's complement on 32
bits. -/
def wrapInt (x : Int) : Int := (x + 2147483648) % 4294967296 - 2147483648

/-- The largest value of an `int`. -/
def INT_MAX : Nat := 2147483647

/-- The data members of `ECalPhotonClusteringAlgorithm::RunningMeanRMS`. -/
structure RunningMeanRMS where
  m_mean : ℚ
  m_nEvents : Int
  m_weights : ℚ
  m_s2 : ℚ
  m_Rms : ℚ
  deriving DecidableEq, Repr

namespace RunningMeanRMS

/-- Source: the constructor `RunningMeanRMS()`. -/
def fresh : RunningMeanRMS := ⟨0, 0, 0, 0, 0⟩

/-- Source: `RunningMeanRMS::GetRMS`. -/
def GetRMS (r : RunningMeanRMS) : ℚ := r.m_Rms

/-- Source: `RunningMeanRMS::GetMean`. -/
def GetMean (r : RunningMeanRMS) : ℚ := r.m_mean

/-- Source: `RunningMeanRMS::GetWeightSum`. -/
def GetWeightSum (r : RunningMeanRMS) : ℚ := r.m_weights

/-- Source: `RunningMeanRMS::GetN`, which returns the counter as a `double`. -/
def GetN (r : RunningMeanRMS) : ℚ := (r.m_nEvents : ℚ)

/-- Source: `RunningMeanRMS::Clear`. -/
def Clear (_r : RunningMeanRMS) : RunningMeanRMS := ⟨0, 0, 0, 0, 0⟩

/-- The constant `epsilon = 1e-7` of `CalcMean` and `CalcS2`. -/
def epsilon : ℚ := 1 / 10000000

/-- Source: `RunningMeanRMS::CalcMean`. -/
def CalcMean (meanOld n valNew weightsumOld evweight : ℚ) : ℚ :=
  if |n - 0| < epsilon then valNew
  else (weightsumOld * meanOld + evweight * valNew) / (weightsumOld + evweight)

/-- Source: `RunningMeanRMS::CalcS2`. -/
def CalcS2 (meanOld meanNew nNew s2Old valNew : ℚ) : ℚ :=
  if |nNew - 0| < epsilon then 0
  else ((nNew - 1) * s2Old + (valNew - meanNew) * (valNew - meanOld)) / nNew

/-- Source: `RunningMeanRMS::Fill`. -/
def Fill (sqrt : ℚ → ℚ) (r : RunningMeanRMS) (value eventWeight : ℚ) : RunningMeanRMS :=
  let nNew := wrapInt (r.m_nEvents + 1)
  let meanNew := CalcMean r.m_mean (r.m_nEvents : ℚ) value r.m_weights eventWeight
  let weightsumNew := r.m_weights + eventWeight
  let s2New := CalcS2 r.m_mean meanNew (nNew : ℚ) r.m_s2 value
  { m_Rms := sqrt s2New
    m_mean := meanNew
    m_nEvents := nNew
    m_weights := weightsumNew
    m_s2 := s2New }

/-- The calls `Fill(x1, w1)`, ..., `Fill(xn, wn)` made in order on the object `r`. -/
def fillAll (sqrt : ℚ → ℚ) (r : RunningMeanRMS) (entries : List (ℚ × ℚ)) : RunningMeanRMS :=
  entries.foldl (fun r1 entry => Fill sqrt r1 entry.1 entry.2) r

end RunningMeanRMS

/-- The weighted sum `w1 * x1 + ... + wn * xn` of a list of entries `(x, w)`. -/
def weightedSum (entries : List (ℚ × ℚ)) : ℚ := (entries.map (fun e => e.2 * e.1)).sum

/-- The sum `w1 + ... + wn` of the weights of a list of entries `(x, w)`. -/
def weightSum (entries : List (ℚ × ℚ)) : ℚ := (entries.map Prod.snd).sum

/-- The arithmetic mean of a list of values. -/
def arithmeticMean (xs : List ℚ) : ℚ := xs.sum / (xs.length : ℚ)

/-- The population variance of a list of values: the mean of the squared deviations from the
arithmetic mean. -/
def populationVariance (xs : List ℚ) : ℚ :=
  (xs.map (fun x => (x - arithmeticMean xs) ^ 2)).sum / (xs.length : ℚ)

/-- The entries `(x, w)` for a list of values and one common weight. -/
def withWeight (w : ℚ) (xs : List ℚ) : List (ℚ × ℚ) := xs.map (fun x => (x, w))

/-- A stand-in for the library function `sqrt` on exact rationals: the integer part of the
square root of the integer part. -/
def sqrtFloor (y : ℚ) : ℚ := (Nat.sqrt (Int.toNat (Int.floor y)) : ℚ)

namespace RunningMeanRMS

/-- Source: `RunningMeanRMS::CalcMean`, with every arithmetic operation on `double` values
followed by the rounding `round` (the constant `1e-7` is rounded as well). -/
def CalcMeanRounded (round : ℚ → ℚ) (meanOld n valNew weightsumOld evweight : ℚ) : ℚ :=
  if |round (n - 0)| < round epsilon then valNew
  else
    round (round (round (weightsumOld * meanOld) + round (evweight * valNew)) /
      round (weightsumOld + evweight))

/-- Source: `RunningMeanRMS::CalcS2`, with every arithmetic operation on `double` values
followed by the rounding `round`. -/
def CalcS2Rounded (round : ℚ → ℚ) (meanOld meanNew nNew s2Old valNew : ℚ) : ℚ :=
  if |round (nNew - 0)| < round epsilon then 0
  else
    round (round (round (round (nNew - 1) * s2Old) +
      round (round (valNew - meanNew) * round (valNew - meanOld))) / nNew)

/-- Source: `RunningMeanRMS::Fill`, with every arithmetic operation on `double` values
followed by the rounding `round`; `Fill` is the case of exact arithmetic, where `round`
changes nothing. -/
def FillRounded (round : ℚ → ℚ) (sqrt : ℚ → ℚ) (r : RunningMeanRMS) (value eventWeight : ℚ) :
    RunningMeanRMS :=
  let nNew := wrapInt (r.m_nEvents + 1)
  let meanNew := CalcMeanRounded round r.m_mean (r.m_nEvents : ℚ) value r.m_weights eventWeight
  let weightsumNew := round (r.m_weights + eventWeight)
  let s2New := CalcS2Rounded round r.m_mean meanNew (nNew : ℚ) r.m_s2 value
  { m_Rms := sqrt s2New
    m_mean := meanNew
    m_nEvents := nNew
    m_weights := weightsumNew
    m_s2 := s2New }

/-- The calls `Fill(x1, w1)`, ..., `Fill(xn, wn)` made in order on the object `r`, in rounded
arithmetic. -/
def fillAllRounded (round : ℚ → ℚ) (sqrt : ℚ → ℚ) (r : RunningMeanRMS)
    (entries : List (ℚ × ℚ)) : RunningMeanRMS :=
  entries.foldl (fun r1 entry => FillRounded round sqrt r1 entry.1 entry.2) r

end RunningMeanRMS

namespace TrackAssociationInfoMap

theorem mem_pushBack {m : TrackAssociationInfoMap} {k : Address} {info : AssociationInfo}
    {e : Address × AssociationInfoVector} (he : e ∈ pushBack m k info) :
    e ∈ m ∨ (e.1 = k ∧ ∀ a ∈ e.2, a = info ∨ ∃ v, (k, v) ∈ m ∧ a ∈ v) := by
  induction m with
  | nil =>
    simp only [pushBack, List.mem_singleton] at he
    subst he
    right
    simp
  | cons hd tl ih =>
    obtain ⟨k0, v0⟩ := hd
    simp only [pushBack] at he
    split_ifs at he with h1 h2
    · rcases List.mem_cons.1 he with rfl | he
      · right; simp
      · left; exact he
    · rcases List.mem_cons.1 he with rfl | he
      · right
        refine ⟨h2.symm, ?_⟩
        intro a ha
        rcases List.mem_append.1 ha with ha | ha
        · right; exact ⟨v0, by simp [h2], ha⟩
        · left; simpa using ha
      · left; exact List.mem_cons_of_mem _ he
    · rcases List.mem_cons.1 he with rfl | he
      · left; simp
      · rcases ih he with h | ⟨h3, h4⟩
        · left; exact List.mem_cons_of_mem _ h
        · right
          refine ⟨h3, ?_⟩
          intro a ha
          rcases h4 a ha with h | ⟨v, hv, hav⟩
          · left; exact h
          · right; exact ⟨v, List.mem_cons_of_mem _ hv, hav⟩

theorem mem_erase {m : TrackAssociationInfoMap} {k : Address}
    {e : Address × AssociationInfoVector} (he : e ∈ erase m k) : e ∈ m := by
  induction m with
  | nil => simp [erase] at he
  | cons hd tl ih =>
    obtain ⟨k0, v0⟩ := hd
    simp only [erase] at he
    split_ifs at he with h1
    · exact List.mem_cons_of_mem _ he
    · rcases List.mem_cons.1 he with rfl | he
      · simp
      · exact List.mem_cons_of_mem _ (ih he)

end TrackAssociationInfoMap

/-! ## The candidate generator -/

theorem associationInfoFor_cluster {s : Settings} {h : Helpers} {p : Pandora}
    {pTrack pCluster : Address} {a : AssociationInfo}
    (ha : associationInfoFor s h p pTrack pCluster = some a) : a.m_pCluster = pCluster := by
  unfold associationInfoFor at ha
  simp only at ha
  split_ifs at ha
  simp only [Option.some.injEq] at ha
  rw [← ha]

theorem clusterStep_foldl_sound (s : Settings) (h : Helpers) (p : Pandora) (pTrack : Address)
    (Q : Address → AssociationInfo → Prop)
    (hQ : ∀ c ∈ p.GetCurrentClusterList.2, ∀ a, associationInfoFor s h p pTrack c = some a → Q pTrack a)
    (clusters : List Address) (hsub : ∀ c ∈ clusters, c ∈ p.GetCurrentClusterList.2)
    (m : TrackAssociationInfoMap) (hm : ∀ e ∈ m, ∀ a ∈ e.2, Q e.1 a) :
    ∀ e ∈ clusters.foldl (clusterStep s h p pTrack) m, ∀ a ∈ e.2, Q e.1 a := by
  induction clusters generalizing m with
  | nil => simpa using hm
  | cons c cs ih =>
    rw [List.foldl_cons]
    apply ih (fun c hc => hsub c (List.mem_cons_of_mem _ hc))
    intro e he a ha
    unfold clusterStep at he
    cases hc : associationInfoFor s h p pTrack c with
    | none => rw [hc] at he; exact hm e he a ha
    | some info =>
      rw [hc] at he
      rcases TrackAssociationInfoMap.mem_pushBack he with h1 | ⟨h1, h2⟩
      · exact hm e h1 a ha
      · rcases h2 a ha with h3 | ⟨v, hv, hav⟩
        · rw [h1, h3]
          exact hQ c (hsub c (List.mem_cons_self _ _)) info hc
        · rw [h1]
          exact hm (pTrack, v) hv a hav

theorem trackStep_foldl_sound (s : Settings) (h : Helpers) (p : Pandora)
    (Q : Address → AssociationInfo → Prop)
    (tracks : List Address)
    (hQ : ∀ t ∈ tracks, trackIsUsed p t = true → ∀ c ∈ p.GetCurrentClusterList.2, ∀ a,
      associationInfoFor s h p t c = some a → Q t a)
    (m : TrackAssociationInfoMap) (hm : ∀ e ∈ m, ∀ a ∈ e.2, Q e.1 a) :
    ∀ e ∈ tracks.foldl (trackStep s h p p.GetCurrentClusterList.2) m, ∀ a ∈ e.2, Q e.1 a := by
  induction tracks generalizing m with
  | nil => simpa using hm
  | cons t ts ih =>
    rw [List.foldl_cons]
    apply ih (fun t ht => hQ t (List.mem_cons_of_mem _ ht))
    unfold trackStep
    split_ifs with hu
    · exact clusterStep_foldl_sound s h p t Q (hQ t (List.mem_cons_self _ _) hu) _
        (fun c hc => hc) m hm
    · exact hm

/-- Soundness of the generator: started on the empty map, every candidate of the map it
hands back was produced by the inner loop body for a used track of the track list and a
cluster of the cluster list. -/
theorem generated_of_mem (s : Settings) (h : Helpers) (p : Pandora)
    {e : Address × AssociationInfoVector} (he : e ∈ (GetTrackAssociationInfoMap s h p []).2)
    {a : AssociationInfo} (ha : a ∈ e.2) : Generated s h p e.1 a := by
  unfold GetTrackAssociationInfoMap at he
  split_ifs at he with h1 h2
  · simp at he
  · simp at he
  · refine trackStep_foldl_sound s h p (Generated s h p) p.GetCurrentTrackList.2 ?_ [] (by simp) e he a ha
    intro t ht hu c hc a hca
    have := associationInfoFor_cluster hca
    exact ⟨ht, hu, by rw [this]; exact hc, by rw [this]; exact hca⟩

theorem clusterStep_foldl_keys (s : Settings) (h : Helpers) (p : Pandora) (pTrack : Address)
    (P : Address → Prop) (hP : P pTrack) (clusters : List Address)
    (m : TrackAssociationInfoMap) (hm : ∀ e ∈ m, P e.1) :
    ∀ e ∈ clusters.foldl (clusterStep s h p pTrack) m, P e.1 := by
  induction clusters generalizing m with
  | nil => simpa using hm
  | cons c cs ih =>
    rw [List.foldl_cons]
    apply ih
    intro e he
    unfold clusterStep at he
    cases hc : associationInfoFor s h p pTrack c with
    | none => rw [hc] at he; exact hm e he
    | some info =>
      rw [hc] at he
      rcases TrackAssociationInfoMap.mem_pushBack he with h1 | ⟨h1, _⟩
      · exact hm e h1
      · rw [h1]; exact hP

theorem trackStep_foldl_keys (s : Settings) (h : Helpers) (p : Pandora) (clusters : List Address)
    (P : Address → Prop) (tracks : List Address)
    (hP : ∀ t ∈ tracks, trackIsUsed p t = true → P t)
    (m : TrackAssociationInfoMap) (hm : ∀ e ∈ m, P e.1) :
    ∀ e ∈ tracks.foldl (trackStep s h p clusters) m, P e.1 := by
  induction tracks generalizing m with
  | nil => simpa using hm
  | cons t ts ih =>
    rw [List.foldl_cons]
    apply ih (fun t ht => hP t (List.mem_cons_of_mem _ ht))
    unfold trackStep
    split_ifs with hu
    · exact clusterStep_foldl_keys s h p t P (hP t (List.mem_cons_self _ _) hu) _ m hm
    · exact hm

theorem trackIsUsed_iff (p : Pandora) (pTrack : Address) :
    trackIsUsed p pTrack = true ↔ EligibleTrack p pTrack := by
  unfold trackIsUsed EligibleTrack Track.HasAssociatedCluster Track.ReachesECal
    Track.GetDaughterTrackList
  cases (p.track pTrack).m_pAssociatedCluster <;> cases (p.track pTrack).m_reachesECal <;>
    cases (p.track pTrack).m_daughterTrackList <;> simp

/-- What a candidate produced by the inner loop body tells about the pair. -/
theorem associationInfoFor_eq_some_iff (s : Settings) (h : Helpers) (p : Pandora)
    (pTrack pCluster : Address) (a : AssociationInfo) :
    associationInfoFor s h p pTrack pCluster = some a ↔
      (EligibleCluster p pCluster ∧ PassesLongitudinalCut s p pTrack pCluster ∧
        PassesChiCut s h p pTrack pCluster ∧ PassesLayersCrossedCut s h p pTrack pCluster ∧
        (trackClusterDistanceOf s h pTrack pCluster).1 = STATUS_CODE_SUCCESS ∧
        (clusterHelixDistanceOf s h p pTrack pCluster).1 = STATUS_CODE_SUCCESS ∧
        PassesProximityCut s h p pTrack pCluster) ∧
      a = ⟨pCluster, stdMin (clusterHelixDistanceOf s h p pTrack pCluster).2.1
        (trackClusterDistanceOf s h pTrack pCluster).2⟩ := by
  unfold associationInfoFor EligibleCluster PassesLongitudinalCut PassesChiCut
    PassesLayersCrossedCut PassesProximityCut trackClusterDistanceOf clusterHelixDistanceOf
    chiOf nLayersCrossedOf zTrack zCluster Track.GetHelixFitAtECal Track.GetEnergyAtDca
  simp only
  by_cases h1 : (p.cluster pCluster).GetNCaloHits = 0
  · simp [h1]
  rw [if_neg h1]
  have h1' : 1 ≤ (p.cluster pCluster).GetNCaloHits := Nat.one_le_iff_ne_zero.2 h1
  by_cases h2 : ((!(p.cluster pCluster).GetAssociatedTrackList.isEmpty) || (p.cluster pCluster).IsPhoton) = true
  · rw [if_pos h2]
    simp only [Bool.or_eq_true, Bool.not_eq_true', List.isEmpty_eq_false] at h2
    constructor
    · intro hh; cases hh
    · rintro ⟨⟨⟨_, h3, h4⟩, _⟩, _⟩
      rcases h2 with h2 | h2
      · rw [h3] at h2; simp at h2
      · rw [h4] at h2; cases h2
  rw [if_neg h2]
  have h2a : (p.cluster pCluster).GetAssociatedTrackList = [] := by
    cases hl : (p.cluster pCluster).GetAssociatedTrackList with
    | nil => rfl
    | cons x xs => rw [hl] at h2; simp at h2
  have h2b : (p.cluster pCluster).IsPhoton = false := by
    cases hl : (p.cluster pCluster).IsPhoton with
    | false => rfl
    | true => rw [hl] at h2; simp at h2
  split_ifs with h3 h4 h5 h6 h7 h8
  all_goals first
    | (constructor
       · intro hh; cases hh
       · rintro ⟨⟨_, ⟨g1, g2⟩, g3, g4, g5, g6, g7⟩, _⟩
         first
           | (rcases h3 with h3 | h3
              · exact g1 h3
              · exact g2 h3)
           | exact g3 h4
           | exact g4 h5
           | exact h6 g5
           | exact h7 g6
           | (rcases g7 with g7 | ⟨g7, g8⟩
              · exact absurd h8.1 (not_lt.2 g7)
              · rcases h8.2 with h9 | h9
                · exact absurd h9 (not_lt.2 g7)
                · exact absurd h9 (not_lt.2 g8)))
    | skip
  constructor
  · intro hh
    simp only [Option.some.injEq] at hh
    refine ⟨⟨⟨h1', h2a, h2b⟩, ⟨fun g => h3 (Or.inl g), fun g => h3 (Or.inr g)⟩, h4, h5,
      not_not.1 h6, not_not.1 h7, ?_⟩, hh.symm⟩
    by_contra hc
    simp only [not_or, not_and_or, not_le] at hc
    exact h8 ⟨hc.1, by
      rcases hc.2 with g | g
      · exact Or.inl g
      · exact Or.inr g⟩
  · rintro ⟨_, rfl⟩
    rfl

theorem candidatesOf_eq_nil {m : TrackAssociationInfoMap} {pTrack pCluster : Address}
    (hm : ∀ e ∈ m, e.1 = pTrack → ∀ a ∈ e.2, a.m_pCluster ≠ pCluster) :
    candidatesOf m pTrack pCluster = [] := by
  induction m with
  | nil => rfl
  | cons hd tl ih =>
    obtain ⟨k, v⟩ := hd
    simp only [candidatesOf, List.append_eq_nil]
    refine ⟨?_, ih (fun e he => hm e (List.mem_cons_of_mem _ he))⟩
    split_ifs with hk
    · rw [List.filter_eq_nil_iff]
      intro a ha
      simpa using hm (k, v) (List.mem_cons_self _ _) hk a ha
    · rfl

/-- A pair for which the inner loop body says `continue` has no candidate in the map that
the generator hands back. -/
theorem candidatesOf_generated_eq_nil (s : Settings) (h : Helpers) (p : Pandora)
    (pTrack pCluster : Address) (hnone : associationInfoFor s h p pTrack pCluster = none) :
    candidatesOf (GetTrackAssociationInfoMap s h p []).2 pTrack pCluster = [] := by
  apply candidatesOf_eq_nil
  intro e he hk a ha hc
  have hg := (generated_of_mem s h p he ha).2.2.2
  rw [hk, hc, hnone] at hg
  cases hg

theorem stdMin_eq_min (a b : ℚ) : stdMin a b = min b a := by
  unfold stdMin
  split_ifs with hlt
  · exact (min_eq_left hlt.le).symm
  · exact (min_eq_right (not_lt.1 hlt)).symm

/-! ## The claims on the candidate generator -/

/-- C4: every track that is a key of the map produced by `GetTrackAssociationInfoMap` is a
member of the current track list, has no associated cluster, reaches the ECal and has an
empty daughter track list. -/
theorem C4_keys_are_eligible_tracks (s : Settings) (h : Helpers) (p : Pandora) (pTrack : Address)
    (hk : pTrack ∈ TrackAssociationInfoMap.keys (GetTrackAssociationInfoMap s h p []).2) :
    pTrack ∈ p.GetCurrentTrackList.2 ∧ (p.track pTrack).HasAssociatedCluster = false ∧
      (p.track pTrack).ReachesECal = true ∧ (p.track pTrack).GetDaughterTrackList = [] := by
  obtain ⟨e, he, rfl⟩ := List.mem_map.1 hk
  have key : e.1 ∈ p.GetCurrentTrackList.2 ∧ EligibleTrack p e.1 := by
    unfold GetTrackAssociationInfoMap at he
    split_ifs at he with h1 h2
    · simp at he
    · simp at he
    · exact trackStep_foldl_keys s h p _
        (fun t => t ∈ p.GetCurrentTrackList.2 ∧ EligibleTrack p t) p.GetCurrentTrackList.2
        (fun t ht hu => ⟨ht, (trackIsUsed_iff p t).1 hu⟩) [] (by simp) e he
  obtain ⟨hmem, h1, h2, h3⟩ := key
  refine ⟨hmem, ?_, h2, h3⟩
  unfold Track.HasAssociatedCluster
  rw [h1]
  rfl

/-- Witness of C4 on the sample event: the track at address 1 is a key of the map. -/
theorem C4_keys_are_eligible_tracks_witness :
    1 ∈ TrackAssociationInfoMap.keys (GetTrackAssociationInfoMap defaultSettings
        (sampleHelpers (fun _ => 40)) (sampleEvent [1] 120) []).2 ∧
      (1 ∈ (sampleEvent [1] 120).GetCurrentTrackList.2 ∧
        ((sampleEvent [1] 120).track 1).HasAssociatedCluster = false ∧
        ((sampleEvent [1] 120).track 1).ReachesECal = true ∧
        ((sampleEvent [1] 120).track 1).GetDaughterTrackList = []) :=
  ⟨by decide!, C4_keys_are_eligible_tracks defaultSettings (sampleHelpers (fun _ => 40))
    (sampleEvent [1] 120) 1 (by decide!)⟩

/-- C5: whatever the helpers return, no candidate of the map produced by
`GetTrackAssociationInfoMap` refers to a cluster with zero calo hits, with a non-empty
associated track list, or flagged as a photon. -/
theorem C5_candidates_refer_to_eligible_clusters (s : Settings) (h : Helpers) (p : Pandora)
    (e : Address × AssociationInfoVector) (he : e ∈ (GetTrackAssociationInfoMap s h p []).2)
    (a : AssociationInfo) (ha : a ∈ e.2) :
    0 < (p.cluster a.GetCluster).GetNCaloHits ∧
      (p.cluster a.GetCluster).GetAssociatedTrackList = [] ∧
      (p.cluster a.GetCluster).IsPhoton = false := by
  have hg := (generated_of_mem s h p he ha).2.2.2
  exact ((associationInfoFor_eq_some_iff s h p _ _ a).1 hg).1.1

/-- Witness of C5 on the sample event. -/
theorem C5_candidates_refer_to_eligible_clusters_witness :
    ((1, [⟨10, 40⟩]) ∈ (GetTrackAssociationInfoMap defaultSettings (sampleHelpers (fun _ => 40))
        (sampleEvent [1] 120) []).2 ∧ (⟨10, 40⟩ : AssociationInfo) ∈ [(⟨10, 40⟩ : AssociationInfo)]) ∧
      (0 < ((sampleEvent [1] 120).cluster 10).GetNCaloHits ∧
        ((sampleEvent [1] 120).cluster 10).GetAssociatedTrackList = [] ∧
        ((sampleEvent [1] 120).cluster 10).IsPhoton = false) :=
  ⟨⟨by decide!, by decide!⟩, C5_candidates_refer_to_eligible_clusters defaultSettings
    (sampleHelpers (fun _ => 40)) (sampleEvent [1] 120) (1, [⟨10, 40⟩]) (by decide!) ⟨10, 40⟩
    (by decide!)⟩

/-- C6 (amended): if, with the sum and the product evaluated in `float` arithmetic as the
code evaluates them, `|zTrack|` exceeds the rounded sum `|zCluster| + maxTrackClusterDeltaZ`
or the rounded product `zTrack * zCluster` is negative, the map produced by
`GetTrackAssociationInfoMap` holds no candidate for the pair; in particular this is so for a
track at z = +100 and a cluster at z = -120. -/
theorem C6_longitudinal_cut_rejects_in_float (s : Settings) (h : Helpers) (p : Pandora)
    (pTrack pCluster : Address)
    (hcut : (|zTrack p pTrack| > floatAdd |zCluster p pCluster| s.m_maxTrackClusterDeltaZ ∨
        floatMul (zTrack p pTrack) (zCluster p pCluster) < 0) ∨
      (zTrack p pTrack = 100 ∧ zCluster p pCluster = -120)) :
    candidatesOf (GetTrackAssociationInfoMap s h p []).2 pTrack pCluster = [] := by
  apply candidatesOf_generated_eq_nil
  have hrej : ¬ PassesLongitudinalCut s p pTrack pCluster := by
    rintro ⟨g1, g2⟩
    rcases hcut with (hc | hc) | ⟨hz1, hz2⟩
    · exact g1 hc
    · exact g2 hc
    · apply g2
      rw [hz1, hz2]
      decide!
  cases hc : associationInfoFor s h p pTrack pCluster with
  | none => rfl
  | some a => exact absurd ((associationInfoFor_eq_some_iff s h p _ _ a).1 hc).1.2.1 hrej

/-- Witness of C6 (amended): the sample track at z = +100 and the sample cluster at
z = -120; the rounded product is -12000. -/
theorem C6_longitudinal_cut_rejects_in_float_witness :
    floatMul 100 (-120) = -12000 ∧
      ((|zTrack (sampleEvent [1] (-120)) 1| > floatAdd |zCluster (sampleEvent [1] (-120)) 10|
          defaultSettings.m_maxTrackClusterDeltaZ ∨
        floatMul (zTrack (sampleEvent [1] (-120)) 1) (zCluster (sampleEvent [1] (-120)) 10) < 0) ∨
      (zTrack (sampleEvent [1] (-120)) 1 = 100 ∧ zCluster (sampleEvent [1] (-120)) 10 = -120)) ∧
      candidatesOf (GetTrackAssociationInfoMap defaultSettings (sampleHelpers (fun _ => 40))
        (sampleEvent [1] (-120)) []).2 1 10 = [] :=
  ⟨by decide!, by decide!, C6_longitudinal_cut_rejects_in_float defaultSettings
    (sampleHelpers (fun _ => 40)) (sampleEvent [1] (-120)) 1 10 (by decide!)⟩

/-- Counterexample to C6 as stated, with the default configuration. First, a track at
z = 2250.00048828125 and a cluster at z = 2000.0003662109375, both `float` values:
`|zTrack| > |zCluster| + 250` holds, but the `float` sum rounds up to the z of the track, the
comparison of the code is false, and the candidate is stored. Second, a track at
z = 2 ^ (-100) and a cluster at z = - 2 ^ (-100): `zTrack * zCluster < 0` holds, but the
`float` product underflows to zero, and the candidate is stored. -/
theorem C6_rounding_counterexample :
    (|zTrack (sampleEventAt 2250.00048828125 2000.0003662109375) 1| >
        |zCluster (sampleEventAt 2250.00048828125 2000.0003662109375) 10| +
          defaultSettings.m_maxTrackClusterDeltaZ ∧
      floatAdd |zCluster (sampleEventAt 2250.00048828125 2000.0003662109375) 10|
        defaultSettings.m_maxTrackClusterDeltaZ = 2250.00048828125 ∧
      candidatesOf (GetTrackAssociationInfoMap defaultSettings (sampleHelpers (fun _ => 40))
        (sampleEventAt 2250.00048828125 2000.0003662109375) []).2 1 10 = [⟨10, 40⟩]) ∧
    (zTrack (sampleEventAt (1 / 1267650600228229401496703205376)
          (-(1 / 1267650600228229401496703205376))) 1 *
        zCluster (sampleEventAt (1 / 1267650600228229401496703205376)
          (-(1 / 1267650600228229401496703205376))) 10 < 0 ∧
      floatMul (1 / 1267650600228229401496703205376)
        (-(1 / 1267650600228229401496703205376)) = 0 ∧
      candidatesOf (GetTrackAssociationInfoMap defaultSettings (sampleHelpers (fun _ => 40))
        (sampleEventAt (1 / 1267650600228229401496703205376)
          (-(1 / 1267650600228229401496703205376))) []).2 1 10 = [⟨10, 40⟩]) := by
  refine ⟨⟨by decide!, by decide!, by decide!⟩, ⟨by decide!, by decide!, by decide!⟩⟩

/-- C7: every candidate of the map produced by `GetTrackAssociationInfoMap` satisfies the
geometric proximity condition: its track-cluster distance is at most
`maxTrackClusterDistance`, or its closest helix-to-hit distance is at most
`maxClosestHelixClusterDistance` and its mean helix-to-hit distance is at most
`maxMeanHelixClusterDistance`. -/
theorem C7_candidates_pass_proximity (s : Settings) (h : Helpers) (p : Pandora)
    (e : Address × AssociationInfoVector) (he : e ∈ (GetTrackAssociationInfoMap s h p []).2)
    (a : AssociationInfo) (ha : a ∈ e.2) :
    (trackClusterDistanceOf s h e.1 a.GetCluster).2 ≤ s.m_maxTrackClusterDistance ∨
      ((clusterHelixDistanceOf s h p e.1 a.GetCluster).2.1 ≤ s.m_maxClosestHelixClusterDistance ∧
        (clusterHelixDistanceOf s h p e.1 a.GetCluster).2.2 ≤ s.m_maxMeanHelixClusterDistance) := by
  have hg := (generated_of_mem s h p he ha).2.2.2
  exact ((associationInfoFor_eq_some_iff s h p _ _ a).1 hg).1.2.2.2.2.2.2

/-- Witness of C7 on the sample event. -/
theorem C7_candidates_pass_proximity_witness :
    ((1, [⟨10, 40⟩]) ∈ (GetTrackAssociationInfoMap defaultSettings (sampleHelpers (fun _ => 40))
        (sampleEvent [1] 120) []).2 ∧ (⟨10, 40⟩ : AssociationInfo) ∈ [(⟨10, 40⟩ : AssociationInfo)]) ∧
      ((trackClusterDistanceOf defaultSettings (sampleHelpers (fun _ => 40)) 1 10).2 ≤ 100 ∨
        ((clusterHelixDistanceOf defaultSettings (sampleHelpers (fun _ => 40))
            (sampleEvent [1] 120) 1 10).2.1 ≤ 100 ∧
          (clusterHelixDistanceOf defaultSettings (sampleHelpers (fun _ => 40))
            (sampleEvent [1] 120) 1 10).2.2 ≤ 150)) :=
  ⟨⟨by decide!, by decide!⟩, C7_candidates_pass_proximity defaultSettings
    (sampleHelpers (fun _ => 40)) (sampleEvent [1] 120) (1, [⟨10, 40⟩]) (by decide!) ⟨10, 40⟩
    (by decide!)⟩

/-- C8: the score of every candidate stored for a track by `GetTrackAssociationInfoMap` is
the minimum of the track-cluster distance and the closest helix-to-hit distance computed
for the track and the candidate's cluster. -/
theorem C8_score_is_min_of_distances (s : Settings) (h : Helpers) (p : Pandora)
    (e : Address × AssociationInfoVector) (he : e ∈ (GetTrackAssociationInfoMap s h p []).2)
    (a : AssociationInfo) (ha : a ∈ e.2) :
    a.GetClosestApproach = min (trackClusterDistanceOf s h e.1 a.GetCluster).2
      (clusterHelixDistanceOf s h p e.1 a.GetCluster).2.1 := by
  have hg := (generated_of_mem s h p he ha).2.2.2
  have h2 := ((associationInfoFor_eq_some_iff s h p _ _ a).1 hg).2
  rw [← stdMin_eq_min]
  unfold AssociationInfo.GetClosestApproach AssociationInfo.GetCluster
  exact congrArg AssociationInfo.m_closestApproach h2

/-- Witness of C8 on the sample event: the score 40 is the minimum of 40 and 60. -/
theorem C8_score_is_min_of_distances_witness :
    ((1, [⟨10, 40⟩]) ∈ (GetTrackAssociationInfoMap defaultSettings (sampleHelpers (fun _ => 40))
        (sampleEvent [1] 120) []).2 ∧ (⟨10, 40⟩ : AssociationInfo) ∈ [(⟨10, 40⟩ : AssociationInfo)]) ∧
      (40 : ℚ) = min (trackClusterDistanceOf defaultSettings (sampleHelpers (fun _ => 40)) 1 10).2
        (clusterHelixDistanceOf defaultSettings (sampleHelpers (fun _ => 40))
          (sampleEvent [1] 120) 1 10).2.1 :=
  ⟨⟨by decide!, by decide!⟩, C8_score_is_min_of_distances defaultSettings
    (sampleHelpers (fun _ => 40)) (sampleEvent [1] 120) (1, [⟨10, 40⟩]) (by decide!) ⟨10, 40⟩
    (by decide!)⟩

/-- C10: if the absolute value of the compatibility chi of a track and a cluster exceeds
`maxAbsoluteTrackClusterChi`, the map produced by `GetTrackAssociationInfoMap` holds no
candidate for the pair. -/
theorem C10_chi_cut_rejects (s : Settings) (h : Helpers) (p : Pandora) (pTrack pCluster : Address)
    (hchi : |chiOf h p pTrack pCluster| > s.m_maxAbsoluteTrackClusterChi) :
    candidatesOf (GetTrackAssociationInfoMap s h p []).2 pTrack pCluster = [] := by
  apply candidatesOf_generated_eq_nil
  cases hc : associationInfoFor s h p pTrack pCluster with
  | none => rfl
  | some a => exact absurd hchi ((associationInfoFor_eq_some_iff s h p _ _ a).1 hc).1.2.2.1

/-- Witness of C10: a chi of 3 against the default limit of 2.5. -/
theorem C10_chi_cut_rejects_witness :
    |chiOf (sampleHelpersWithChi 3) (sampleEvent [1] 120) 1 10| >
        defaultSettings.m_maxAbsoluteTrackClusterChi ∧
      candidatesOf (GetTrackAssociationInfoMap defaultSettings (sampleHelpersWithChi 3)
        (sampleEvent [1] 120) []).2 1 10 = [] :=
  ⟨by decide!, C10_chi_cut_rejects defaultSettings (sampleHelpersWithChi 3)
    (sampleEvent [1] 120) 1 10 (by decide!)⟩

/-! ## Counting the candidates of a pair -/

theorem length_candidatesOf_pushBack (m : TrackAssociationInfoMap) (k : Address)
    (info : AssociationInfo) (pTrack pCluster : Address) :
    (candidatesOf (m.pushBack k info) pTrack pCluster).length =
      (candidatesOf m pTrack pCluster).length +
        (if k = pTrack ∧ info.m_pCluster = pCluster then 1 else 0) := by
  induction m with
  | nil =>
    by_cases hk : k = pTrack <;> by_cases hc : info.m_pCluster = pCluster <;>
      simp [TrackAssociationInfoMap.pushBack, candidatesOf, hk, hc]
  | cons hd tl ih =>
    obtain ⟨k0, v0⟩ := hd
    simp only [TrackAssociationInfoMap.pushBack]
    by_cases h1 : k < k0
    · rw [if_pos h1]
      by_cases hk : k = pTrack <;> by_cases hc : info.m_pCluster = pCluster <;>
        simp [candidatesOf, hk, hc]
    · rw [if_neg h1]
      by_cases h2 : k = k0
      · rw [if_pos h2]
        subst h2
        (by_cases hk : k = pTrack <;> by_cases hc : info.m_pCluster = pCluster <;>
          simp [candidatesOf, hk, hc, List.filter_append])
        omega
      · rw [if_neg h2]
        simp only [candidatesOf, List.length_append, ih]
        omega

theorem length_candidatesOf_clusterStep_foldl (s : Settings) (h : Helpers) (p : Pandora)
    (t : Address) (clusters : List Address) (m : TrackAssociationInfoMap)
    (pTrack pCluster : Address) :
    (candidatesOf (clusters.foldl (clusterStep s h p t) m) pTrack pCluster).length =
      (candidatesOf m pTrack pCluster).length +
        (if t = pTrack ∧ (associationInfoFor s h p t pCluster).isSome = true
          then clusters.count pCluster else 0) := by
  induction clusters generalizing m with
  | nil => simp
  | cons c cs ih =>
    rw [List.foldl_cons, ih]
    unfold clusterStep
    cases hc : associationInfoFor s h p t c with
    | none =>
      simp only
      by_cases hcc : c = pCluster
      · subst hcc; simp [hc]
      · rw [List.count_cons_of_ne (Ne.symm hcc)]
    | some info =>
      simp only
      rw [length_candidatesOf_pushBack]
      have hinfo := associationInfoFor_cluster hc
      by_cases hcc : c = pCluster
      · subst hcc
        by_cases ht : t = pTrack
        · subst ht
          simp [hc, hinfo]
          omega
        · simp [ht]
      · rw [List.count_cons_of_ne (Ne.symm hcc)]
        have : ¬ (t = pTrack ∧ info.m_pCluster = pCluster) := by
          rintro ⟨_, h2⟩
          exact hcc (hinfo.symm.trans h2)
        rw [if_neg this]
        rfl

theorem length_candidatesOf_trackStep_foldl (s : Settings) (h : Helpers) (p : Pandora)
    (clusters tracks : List Address) (m : TrackAssociationInfoMap) (pTrack pCluster : Address) :
    (candidatesOf (tracks.foldl (trackStep s h p clusters) m) pTrack pCluster).length =
      (candidatesOf m pTrack pCluster).length +
        (if trackIsUsed p pTrack = true ∧ (associationInfoFor s h p pTrack pCluster).isSome = true
          then tracks.count pTrack * clusters.count pCluster else 0) := by
  induction tracks generalizing m with
  | nil => simp
  | cons t ts ih =>
    rw [List.foldl_cons, ih]
    unfold trackStep
    by_cases ht : t = pTrack
    · subst ht
      by_cases hu : trackIsUsed p t = true
      · rw [if_pos hu, length_candidatesOf_clusterStep_foldl]
        by_cases hs : (associationInfoFor s h p t pCluster).isSome = true
        · simp [hu, hs, Nat.add_mul]; omega
        · simp [hu, hs]
      · rw [if_neg hu]
        simp [hu]
    · rw [List.count_cons_of_ne (Ne.symm ht)]
      by_cases hu : trackIsUsed p t = true
      · rw [if_pos hu, length_candidatesOf_clusterStep_foldl]
        simp [ht]
      · rw [if_neg hu]

theorem associationInfoFor_isSome_iff (s : Settings) (h : Helpers) (p : Pandora)
    (pTrack pCluster : Address) :
    (trackIsUsed p pTrack = true ∧ (associationInfoFor s h p pTrack pCluster).isSome = true) ↔
      PairSurvives s h p pTrack pCluster := by
  rw [trackIsUsed_iff, Option.isSome_iff_exists]
  constructor
  · rintro ⟨h1, a, ha⟩
    exact ⟨h1, ((associationInfoFor_eq_some_iff s h p _ _ a).1 ha).1⟩
  · rintro ⟨h1, h2⟩
    exact ⟨h1, _, (associationInfoFor_eq_some_iff s h p _ _ _).2 ⟨h2, rfl⟩⟩

/-- The number of candidates that the generator stores for a pair, when both lists are
retrieved: the product of the number of times the track and the cluster are listed if the
pair survives, zero otherwise. -/
theorem length_candidatesOf_generated (s : Settings) (h : Helpers) (p : Pandora)
    (pTrack pCluster : Address)
    (hts : p.GetCurrentTrackList.1 = STATUS_CODE_SUCCESS)
    (hcs : p.GetCurrentClusterList.1 = STATUS_CODE_SUCCESS) :
    (candidatesOf (GetTrackAssociationInfoMap s h p []).2 pTrack pCluster).length =
      if PairSurvives s h p pTrack pCluster
        then p.GetCurrentTrackList.2.count pTrack * p.GetCurrentClusterList.2.count pCluster
        else 0 := by
  unfold GetTrackAssociationInfoMap
  rw [if_neg (not_not.2 hts), if_neg (not_not.2 hcs)]
  simp only
  rw [length_candidatesOf_trackStep_foldl]
  simp only [candidatesOf, List.length_nil, Nat.zero_add]
  by_cases hp : PairSurvives s h p pTrack pCluster
  · rw [if_pos hp, if_pos ((associationInfoFor_isSome_iff s h p _ _).2 hp)]
  · rw [if_neg hp, if_neg (fun hh => hp ((associationInfoFor_isSome_iff s h p _ _).1 hh))]

/-- C9: completeness of the candidate generator. For an eligible track and an eligible
cluster, each listed once in the retrieved lists, such that the longitudinal, chi,
layers-crossed and proximity cuts pass and both distance computations succeed, the map
produced by `GetTrackAssociationInfoMap` holds exactly one candidate for the cluster under
the track; a pair that fails any of these conditions has none. -/
theorem C9_generator_complete (s : Settings) (h : Helpers) (p : Pandora)
    (pTrack pCluster : Address) :
    (p.GetCurrentTrackList.1 = STATUS_CODE_SUCCESS → p.GetCurrentClusterList.1 = STATUS_CODE_SUCCESS →
      p.GetCurrentTrackList.2.count pTrack = 1 → p.GetCurrentClusterList.2.count pCluster = 1 →
      PairSurvives s h p pTrack pCluster →
      (candidatesOf (GetTrackAssociationInfoMap s h p []).2 pTrack pCluster).length = 1) ∧
    (¬ PairSurvives s h p pTrack pCluster →
      candidatesOf (GetTrackAssociationInfoMap s h p []).2 pTrack pCluster = []) := by
  constructor
  · intro hts hcs hT hC hp
    rw [length_candidatesOf_generated s h p _ _ hts hcs, if_pos hp, hT, hC]
  · intro hp
    apply candidatesOf_eq_nil
    intro e he hk a ha hc
    obtain ⟨_, hu, _, hg⟩ := generated_of_mem s h p he ha
    rw [hk, hc] at hg
    rw [hk] at hu
    exact hp ((associationInfoFor_isSome_iff s h p _ _).1 ⟨hu, by simp [hg]⟩)

/-- Witness of C9 on the sample event: the pair of track 1 and cluster 10 survives and has
exactly one candidate. -/
theorem C9_generator_complete_witness :
    PairSurvives defaultSettings (sampleHelpers (fun _ => 40)) (sampleEvent [1] 120) 1 10 ∧
      (candidatesOf (GetTrackAssociationInfoMap defaultSettings (sampleHelpers (fun _ => 40))
        (sampleEvent [1] 120) []).2 1 10).length = 1 :=
  ⟨by decide!, (C9_generator_complete defaultSettings (sampleHelpers (fun _ => 40))
    (sampleEvent [1] 120) 1 10).1 (by decide!) (by decide!) (by decide!) (by decide!) (by decide!)⟩

/-! ## The search for the closest pairing -/

theorem considerInfo_foldl (k : Address) (v : AssociationInfoVector) (b0 : BestPairing) :
    (∀ a ∈ v, (v.foldl (considerInfo k) b0).closestApproach ≤ a.m_closestApproach) ∧
      (v.foldl (considerInfo k) b0).closestApproach ≤ b0.closestApproach ∧
      (v.foldl (considerInfo k) b0 = b0 ∨
        ((v.foldl (considerInfo k) b0).closestApproach < b0.closestApproach ∧
          ∃ a ∈ v, v.foldl (considerInfo k) b0 = ⟨a.m_closestApproach, some k, some a.m_pCluster⟩)) := by
  induction v generalizing b0 with
  | nil => simp
  | cons a0 as ih =>
    rw [List.foldl_cons]
    obtain ⟨i1, i2, i3⟩ := ih (considerInfo k b0 a0)
    have hstep : (considerInfo k b0 a0).closestApproach ≤ a0.m_closestApproach ∧
        (considerInfo k b0 a0).closestApproach ≤ b0.closestApproach ∧
        (considerInfo k b0 a0 = b0 ∨ ((considerInfo k b0 a0).closestApproach < b0.closestApproach ∧
          considerInfo k b0 a0 = ⟨a0.m_closestApproach, some k, some a0.m_pCluster⟩)) := by
      unfold considerInfo AssociationInfo.GetClosestApproach AssociationInfo.GetCluster
      split_ifs with hlt
      · exact ⟨le_refl _, hlt.le, Or.inr ⟨hlt, rfl⟩⟩
      · exact ⟨not_lt.1 hlt, le_refl _, Or.inl rfl⟩
    obtain ⟨s1, s2, s3⟩ := hstep
    refine ⟨?_, i2.trans s2, ?_⟩
    · intro a ha
      rcases List.mem_cons.1 ha with rfl | ha
      · exact i2.trans s1
      · exact i1 a ha
    · rcases i3 with i3 | ⟨i3, a, ha, i4⟩
      · rcases s3 with s3 | ⟨s3, s4⟩
        · left; rw [i3, s3]
        · right
          rw [i3]
          exact ⟨s3, a0, List.mem_cons_self _ _, s4⟩
      · right
        exact ⟨lt_of_lt_of_le i3 s2, a, List.mem_cons_of_mem _ ha, i4⟩

theorem search_foldl (m : TrackAssociationInfoMap) (b0 : BestPairing) :
    (∀ e ∈ m, ∀ a ∈ e.2,
        (m.foldl (fun best entry => entry.2.foldl (considerInfo entry.1) best) b0).closestApproach
          ≤ a.m_closestApproach) ∧
      (m.foldl (fun best entry => entry.2.foldl (considerInfo entry.1) best) b0).closestApproach
        ≤ b0.closestApproach ∧
      (m.foldl (fun best entry => entry.2.foldl (considerInfo entry.1) best) b0 = b0 ∨
        ((m.foldl (fun best entry => entry.2.foldl (considerInfo entry.1) best) b0).closestApproach
            < b0.closestApproach ∧
          ∃ e ∈ m, ∃ a ∈ e.2,
            m.foldl (fun best entry => entry.2.foldl (considerInfo entry.1) best) b0 =
              ⟨a.m_closestApproach, some e.1, some a.m_pCluster⟩)) := by
  induction m generalizing b0 with
  | nil => simp
  | cons e0 es ih =>
    rw [List.foldl_cons]
    obtain ⟨i1, i2, i3⟩ := ih (e0.2.foldl (considerInfo e0.1) b0)
    obtain ⟨s1, s2, s3⟩ := considerInfo_foldl e0.1 e0.2 b0
    refine ⟨?_, i2.trans s2, ?_⟩
    · intro e he a ha
      rcases List.mem_cons.1 he with rfl | he
      · exact i2.trans (s1 a ha)
      · exact i1 e he a ha
    · rcases i3 with i3 | ⟨i3, e, he, a, ha, i4⟩
      · rcases s3 with s3 | ⟨s3, a, ha, s4⟩
        · left; rw [i3, s3]
        · right
          rw [i3]
          exact ⟨s3, e0, List.mem_cons_self _ _, a, ha, s4⟩
      · right
        exact ⟨lt_of_lt_of_le i3 s2, e, List.mem_cons_of_mem _ he, a, ha, i4⟩

/-- The search either finds nothing, and then no candidate lies below `FLT_MAX`, or it
stops at a candidate of the map that lies below `FLT_MAX` and below or level with every
candidate. -/
theorem findClosestPairing_spec (m : TrackAssociationInfoMap) :
    (findClosestPairing m = ⟨FLT_MAX, none, none⟩ ∧
        ∀ e ∈ m, ∀ a ∈ e.2, FLT_MAX ≤ a.m_closestApproach) ∨
      (∃ e ∈ m, ∃ a ∈ e.2,
        findClosestPairing m = ⟨a.m_closestApproach, some e.1, some a.m_pCluster⟩ ∧
        a.m_closestApproach < FLT_MAX ∧
        ∀ e1 ∈ m, ∀ a1 ∈ e1.2, a.m_closestApproach ≤ a1.m_closestApproach) := by
  obtain ⟨i1, _, i3⟩ := search_foldl m ⟨FLT_MAX, none, none⟩
  rcases i3 with i3 | ⟨i3, e, he, a, ha, i4⟩
  · left
    refine ⟨i3, ?_⟩
    intro e he a ha
    have := i1 e he a ha
    rw [i3] at this
    exact this
  · right
    refine ⟨e, he, a, ha, i4, ?_, ?_⟩
    · rw [i4] at i3
      exact i3
    · intro e1 he1 a1 ha1
      have := i1 e1 he1 a1 ha1
      rw [i4] at this
      exact this

/-- What the body of the `while` loop does, case by case. -/
theorem whileBody_spec {σ : Type} (commit : Committer σ) (m : TrackAssociationInfoMap) (w : σ) :
    (whileBody commit m w = .finished ∧ ∀ e ∈ m, ∀ a ∈ e.2, FLT_MAX ≤ a.m_closestApproach) ∨
      (∃ e ∈ m, ∃ a ∈ e.2,
        a.m_closestApproach < FLT_MAX ∧
        (∀ e1 ∈ m, ∀ a1 ∈ e1.2, a.m_closestApproach ≤ a1.m_closestApproach) ∧
        findClosestPairing m = ⟨a.m_closestApproach, some e.1, some a.m_pCluster⟩ ∧
        ((commit w e.1 a.m_pCluster).1 ≠ STATUS_CODE_SUCCESS ∧
            whileBody commit m w =
              .aborted (commit w e.1 a.m_pCluster).1 e.1 a.m_pCluster (commit w e.1 a.m_pCluster).2 ∨
          (commit w e.1 a.m_pCluster).1 = STATUS_CODE_SUCCESS ∧
            whileBody commit m w =
              .committed e.1 a.m_pCluster (m.erase e.1) (commit w e.1 a.m_pCluster).2)) := by
  rcases findClosestPairing_spec m with ⟨h1, h2⟩ | ⟨e, he, a, ha, h1, h2, h3⟩
  · left
    refine ⟨?_, h2⟩
    unfold whileBody
    rw [h1]
  · right
    refine ⟨e, he, a, ha, h2, h3, h1, ?_⟩
    unfold whileBody
    rw [h1]
    simp only
    by_cases hc : (commit w e.1 a.m_pCluster).1 = STATUS_CODE_SUCCESS
    · right
      exact ⟨hc, by rw [if_neg (not_not.2 hc)]⟩
    · left
      exact ⟨hc, by rw [if_pos hc]⟩

/-! ## The claims on one pass of the resolver -/

/-- C1: in every pass of the loop of `MakeTrackClusterAssociations` that commits a pair, the
committed pair is a candidate of the map as it stands in that pass, and its score is less
than or equal to the score of every candidate of every track of that map. -/
theorem C1_committed_pair_is_minimal {σ : Type} (commit : Committer σ)
    (m : TrackAssociationInfoMap) (w : σ) (pTrack pCluster : Address)
    (m1 : TrackAssociationInfoMap) (w1 : σ)
    (hpass : whileBody commit m w = .committed pTrack pCluster m1 w1) :
    ∃ v score, (pTrack, v) ∈ m ∧ (⟨pCluster, score⟩ : AssociationInfo) ∈ v ∧
      ∀ e ∈ m, ∀ a ∈ e.2, score ≤ a.GetClosestApproach := by
  rcases whileBody_spec commit m w with ⟨h1, _⟩ | ⟨e, he, a, ha, _, hmin, _, h2 | h2⟩
  · rw [h1] at hpass; cases hpass
  · rw [h2.2] at hpass; cases hpass
  · rw [h2.2] at hpass
    injection hpass with e1 e2 _ _
    subst e1 e2
    exact ⟨e.2, a.m_closestApproach, he, ha, hmin⟩

/-- Witness of C1: with track 1 holding cluster 10 at score 10 and track 2 holding it at
score 5, the pass commits track 2 with cluster 10. -/
theorem C1_committed_pair_is_minimal_witness :
    whileBody (acceptAll : Committer Unit) [(1, [⟨10, 10⟩]), (2, [⟨10, 5⟩])] () =
        .committed 2 10 [(1, [⟨10, 10⟩])] () ∧
      ∃ v score, (2, v) ∈ ([(1, [⟨10, 10⟩]), (2, [⟨10, 5⟩])] : TrackAssociationInfoMap) ∧
        (⟨10, score⟩ : AssociationInfo) ∈ v ∧
        ∀ e ∈ ([(1, [⟨10, 10⟩]), (2, [⟨10, 5⟩])] : TrackAssociationInfoMap), ∀ a ∈ e.2,
          score ≤ a.GetClosestApproach :=
  ⟨by decide!, C1_committed_pair_is_minimal acceptAll [(1, [⟨10, 10⟩]), (2, [⟨10, 5⟩])] () 2 10
    [(1, [⟨10, 10⟩])] () (by decide!)⟩

namespace TrackAssociationInfoMap

theorem erase_split {m : TrackAssociationInfoMap} {k : Address} (hk : k ∈ keys m) :
    ∃ l1 v l2, m = l1 ++ (k, v) :: l2 ∧ erase m k = l1 ++ l2 ∧ k ∉ keys l1 := by
  induction m with
  | nil => simp [keys] at hk
  | cons hd tl ih =>
    obtain ⟨k0, v0⟩ := hd
    by_cases h0 : k0 = k
    · subst h0
      exact ⟨[], v0, tl, rfl, by simp [erase], by simp [keys]⟩
    · have hk1 : k ∈ keys tl := by
        simp only [keys, List.map_cons, List.mem_cons] at hk
        rcases hk with hk | hk
        · exact absurd hk.symm h0
        · exact hk
      obtain ⟨l1, v, l2, e1, e2, e3⟩ := ih hk1
      refine ⟨(k0, v0) :: l1, v, l2, by rw [e1]; rfl, by simp [erase, h0, e2], ?_⟩
      simp only [keys, List.map_cons, List.mem_cons, not_or]
      exact ⟨fun hh => h0 hh.symm, e3⟩

theorem find_erase_of_ne (m : TrackAssociationInfoMap) {k k1 : Address} (hne : k1 ≠ k) :
    find (erase m k) k1 = find m k1 := by
  induction m with
  | nil => rfl
  | cons hd tl ih =>
    obtain ⟨k0, v0⟩ := hd
    simp only [erase]
    by_cases h0 : k0 = k
    · rw [if_pos h0]
      simp only [find]
      rw [if_neg (fun hh => hne (hh.symm.trans h0))]
    · rw [if_neg h0]
      simp only [find, ih]

theorem keys_erase_sublist (m : TrackAssociationInfoMap) (k : Address) :
    (keys (erase m k)).Sublist (keys m) := by
  induction m with
  | nil => simp [erase, keys]
  | cons hd tl ih =>
    obtain ⟨k0, v0⟩ := hd
    simp only [erase]
    split_ifs with h0
    · exact List.sublist_cons_self _ _
    · exact ih.cons₂ _

theorem not_mem_keys_erase {m : TrackAssociationInfoMap} (k : Address) (hm : (keys m).Nodup) :
    k ∉ keys (erase m k) := by
  induction m with
  | nil => simp [erase, keys]
  | cons hd tl ih =>
    obtain ⟨k0, v0⟩ := hd
    simp only [keys, List.map_cons, List.nodup_cons] at hm
    simp only [erase]
    split_ifs with h0
    · subst h0
      exact hm.1
    · simp only [keys, List.map_cons, List.mem_cons, not_or]
      exact ⟨fun hh => h0 hh.symm, ih hm.2⟩

theorem mem_erase_of_ne {m : TrackAssociationInfoMap} {k : Address}
    {e : Address × AssociationInfoVector} (he : e ∈ m) (hne : e.1 ≠ k) : e ∈ erase m k := by
  induction m with
  | nil => cases he
  | cons hd tl ih =>
    obtain ⟨k0, v0⟩ := hd
    simp only [erase]
    rcases List.mem_cons.1 he with rfl | he
    · rw [if_neg hne]
      exact List.mem_cons_self _ _
    · split_ifs with h0
      · exact he
      · exact List.mem_cons_of_mem _ (ih he)

theorem length_erase {m : TrackAssociationInfoMap} {k : Address} (hk : k ∈ keys m) :
    (erase m k).length + 1 = m.length := by
  obtain ⟨l1, v, l2, e1, e2, _⟩ := erase_split hk
  rw [e2]
  rw [e1]
  simp only [List.length_append, List.length_cons]
  omega

theorem candidatesOf_erase_of_ne (m : TrackAssociationInfoMap) {k k1 : Address} (hne : k1 ≠ k)
    (pCluster : Address) : candidatesOf (erase m k) k1 pCluster = candidatesOf m k1 pCluster := by
  induction m with
  | nil => rfl
  | cons hd tl ih =>
    obtain ⟨k0, v0⟩ := hd
    simp only [erase]
    by_cases h0 : k0 = k
    · rw [if_pos h0]
      simp only [candidatesOf]
      rw [if_neg (fun hh => hne (hh.symm.trans h0))]
      rfl
    · rw [if_neg h0]
      simp only [candidatesOf, ih]

theorem wellFormed_nodup {m : TrackAssociationInfoMap} (hm : WellFormed m) : (keys m).Nodup :=
  List.Sorted.nodup hm

end TrackAssociationInfoMap

/-- C2: after a successful commit of `(T, C)` the map is the map before the commit with
exactly the entry of `T` taken out; every other track keeps its vector, and with it every
candidate that refers to `C`. -/
theorem C2_commit_erases_only_committed_track {σ : Type} (commit : Committer σ)
    (m : TrackAssociationInfoMap) (w : σ) (pTrack pCluster : Address)
    (m1 : TrackAssociationInfoMap) (w1 : σ)
    (hpass : whileBody commit m w = .committed pTrack pCluster m1 w1) :
    (∃ l1 v l2, m = l1 ++ (pTrack, v) :: l2 ∧ m1 = l1 ++ l2 ∧
        pTrack ∉ TrackAssociationInfoMap.keys l1 ∧
        (TrackAssociationInfoMap.WellFormed m → pTrack ∉ TrackAssociationInfoMap.keys l2)) ∧
      (∀ k, k ≠ pTrack → TrackAssociationInfoMap.find m1 k = TrackAssociationInfoMap.find m k) ∧
      (∀ k, k ≠ pTrack → candidatesOf m1 k pCluster = candidatesOf m k pCluster) := by
  rcases whileBody_spec commit m w with ⟨h1, _⟩ | ⟨e, he, a, ha, _, _, _, h2 | h2⟩
  · rw [h1] at hpass; cases hpass
  · rw [h2.2] at hpass; cases hpass
  · rw [h2.2] at hpass
    injection hpass with e1 e2 e3 _
    subst e1 e2 e3
    have hk : e.1 ∈ TrackAssociationInfoMap.keys m := List.mem_map.2 ⟨e, he, rfl⟩
    obtain ⟨l1, v, l2, s1, s2, s3⟩ := TrackAssociationInfoMap.erase_split hk
    refine ⟨⟨l1, v, l2, s1, s2, s3, ?_⟩, ?_, ?_⟩
    · intro hwf
      have hnd := TrackAssociationInfoMap.not_mem_keys_erase e.1
        (TrackAssociationInfoMap.wellFormed_nodup hwf)
      rw [s2] at hnd
      intro hin
      apply hnd
      simp only [TrackAssociationInfoMap.keys, List.map_append, List.mem_append]
      exact Or.inr hin
    · intro k hne
      exact TrackAssociationInfoMap.find_erase_of_ne m hne
    · intro k hne
      exact TrackAssociationInfoMap.candidatesOf_erase_of_ne m hne _

/-- Witness of C2: committing track 2 with cluster 10 leaves the vector of track 1, which
also refers to cluster 10, in place. -/
theorem C2_commit_erases_only_committed_track_witness :
    whileBody (acceptAll : Committer Unit) [(1, [⟨10, 10⟩]), (2, [⟨10, 5⟩])] () =
        .committed 2 10 [(1, [⟨10, 10⟩])] () ∧
      ((∃ l1 v l2, ([(1, [⟨10, 10⟩]), (2, [⟨10, 5⟩])] : TrackAssociationInfoMap) =
            l1 ++ (2, v) :: l2 ∧ ([(1, [⟨10, 10⟩])] : TrackAssociationInfoMap) = l1 ++ l2 ∧
          2 ∉ TrackAssociationInfoMap.keys l1 ∧
          (TrackAssociationInfoMap.WellFormed [(1, [⟨10, 10⟩]), (2, [⟨10, 5⟩])] →
            2 ∉ TrackAssociationInfoMap.keys l2)) ∧
        (∀ k, k ≠ 2 → TrackAssociationInfoMap.find [(1, [⟨10, 10⟩])] k =
          TrackAssociationInfoMap.find [(1, [⟨10, 10⟩]), (2, [⟨10, 5⟩])] k) ∧
        (∀ k, k ≠ 2 → candidatesOf [(1, [⟨10, 10⟩])] k 10 =
          candidatesOf [(1, [⟨10, 10⟩]), (2, [⟨10, 5⟩])] k 10)) :=
  ⟨by decide!, C2_commit_erases_only_committed_track acceptAll [(1, [⟨10, 10⟩]), (2, [⟨10, 5⟩])]
    () 2 10 [(1, [⟨10, 10⟩])] () (by decide!)⟩

/-! ## Well-formedness of the generated map -/

namespace TrackAssociationInfoMap

theorem mem_keys_pushBack {m : TrackAssociationInfoMap} {k k1 : Address} {info : AssociationInfo}
    (hk : k1 ∈ keys (pushBack m k info)) : k1 = k ∨ k1 ∈ keys m := by
  obtain ⟨e, he, rfl⟩ := List.mem_map.1 hk
  rcases mem_pushBack he with h1 | ⟨h1, _⟩
  · exact Or.inr (List.mem_map.2 ⟨e, h1, rfl⟩)
  · exact Or.inl h1

theorem pushBack_wellFormed {m : TrackAssociationInfoMap} (hm : WellFormed m) (k : Address)
    (info : AssociationInfo) : WellFormed (pushBack m k info) := by
  induction m with
  | nil => simp [pushBack, WellFormed, keys]
  | cons hd tl ih =>
    obtain ⟨k0, v0⟩ := hd
    have hm0 : (∀ b ∈ keys tl, k0 < b) ∧ WellFormed tl := by
      simpa [WellFormed, keys] using hm
    simp only [pushBack]
    by_cases h1 : k < k0
    · rw [if_pos h1]
      unfold WellFormed
      simp only [keys, List.map_cons]
      refine List.sorted_cons.2 ⟨?_, hm⟩
      intro b hb
      rcases List.mem_cons.1 hb with rfl | hb
      · exact h1
      · exact lt_trans h1 (hm0.1 b hb)
    · rw [if_neg h1]
      by_cases h2 : k = k0
      · rw [if_pos h2]
        exact hm
      · rw [if_neg h2]
        unfold WellFormed
        simp only [keys, List.map_cons]
        refine List.sorted_cons.2 ⟨?_, ih hm0.2⟩
        intro b hb
        rcases mem_keys_pushBack hb with rfl | hb
        · exact lt_of_le_of_ne (not_lt.1 h1) (fun hh => h2 hh.symm)
        · exact hm0.1 b hb

end TrackAssociationInfoMap

theorem clusterStep_foldl_wellFormed (s : Settings) (h : Helpers) (p : Pandora) (pTrack : Address)
    (clusters : List Address) (m : TrackAssociationInfoMap)
    (hm : TrackAssociationInfoMap.WellFormed m) :
    TrackAssociationInfoMap.WellFormed (clusters.foldl (clusterStep s h p pTrack) m) := by
  induction clusters generalizing m with
  | nil => exact hm
  | cons c cs ih =>
    rw [List.foldl_cons]
    apply ih
    unfold clusterStep
    cases associationInfoFor s h p pTrack c with
    | none => exact hm
    | some info => exact TrackAssociationInfoMap.pushBack_wellFormed hm _ _

theorem trackStep_foldl_wellFormed (s : Settings) (h : Helpers) (p : Pandora)
    (clusters tracks : List Address) (m : TrackAssociationInfoMap)
    (hm : TrackAssociationInfoMap.WellFormed m) :
    TrackAssociationInfoMap.WellFormed (tracks.foldl (trackStep s h p clusters) m) := by
  induction tracks generalizing m with
  | nil => exact hm
  | cons t ts ih =>
    rw [List.foldl_cons]
    apply ih
    unfold trackStep
    split_ifs
    · exact clusterStep_foldl_wellFormed s h p t clusters m hm
    · exact hm

/-- The map handed back by the generator has strictly increasing keys whenever the map
passed in has. -/
theorem GetTrackAssociationInfoMap_wellFormed (s : Settings) (h : Helpers) (p : Pandora)
    (m : TrackAssociationInfoMap) (hm : TrackAssociationInfoMap.WellFormed m) :
    TrackAssociationInfoMap.WellFormed (GetTrackAssociationInfoMap s h p m).2 := by
  unfold GetTrackAssociationInfoMap
  split_ifs
  · exact hm
  · exact hm
  · exact trackStep_foldl_wellFormed s h p _ _ m hm

theorem wellFormed_nil : TrackAssociationInfoMap.WellFormed [] := by
  simp [TrackAssociationInfoMap.WellFormed, TrackAssociationInfoMap.keys]

/-! ## The loop of the resolver when every commit succeeds -/

theorem makeLoop_of_success {σ : Type} (commit : Committer σ)
    (hall : ∀ w t c, (commit w t c).1 = STATUS_CODE_SUCCESS) :
    ∀ (fuel : Nat) (m : TrackAssociationInfoMap) (w : σ), m.length < fuel →
      (TrackAssociationInfoMap.keys m).Nodup →
      ∃ o, makeLoop commit fuel m w = some o ∧ o.status = STATUS_CODE_SUCCESS ∧
        (o.calls.map Prod.fst).Nodup ∧
        (∀ c ∈ o.calls, ∃ e ∈ m, e.1 = c.1 ∧
          ∃ a ∈ e.2, a.m_pCluster = c.2 ∧ a.m_closestApproach < FLT_MAX) ∧
        (∀ e ∈ m, ∀ a ∈ e.2, a.m_closestApproach < FLT_MAX → e.1 ∈ o.calls.map Prod.fst) := by
  intro fuel
  induction fuel with
  | zero => intro m w hlen; omega
  | succ fuel ih =>
    intro m w hlen hnd
    rcases whileBody_spec commit m w with ⟨h1, h2⟩ | ⟨e, he, a, ha, hlt, _, _, h2 | h2⟩
    · refine ⟨⟨STATUS_CODE_SUCCESS, m, w, []⟩, ?_, rfl, by simp, by simp, ?_⟩
      · simp only [makeLoop, h1]
      · intro e he a ha hlt
        exact absurd hlt (not_lt.2 (h2 e he a ha))
    · exact absurd (hall w e.1 a.m_pCluster) h2.1
    · have hk : e.1 ∈ TrackAssociationInfoMap.keys m := List.mem_map.2 ⟨e, he, rfl⟩
      have hlen1 : (TrackAssociationInfoMap.erase m e.1).length < fuel := by
        have := TrackAssociationInfoMap.length_erase hk
        omega
      have hnd1 : (TrackAssociationInfoMap.keys (TrackAssociationInfoMap.erase m e.1)).Nodup :=
        hnd.sublist (TrackAssociationInfoMap.keys_erase_sublist m e.1)
      obtain ⟨o1, r1, r2, r3, r4, r5⟩ :=
        ih (TrackAssociationInfoMap.erase m e.1) (commit w e.1 a.m_pCluster).2 hlen1 hnd1
      refine ⟨⟨o1.status, o1.map, o1.state, (e.1, a.m_pCluster) :: o1.calls⟩, ?_, r2, ?_, ?_, ?_⟩
      · simp only [makeLoop, h2.2, r1, Option.map_some']
      · simp only [List.map_cons, List.nodup_cons]
        refine ⟨?_, r3⟩
        intro hin
        obtain ⟨c, hc, hc1⟩ := List.mem_map.1 hin
        obtain ⟨e1, he1, he2, _⟩ := r4 c hc
        apply TrackAssociationInfoMap.not_mem_keys_erase e.1 hnd
        exact List.mem_map.2 ⟨e1, he1, he2.trans hc1⟩
      · intro c hc
        rcases List.mem_cons.1 hc with rfl | hc
        · exact ⟨e, he, rfl, a, ha, rfl, hlt⟩
        · obtain ⟨e1, he1, he2, hrest⟩ := r4 c hc
          exact ⟨e1, TrackAssociationInfoMap.mem_erase he1, he2, hrest⟩
      · intro e1 he1 a1 ha1 hlt1
        simp only [List.map_cons, List.mem_cons]
        by_cases hne : e1.1 = e.1
        · exact Or.inl hne
        · exact Or.inr (r5 e1 (TrackAssociationInfoMap.mem_erase_of_ne he1 hne) a1 ha1 hlt1)

/-- The loop returns: with more passes allowed than the map has entries the bound is never
reached, whatever the committer answers. In particular `MakeTrackClusterAssociations`
always has an outcome. -/
theorem makeLoop_total {σ : Type} (commit : Committer σ) :
    ∀ (fuel : Nat) (m : TrackAssociationInfoMap) (w : σ), m.length < fuel →
      ∃ o, makeLoop commit fuel m w = some o := by
  intro fuel
  induction fuel with
  | zero => intro m w hlen; omega
  | succ fuel ih =>
    intro m w hlen
    rcases whileBody_spec commit m w with ⟨h1, _⟩ | ⟨e, he, a, _, _, _, _, h2 | h2⟩
    · exact ⟨_, by simp only [makeLoop, h1]; rfl⟩
    · exact ⟨_, by simp only [makeLoop, h2.2]; rfl⟩
    · have hk : e.1 ∈ TrackAssociationInfoMap.keys m := List.mem_map.2 ⟨e, he, rfl⟩
      have hlen1 : (TrackAssociationInfoMap.erase m e.1).length < fuel := by
        have := TrackAssociationInfoMap.length_erase hk
        omega
      obtain ⟨o1, r1⟩ := ih (TrackAssociationInfoMap.erase m e.1) (commit w e.1 a.m_pCluster).2 hlen1
      exact ⟨_, by simp only [makeLoop, h2.2, r1, Option.map_some']; rfl⟩

theorem MakeTrackClusterAssociations_total {σ : Type} (commit : Committer σ)
    (m : TrackAssociationInfoMap) (w : σ) :
    ∃ o, MakeTrackClusterAssociations commit m w = some o :=
  makeLoop_total commit (m.length + 1) m w (Nat.lt_succ_self _)

theorem exists_candidate_of_length_pos {m : TrackAssociationInfoMap} {pTrack pCluster : Address}
    (hpos : 0 < (candidatesOf m pTrack pCluster).length) :
    ∃ e ∈ m, e.1 = pTrack ∧ ∃ a ∈ e.2, a.m_pCluster = pCluster := by
  by_contra hno
  have : candidatesOf m pTrack pCluster = [] := by
    apply candidatesOf_eq_nil
    intro e he hk a ha hc
    exact hno ⟨e, he, hk, a, ha, hc⟩
  rw [this] at hpos
  simp at hpos

/-- A surviving pair of a listed track and a listed cluster has a candidate in the generated
map, and that candidate carries the score of the pair. -/
theorem generated_candidate_of_survives (s : Settings) (h : Helpers) (p : Pandora)
    (pTrack pCluster : Address)
    (hts : p.GetCurrentTrackList.1 = STATUS_CODE_SUCCESS)
    (hcs : p.GetCurrentClusterList.1 = STATUS_CODE_SUCCESS)
    (hT : pTrack ∈ p.GetCurrentTrackList.2) (hC : pCluster ∈ p.GetCurrentClusterList.2)
    (hp : PairSurvives s h p pTrack pCluster) :
    ∃ e ∈ (GetTrackAssociationInfoMap s h p []).2, e.1 = pTrack ∧
      (⟨pCluster, scoreOf s h p pTrack pCluster⟩ : AssociationInfo) ∈ e.2 := by
  have hlen := length_candidatesOf_generated s h p pTrack pCluster hts hcs
  rw [if_pos hp] at hlen
  have hpos : 0 < (candidatesOf (GetTrackAssociationInfoMap s h p []).2 pTrack pCluster).length := by
    rw [hlen]
    exact Nat.mul_pos (List.count_pos_iff.2 hT) (List.count_pos_iff.2 hC)
  obtain ⟨e, he, hk, a, ha, hc⟩ := exists_candidate_of_length_pos hpos
  refine ⟨e, he, hk, ?_⟩
  have hg := (generated_of_mem s h p he ha).2.2.2
  rw [hk, hc] at hg
  have h2 := ((associationInfoFor_eq_some_iff s h p _ _ a).1 hg).2
  rw [stdMin_eq_min] at h2
  unfold scoreOf
  rw [← h2]
  exact ha

theorem GetTrackAssociationInfoMap_status (s : Settings) (h : Helpers) (p : Pandora)
    (m : TrackAssociationInfoMap)
    (hts : p.GetCurrentTrackList.1 = STATUS_CODE_SUCCESS)
    (hcs : p.GetCurrentClusterList.1 = STATUS_CODE_SUCCESS) :
    (GetTrackAssociationInfoMap s h p m).1 = STATUS_CODE_SUCCESS := by
  unfold GetTrackAssociationInfoMap
  rw [if_neg (not_not.2 hts), if_neg (not_not.2 hcs)]

/-- A whole pass in which both lists are retrieved and every commit succeeds: `Run` returns
success, no track is committed twice, every committed pair is a candidate of the generated
map with a score below `FLT_MAX`, and every track with such a candidate is committed. -/
theorem Run_of_success (s : Settings) (h : Helpers) (commit : Committer Pandora) (p : Pandora)
    (hts : p.GetCurrentTrackList.1 = STATUS_CODE_SUCCESS)
    (hcs : p.GetCurrentClusterList.1 = STATUS_CODE_SUCCESS)
    (hall : ∀ w t c, (commit w t c).1 = STATUS_CODE_SUCCESS) :
    ∃ o, Run s h commit p = some o ∧ o.status = STATUS_CODE_SUCCESS ∧
      (o.calls.map Prod.fst).Nodup ∧
      (∀ c ∈ o.calls, ∃ e ∈ (GetTrackAssociationInfoMap s h p []).2, e.1 = c.1 ∧
        ∃ a ∈ e.2, a.m_pCluster = c.2 ∧ a.m_closestApproach < FLT_MAX) ∧
      (∀ e ∈ (GetTrackAssociationInfoMap s h p []).2, ∀ a ∈ e.2,
        a.m_closestApproach < FLT_MAX → e.1 ∈ o.calls.map Prod.fst) := by
  have hst := GetTrackAssociationInfoMap_status s h p [] hts hcs
  have hwf := GetTrackAssociationInfoMap_wellFormed s h p [] wellFormed_nil
  obtain ⟨o, r1, rest⟩ := makeLoop_of_success commit hall
    ((GetTrackAssociationInfoMap s h p []).2.length + 1) (GetTrackAssociationInfoMap s h p []).2 p
    (Nat.lt_succ_self _) (TrackAssociationInfoMap.wellFormed_nodup hwf)
  refine ⟨o, ?_, rest⟩
  unfold Run MakeTrackClusterAssociations
  rw [if_neg (not_not.2 hst)]
  exact r1

/-! ## Fan-in of several tracks on one cluster -/

/-- C3 (amended): in a pass in which both lists are retrieved, two distinct eligible tracks
both pass all cuts against the same single eligible cluster with different scores, both
scores lie strictly below the largest representable float, and every commit succeeds, `Run`
commits both tracks to that cluster: the committer is called with each of the two tracks and that
cluster, and each of the two tracks occurs exactly once among the tracks of all calls. -/
theorem C3_fan_in_below_sentinel (s : Settings) (h : Helpers) (commit : Committer Pandora)
    (p : Pandora) (pTrackA pTrackB pCluster : Address)
    (hts : p.GetCurrentTrackList.1 = STATUS_CODE_SUCCESS)
    (hcs : p.GetCurrentClusterList.1 = STATUS_CODE_SUCCESS)
    (hA : pTrackA ∈ p.GetCurrentTrackList.2) (hB : pTrackB ∈ p.GetCurrentTrackList.2)
    (_hAB : pTrackA ≠ pTrackB)
    (hC : pCluster ∈ p.GetCurrentClusterList.2)
    (hsingle : ∀ c ∈ p.GetCurrentClusterList.2, EligibleCluster p c → c = pCluster)
    (hsA : PairSurvives s h p pTrackA pCluster) (hsB : PairSurvives s h p pTrackB pCluster)
    (_hdiff : scoreOf s h p pTrackA pCluster ≠ scoreOf s h p pTrackB pCluster)
    (hltA : scoreOf s h p pTrackA pCluster < FLT_MAX)
    (hltB : scoreOf s h p pTrackB pCluster < FLT_MAX)
    (hall : ∀ w t c, (commit w t c).1 = STATUS_CODE_SUCCESS) :
    ∃ o, Run s h commit p = some o ∧ o.status = STATUS_CODE_SUCCESS ∧
      (pTrackA, pCluster) ∈ o.calls ∧ (o.calls.map Prod.fst).count pTrackA = 1 ∧
      (pTrackB, pCluster) ∈ o.calls ∧ (o.calls.map Prod.fst).count pTrackB = 1 := by
  obtain ⟨o, r1, r2, r3, r4, r5⟩ := Run_of_success s h commit p hts hcs hall
  have key : ∀ t, t ∈ p.GetCurrentTrackList.2 → PairSurvives s h p t pCluster →
      scoreOf s h p t pCluster < FLT_MAX →
      (t, pCluster) ∈ o.calls ∧ (o.calls.map Prod.fst).count t = 1 := by
    intro t ht hst hlt
    obtain ⟨e, he, hk, ha⟩ := generated_candidate_of_survives s h p t pCluster hts hcs ht hC hst
    have hmem : t ∈ o.calls.map Prod.fst := by
      rw [← hk]
      exact r5 e he _ ha hlt
    obtain ⟨c, hc, hc1⟩ := List.mem_map.1 hmem
    obtain ⟨e1, he1, _, a1, ha1, hc2, _⟩ := r4 c hc
    obtain ⟨_, _, hin, hg⟩ := generated_of_mem s h p he1 ha1
    have hel := ((associationInfoFor_eq_some_iff s h p _ _ a1).1 hg).1.1
    have hcx : c.2 = pCluster := by
      rw [← hc2]
      exact hsingle _ hin hel
    have hceq : c = (t, pCluster) := Prod.ext hc1 hcx
    rw [hceq] at hc
    exact ⟨hc, List.count_eq_one_of_mem r3 hmem⟩
  obtain ⟨a1, a2⟩ := key pTrackA hA hsA hltA
  obtain ⟨b1, b2⟩ := key pTrackB hB hsB hltB
  exact ⟨o, r1, r2, a1, a2, b1, b2⟩

/-- Witness of C3 (amended): tracks 1 and 2 reach cluster 10 at the scores 10 and 5. -/
theorem C3_fan_in_below_sentinel_witness :
    ∃ o, Run defaultSettings (sampleHelpers (fun t => if t = 1 then 10 else 5)) acceptAll
        (sampleEvent [1, 2] 120) = some o ∧ o.status = STATUS_CODE_SUCCESS ∧
      (1, 10) ∈ o.calls ∧ (o.calls.map Prod.fst).count 1 = 1 ∧
      (2, 10) ∈ o.calls ∧ (o.calls.map Prod.fst).count 2 = 1 :=
  C3_fan_in_below_sentinel defaultSettings (sampleHelpers (fun t => if t = 1 then 10 else 5))
    acceptAll (sampleEvent [1, 2] 120) 1 2 10 (by decide!) (by decide!) (by decide!) (by decide!)
    (by decide!) (by decide!)
    (fun c hc _ => by simpa [sampleEvent] using hc)
    (by decide!) (by decide!) (by decide!) (by decide!) (by decide!) (fun _ _ _ => rfl)

/-- Counterexample to C3 as stated: with the limit on the track-cluster distance at
`FLT_MAX`, track 1 passes all cuts against cluster 10 with the score `FLT_MAX` and track 2
with the score 5; every commit succeeds, yet the committer is called for track 2 only. -/
theorem C3_fan_in_counterexample :
    (sampleEvent [1, 2] 120).GetCurrentTrackList.1 = STATUS_CODE_SUCCESS ∧
      (sampleEvent [1, 2] 120).GetCurrentClusterList.1 = STATUS_CODE_SUCCESS ∧
      1 ∈ (sampleEvent [1, 2] 120).GetCurrentTrackList.2 ∧
      2 ∈ (sampleEvent [1, 2] 120).GetCurrentTrackList.2 ∧
      (1 : Address) ≠ 2 ∧
      10 ∈ (sampleEvent [1, 2] 120).GetCurrentClusterList.2 ∧
      (∀ c ∈ (sampleEvent [1, 2] 120).GetCurrentClusterList.2,
        EligibleCluster (sampleEvent [1, 2] 120) c → c = 10) ∧
      PairSurvives wideSettings (sampleHelpersNoHelixHit (fun t => if t = 1 then FLT_MAX else 5))
        (sampleEvent [1, 2] 120) 1 10 ∧
      PairSurvives wideSettings (sampleHelpersNoHelixHit (fun t => if t = 1 then FLT_MAX else 5))
        (sampleEvent [1, 2] 120) 2 10 ∧
      scoreOf wideSettings (sampleHelpersNoHelixHit (fun t => if t = 1 then FLT_MAX else 5))
        (sampleEvent [1, 2] 120) 1 10 ≠
      scoreOf wideSettings (sampleHelpersNoHelixHit (fun t => if t = 1 then FLT_MAX else 5))
        (sampleEvent [1, 2] 120) 2 10 ∧
      (∀ (w : Pandora) (t c : Address),
        ((acceptAll : Committer Pandora) w t c).1 = STATUS_CODE_SUCCESS) ∧
      (Run wideSettings (sampleHelpersNoHelixHit (fun t => if t = 1 then FLT_MAX else 5)) acceptAll
        (sampleEvent [1, 2] 120)).map (fun o => (o.status, o.calls)) =
        some (STATUS_CODE_SUCCESS, [(2, 10)]) :=
  ⟨by decide!, by decide!, by decide!, by decide!, by decide!, by decide!,
    fun c hc _ => by simpa [sampleEvent] using hc,
    by decide!, by decide!, by decide!, fun _ _ _ => rfl, by decide!⟩

/-! ## Further claims on the candidate generator -/

/-- C11: if the number of layers crossed by the track's helix between the track's ECal z
and the cluster's z exceeds `maxLayersCrossed`, the map produced by
`GetTrackAssociationInfoMap` holds no candidate for the pair. -/
theorem C11_layers_crossed_cut_rejects (s : Settings) (h : Helpers) (p : Pandora)
    (pTrack pCluster : Address)
    (hlayers : nLayersCrossedOf h p pTrack pCluster > s.m_maxLayersCrossed) :
    candidatesOf (GetTrackAssociationInfoMap s h p []).2 pTrack pCluster = [] := by
  apply candidatesOf_generated_eq_nil
  cases hc : associationInfoFor s h p pTrack pCluster with
  | none => rfl
  | some a => exact absurd hlayers ((associationInfoFor_eq_some_iff s h p _ _ a).1 hc).1.2.2.2.1

/-- Witness of C11: 51 layers crossed against the default limit of 50. -/
theorem C11_layers_crossed_cut_rejects_witness :
    nLayersCrossedOf (sampleHelpersWithLayers 51) (sampleEvent [1] 120) 1 10 >
        defaultSettings.m_maxLayersCrossed ∧
      candidatesOf (GetTrackAssociationInfoMap defaultSettings (sampleHelpersWithLayers 51)
        (sampleEvent [1] 120) []).2 1 10 = [] :=
  ⟨by decide!, C11_layers_crossed_cut_rejects defaultSettings (sampleHelpersWithLayers 51)
    (sampleEvent [1] 120) 1 10 (by decide!)⟩

/-- C12 (amended): a failure of the direct track-cluster distance computation excludes the
pair and nothing more. For every pair, also an eligible one that passes the longitudinal,
chi and layers-crossed cuts and whose helix distance computation succeeds within both
helix limits, the map produced by `GetTrackAssociationInfoMap` holds no candidate when the
track-cluster distance is not computable; with both lists retrieved the generator still
returns success. -/
theorem C12_distance_failure_excludes_pair (s : Settings) (h : Helpers) (p : Pandora)
    (pTrack pCluster : Address)
    (hfail : (trackClusterDistanceOf s h pTrack pCluster).1 ≠ STATUS_CODE_SUCCESS) :
    candidatesOf (GetTrackAssociationInfoMap s h p []).2 pTrack pCluster = [] ∧
      (p.GetCurrentTrackList.1 = STATUS_CODE_SUCCESS →
        p.GetCurrentClusterList.1 = STATUS_CODE_SUCCESS →
        (GetTrackAssociationInfoMap s h p []).1 = STATUS_CODE_SUCCESS) := by
  refine ⟨?_, fun hts hcs => GetTrackAssociationInfoMap_status s h p [] hts hcs⟩
  apply candidatesOf_generated_eq_nil
  cases hc : associationInfoFor s h p pTrack pCluster with
  | none => rfl
  | some a => exact absurd ((associationInfoFor_eq_some_iff s h p _ _ a).1 hc).1.2.2.2.2.1 hfail

/-- Witness of C12 (amended): the distance helper reports not-found for the sample pair. -/
theorem C12_distance_failure_excludes_pair_witness :
    (trackClusterDistanceOf defaultSettings (sampleHelpersDistanceStatus STATUS_CODE_NOT_FOUND)
        1 10).1 ≠ STATUS_CODE_SUCCESS ∧
      (candidatesOf (GetTrackAssociationInfoMap defaultSettings
          (sampleHelpersDistanceStatus STATUS_CODE_NOT_FOUND) (sampleEvent [1] 120) []).2 1 10 = [] ∧
        ((sampleEvent [1] 120).GetCurrentTrackList.1 = STATUS_CODE_SUCCESS →
          (sampleEvent [1] 120).GetCurrentClusterList.1 = STATUS_CODE_SUCCESS →
          (GetTrackAssociationInfoMap defaultSettings
            (sampleHelpersDistanceStatus STATUS_CODE_NOT_FOUND) (sampleEvent [1] 120) []).1 =
            STATUS_CODE_SUCCESS)) :=
  ⟨by decide!, C12_distance_failure_excludes_pair defaultSettings
    (sampleHelpersDistanceStatus STATUS_CODE_NOT_FOUND) (sampleEvent [1] 120) 1 10 (by decide!)⟩

/-- Counterexample to C12 as stated: the sample pair is eligible and passes the
longitudinal, chi and layers-crossed cuts, the track-cluster distance is not computable,
the helix distance computation succeeds with closest distance 60 (limit 100) and mean
distance 70 (limit 150), and yet no candidate is generated for the pair. -/
theorem C12_distance_failure_counterexample :
    EligibleTrack (sampleEvent [1] 120) 1 ∧ EligibleCluster (sampleEvent [1] 120) 10 ∧
      1 ∈ (sampleEvent [1] 120).GetCurrentTrackList.2 ∧
      10 ∈ (sampleEvent [1] 120).GetCurrentClusterList.2 ∧
      PassesLongitudinalCut defaultSettings (sampleEvent [1] 120) 1 10 ∧
      PassesChiCut defaultSettings (sampleHelpersDistanceStatus STATUS_CODE_NOT_FOUND)
        (sampleEvent [1] 120) 1 10 ∧
      PassesLayersCrossedCut defaultSettings (sampleHelpersDistanceStatus STATUS_CODE_NOT_FOUND)
        (sampleEvent [1] 120) 1 10 ∧
      (trackClusterDistanceOf defaultSettings (sampleHelpersDistanceStatus STATUS_CODE_NOT_FOUND)
        1 10).1 = STATUS_CODE_NOT_FOUND ∧
      (clusterHelixDistanceOf defaultSettings (sampleHelpersDistanceStatus STATUS_CODE_NOT_FOUND)
        (sampleEvent [1] 120) 1 10).1 = STATUS_CODE_SUCCESS ∧
      (clusterHelixDistanceOf defaultSettings (sampleHelpersDistanceStatus STATUS_CODE_NOT_FOUND)
        (sampleEvent [1] 120) 1 10).2.1 ≤ defaultSettings.m_maxClosestHelixClusterDistance ∧
      (clusterHelixDistanceOf defaultSettings (sampleHelpersDistanceStatus STATUS_CODE_NOT_FOUND)
        (sampleEvent [1] 120) 1 10).2.2 ≤ defaultSettings.m_maxMeanHelixClusterDistance ∧
      GetTrackAssociationInfoMap defaultSettings (sampleHelpersDistanceStatus STATUS_CODE_NOT_FOUND)
        (sampleEvent [1] 120) [] = (STATUS_CODE_SUCCESS, []) := by
  refine ⟨by decide!, by decide!, by decide!, by decide!, by decide!, by decide!, by decide!,
    by decide!, by decide!, by decide!, by decide!, by decide!⟩

/-- C13: a non-computable cut is never escalated. With both lists retrieved,
`GetTrackAssociationInfoMap` returns success whatever the two distance helpers report, and a
pair for which either helper reports a failure has no candidate in the map. -/
theorem C13_helper_failure_not_escalated (s : Settings) (h : Helpers) (p : Pandora)
    (hts : p.GetCurrentTrackList.1 = STATUS_CODE_SUCCESS)
    (hcs : p.GetCurrentClusterList.1 = STATUS_CODE_SUCCESS) :
    (GetTrackAssociationInfoMap s h p []).1 = STATUS_CODE_SUCCESS ∧
      ∀ pTrack pCluster,
        ((trackClusterDistanceOf s h pTrack pCluster).1 ≠ STATUS_CODE_SUCCESS ∨
          (clusterHelixDistanceOf s h p pTrack pCluster).1 ≠ STATUS_CODE_SUCCESS) →
        candidatesOf (GetTrackAssociationInfoMap s h p []).2 pTrack pCluster = [] := by
  refine ⟨GetTrackAssociationInfoMap_status s h p [] hts hcs, ?_⟩
  intro pTrack pCluster hfail
  apply candidatesOf_generated_eq_nil
  cases hc : associationInfoFor s h p pTrack pCluster with
  | none => rfl
  | some a =>
    have hsome := ((associationInfoFor_eq_some_iff s h p _ _ a).1 hc).1
    rcases hfail with hf | hf
    · exact absurd hsome.2.2.2.2.1 hf
    · exact absurd hsome.2.2.2.2.2.1 hf

/-- Witness of C13: the helix helper reports a failure for every pair of the sample event. -/
theorem C13_helper_failure_not_escalated_witness :
    (GetTrackAssociationInfoMap defaultSettings (sampleHelpersHelixStatus STATUS_CODE_FAILURE)
        (sampleEvent [1] 120) []).1 = STATUS_CODE_SUCCESS ∧
      ∀ pTrack pCluster,
        ((trackClusterDistanceOf defaultSettings (sampleHelpersHelixStatus STATUS_CODE_FAILURE)
            pTrack pCluster).1 ≠ STATUS_CODE_SUCCESS ∨
          (clusterHelixDistanceOf defaultSettings (sampleHelpersHelixStatus STATUS_CODE_FAILURE)
            (sampleEvent [1] 120) pTrack pCluster).1 ≠ STATUS_CODE_SUCCESS) →
        candidatesOf (GetTrackAssociationInfoMap defaultSettings
          (sampleHelpersHelixStatus STATUS_CODE_FAILURE) (sampleEvent [1] 120) []).2
          pTrack pCluster = [] :=
  C13_helper_failure_not_escalated defaultSettings (sampleHelpersHelixStatus STATUS_CODE_FAILURE)
    (sampleEvent [1] 120) (by decide!) (by decide!)

/-- C15: if the retrieval of the current track list or of the current cluster list fails,
`GetTrackAssociationInfoMap` returns the failure status of the first retrieval that failed
and hands the map back as it was, and `Run` returns the same status without any call to the
committer. -/
theorem C15_list_retrieval_failure (s : Settings) (h : Helpers) (commit : Committer Pandora)
    (p : Pandora) (m : TrackAssociationInfoMap)
    (hfail : p.GetCurrentTrackList.1 ≠ STATUS_CODE_SUCCESS ∨
      p.GetCurrentClusterList.1 ≠ STATUS_CODE_SUCCESS) :
    (GetTrackAssociationInfoMap s h p m).1 ≠ STATUS_CODE_SUCCESS ∧
      (GetTrackAssociationInfoMap s h p m).1 =
        (if p.GetCurrentTrackList.1 ≠ STATUS_CODE_SUCCESS then p.GetCurrentTrackList.1
          else p.GetCurrentClusterList.1) ∧
      (GetTrackAssociationInfoMap s h p m).2 = m ∧
      ∃ o, Run s h commit p = some o ∧ o.status = (GetTrackAssociationInfoMap s h p m).1 ∧
        o.calls = [] ∧ o.map = [] := by
  have hgen : ∀ m0, (GetTrackAssociationInfoMap s h p m0).1 ≠ STATUS_CODE_SUCCESS ∧
      (GetTrackAssociationInfoMap s h p m0).1 =
        (if p.GetCurrentTrackList.1 ≠ STATUS_CODE_SUCCESS then p.GetCurrentTrackList.1
          else p.GetCurrentClusterList.1) ∧
      (GetTrackAssociationInfoMap s h p m0).2 = m0 := by
    intro m0
    unfold GetTrackAssociationInfoMap
    by_cases h1 : p.GetCurrentTrackList.1 ≠ STATUS_CODE_SUCCESS
    · rw [if_pos h1, if_pos h1]
      exact ⟨h1, rfl, rfl⟩
    · have h2 : p.GetCurrentClusterList.1 ≠ STATUS_CODE_SUCCESS := by
        rcases hfail with hf | hf
        · exact absurd hf h1
        · exact hf
      rw [if_neg h1, if_neg h1, if_pos h2]
      exact ⟨h2, rfl, rfl⟩
  obtain ⟨g1, g2, g3⟩ := hgen m
  obtain ⟨e1, e2, e3⟩ := hgen []
  refine ⟨g1, g2, g3, ⟨(GetTrackAssociationInfoMap s h p []).1,
    (GetTrackAssociationInfoMap s h p []).2, p, []⟩, ?_, ?_, rfl, e3⟩
  · unfold Run
    rw [if_pos e1]
  · simp only
    rw [g2, e2]

/-- Witness of C15: the retrieval of the cluster list reports not-initialized. -/
theorem C15_list_retrieval_failure_witness :
    (GetTrackAssociationInfoMap defaultSettings (sampleHelpers (fun _ => 40))
        (sampleEventWithStatus STATUS_CODE_SUCCESS STATUS_CODE_NOT_INITIALIZED) []).1 ≠
        STATUS_CODE_SUCCESS ∧
      (GetTrackAssociationInfoMap defaultSettings (sampleHelpers (fun _ => 40))
        (sampleEventWithStatus STATUS_CODE_SUCCESS STATUS_CODE_NOT_INITIALIZED) []).1 =
        (if (sampleEventWithStatus STATUS_CODE_SUCCESS STATUS_CODE_NOT_INITIALIZED).GetCurrentTrackList.1
            ≠ STATUS_CODE_SUCCESS
          then (sampleEventWithStatus STATUS_CODE_SUCCESS STATUS_CODE_NOT_INITIALIZED).GetCurrentTrackList.1
          else (sampleEventWithStatus STATUS_CODE_SUCCESS STATUS_CODE_NOT_INITIALIZED).GetCurrentClusterList.1) ∧
      (GetTrackAssociationInfoMap defaultSettings (sampleHelpers (fun _ => 40))
        (sampleEventWithStatus STATUS_CODE_SUCCESS STATUS_CODE_NOT_INITIALIZED) []).2 = [] ∧
      ∃ o, Run defaultSettings (sampleHelpers (fun _ => 40)) acceptAll
          (sampleEventWithStatus STATUS_CODE_SUCCESS STATUS_CODE_NOT_INITIALIZED) = some o ∧
        o.status = (GetTrackAssociationInfoMap defaultSettings (sampleHelpers (fun _ => 40))
          (sampleEventWithStatus STATUS_CODE_SUCCESS STATUS_CODE_NOT_INITIALIZED) []).1 ∧
        o.calls = [] ∧ o.map = [] :=
  C15_list_retrieval_failure defaultSettings (sampleHelpers (fun _ => 40)) acceptAll
    (sampleEventWithStatus STATUS_CODE_SUCCESS STATUS_CODE_NOT_INITIALIZED) [] (by decide!)

/-! ## The loop of the resolver, pass by pass -/

/-- One more pass allowed: the loop either stops without a pairing, or stops on a refused
commit, or commits and goes on with the erased map. -/
theorem makeLoop_cases {σ : Type} (commit : Committer σ) (fuel : Nat)
    (m : TrackAssociationInfoMap) (w : σ) (o : Outcome σ)
    (hrun : makeLoop commit (fuel + 1) m w = some o) :
    ((∀ e ∈ m, ∀ a ∈ e.2, FLT_MAX ≤ a.m_closestApproach) ∧
        o = ⟨STATUS_CODE_SUCCESS, m, w, []⟩) ∨
      (∃ e ∈ m, ∃ a ∈ e.2, a.m_closestApproach < FLT_MAX ∧
        (∀ e1 ∈ m, ∀ a1 ∈ e1.2, a.m_closestApproach ≤ a1.m_closestApproach) ∧
        (((commit w e.1 a.m_pCluster).1 ≠ STATUS_CODE_SUCCESS ∧
            o = ⟨(commit w e.1 a.m_pCluster).1, m, (commit w e.1 a.m_pCluster).2,
              [(e.1, a.m_pCluster)]⟩) ∨
          ((commit w e.1 a.m_pCluster).1 = STATUS_CODE_SUCCESS ∧
            ∃ o1, makeLoop commit fuel (m.erase e.1) (commit w e.1 a.m_pCluster).2 = some o1 ∧
              o = ⟨o1.status, o1.map, o1.state, (e.1, a.m_pCluster) :: o1.calls⟩))) := by
  rcases whileBody_spec commit m w with ⟨h1, h2⟩ | ⟨e, he, a, ha, hlt, hmin, _, h2 | h2⟩
  · left
    refine ⟨h2, ?_⟩
    simp only [makeLoop, h1, Option.some.injEq] at hrun
    exact hrun.symm
  · right
    refine ⟨e, he, a, ha, hlt, hmin, Or.inl ⟨h2.1, ?_⟩⟩
    simp only [makeLoop, h2.2, Option.some.injEq] at hrun
    exact hrun.symm
  · right
    refine ⟨e, he, a, ha, hlt, hmin, Or.inr ⟨h2.1, ?_⟩⟩
    simp only [makeLoop, h2.2] at hrun
    cases hrec : makeLoop commit fuel (m.erase e.1) (commit w e.1 a.m_pCluster).2 with
    | none => rw [hrec] at hrun; cases hrun
    | some o1 =>
      rw [hrec] at hrun
      simp only [Option.map_some', Option.some.injEq] at hrun
      exact ⟨o1, rfl, hrun.symm⟩

/-- The state at return is the state after the logged calls, and a call that the committer
refuses is the last call, its status being the status returned. -/
theorem makeLoop_abort {σ : Type} (commit : Committer σ) :
    ∀ (fuel : Nat) (m : TrackAssociationInfoMap) (w : σ) (o : Outcome σ),
      makeLoop commit fuel m w = some o →
      o.state = stateAfter commit w o.calls ∧
        ∀ pre t c post, o.calls = pre ++ (t, c) :: post →
          (commit (stateAfter commit w pre) t c).1 ≠ STATUS_CODE_SUCCESS →
          post = [] ∧ o.status = (commit (stateAfter commit w pre) t c).1 := by
  intro fuel
  induction fuel with
  | zero => intro m w o hrun; simp [makeLoop] at hrun
  | succ fuel ih =>
    intro m w o hrun
    rcases makeLoop_cases commit fuel m w o hrun with ⟨_, rfl⟩ | ⟨e, _, a, _, _, _, h2 | h2⟩
    · refine ⟨rfl, ?_⟩
      intro pre t c post hcalls
      simp at hcalls
    · obtain ⟨hf, rfl⟩ := h2
      refine ⟨rfl, ?_⟩
      intro pre t c post hcalls hfail
      cases pre with
      | nil =>
        simp only [List.nil_append, List.cons.injEq, Prod.mk.injEq] at hcalls
        obtain ⟨⟨rfl, rfl⟩, hpost⟩ := hcalls
        exact ⟨hpost.symm, rfl⟩
      | cons x xs =>
        simp only [List.cons_append, List.cons.injEq] at hcalls
        have := hcalls.2
        simp at this
    · obtain ⟨hs, o1, hrec, rfl⟩ := h2
      obtain ⟨i1, i2⟩ := ih _ _ o1 hrec
      refine ⟨by simp only [stateAfter]; exact i1, ?_⟩
      intro pre t c post hcalls hfail
      cases pre with
      | nil =>
        simp only [List.nil_append, List.cons.injEq, Prod.mk.injEq] at hcalls
        obtain ⟨⟨rfl, rfl⟩, _⟩ := hcalls
        exact absurd hs hfail
      | cons x xs =>
        simp only [List.cons_append, List.cons.injEq] at hcalls
        obtain ⟨rfl, hrest⟩ := hcalls
        exact i2 xs t c post hrest hfail

/-- C14: if the committer reports a status other than success for a selected pair,
`MakeTrackClusterAssociations` returns that status and makes no further call to the
committer, and `Run` returns the same status. -/
theorem C14_commit_failure_aborts (s : Settings) (h : Helpers) (commit : Committer Pandora)
    (p : Pandora) (m : TrackAssociationInfoMap) :
    (∀ o pre t c post, MakeTrackClusterAssociations commit m p = some o →
        o.calls = pre ++ (t, c) :: post →
        (commit (stateAfter commit p pre) t c).1 ≠ STATUS_CODE_SUCCESS →
        post = [] ∧ o.status = (commit (stateAfter commit p pre) t c).1) ∧
      (∀ o pre t c post, Run s h commit p = some o →
        o.calls = pre ++ (t, c) :: post →
        (commit (stateAfter commit p pre) t c).1 ≠ STATUS_CODE_SUCCESS →
        post = [] ∧ o.status = (commit (stateAfter commit p pre) t c).1) := by
  constructor
  · intro o pre t c post hrun hcalls hfail
    exact (makeLoop_abort commit _ m p o hrun).2 pre t c post hcalls hfail
  · intro o pre t c post hrun hcalls hfail
    unfold Run at hrun
    split_ifs at hrun with hst
    · simp only [Option.some.injEq] at hrun
      rw [← hrun] at hcalls
      simp at hcalls
    · exact (makeLoop_abort commit _ _ p o hrun).2 pre t c post hcalls hfail

/-- Witness of C14: tracks 1 and 2 both reach cluster 10, at the scores 10 and 5; the
committer refuses track 2, which is selected first, and track 1 is never tried. -/
theorem C14_commit_failure_aborts_witness :
    ∃ o, Run defaultSettings (sampleHelpers (fun t => if t = 1 then 10 else 5)) (rejectTrack 2)
        (sampleEvent [1, 2] 120) = some o ∧
      o.calls = [] ++ (2, 10) :: [] ∧
      ((rejectTrack 2 : Committer Pandora)
        (stateAfter (rejectTrack 2) (sampleEvent [1, 2] 120) []) 2 10).1 ≠ STATUS_CODE_SUCCESS ∧
      (([] : List (Address × Address)) = [] ∧ o.status = STATUS_CODE_FAILURE) := by
  have hmap : (Run defaultSettings (sampleHelpers (fun t => if t = 1 then 10 else 5))
      (rejectTrack 2) (sampleEvent [1, 2] 120)).map (fun o => (o.status, o.calls)) =
      some (STATUS_CODE_FAILURE, [(2, 10)]) := by decide!
  cases hrun : Run defaultSettings (sampleHelpers (fun t => if t = 1 then 10 else 5))
      (rejectTrack 2) (sampleEvent [1, 2] 120) with
  | none => rw [hrun] at hmap; cases hmap
  | some o =>
    rw [hrun] at hmap
    simp only [Option.map_some', Option.some.injEq, Prod.mk.injEq] at hmap
    exact ⟨o, rfl, hmap.2, by decide,
      (C14_commit_failure_aborts defaultSettings
        (sampleHelpers (fun t => if t = 1 then 10 else 5)) (rejectTrack 2)
        (sampleEvent [1, 2] 120) []).2 o [] 2 10 [] hrun hmap.2 (by decide)⟩

/-- The tracks of the logged calls are keys of the map, each at most once, and every logged
pair is a candidate of the map below `FLT_MAX`; this holds whatever the committer answers. -/
theorem makeLoop_calls {σ : Type} (commit : Committer σ) :
    ∀ (fuel : Nat) (m : TrackAssociationInfoMap) (w : σ) (o : Outcome σ),
      makeLoop commit fuel m w = some o →
      (∀ c ∈ o.calls, ∃ e ∈ m, e.1 = c.1 ∧
          ∃ a ∈ e.2, a.m_pCluster = c.2 ∧ a.m_closestApproach < FLT_MAX) ∧
        ((TrackAssociationInfoMap.keys m).Nodup → (o.calls.map Prod.fst).Nodup) := by
  intro fuel
  induction fuel with
  | zero => intro m w o hrun; simp [makeLoop] at hrun
  | succ fuel ih =>
    intro m w o hrun
    rcases makeLoop_cases commit fuel m w o hrun with ⟨_, rfl⟩ | ⟨e, he, a, ha, hlt, _, h2 | h2⟩
    · exact ⟨by simp, fun _ => by simp⟩
    · obtain ⟨_, rfl⟩ := h2
      refine ⟨?_, fun _ => by simp⟩
      intro c hc
      simp only [List.mem_singleton] at hc
      subst hc
      exact ⟨e, he, rfl, a, ha, rfl, hlt⟩
    · obtain ⟨_, o1, hrec, rfl⟩ := h2
      obtain ⟨i1, i2⟩ := ih _ _ o1 hrec
      constructor
      · intro c hc
        rcases List.mem_cons.1 hc with rfl | hc
        · exact ⟨e, he, rfl, a, ha, rfl, hlt⟩
        · obtain ⟨e1, he1, hk, hrest⟩ := i1 c hc
          exact ⟨e1, TrackAssociationInfoMap.mem_erase he1, hk, hrest⟩
      · intro hnd
        simp only [List.map_cons, List.nodup_cons]
        refine ⟨?_, i2 (hnd.sublist (TrackAssociationInfoMap.keys_erase_sublist m e.1))⟩
        intro hin
        obtain ⟨c, hc, hc1⟩ := List.mem_map.1 hin
        obtain ⟨e1, he1, hk, _⟩ := i1 c hc
        apply TrackAssociationInfoMap.not_mem_keys_erase e.1 hnd
        exact List.mem_map.2 ⟨e1, he1, hk.trans hc1⟩

/-- The calls of a whole pass: each pair is a candidate of the generated map, and no track
occurs twice. -/
theorem Run_calls (s : Settings) (h : Helpers) (commit : Committer Pandora) (p : Pandora)
    (o : Outcome Pandora) (hrun : Run s h commit p = some o) :
    (∀ c ∈ o.calls, ∃ e ∈ (GetTrackAssociationInfoMap s h p []).2, e.1 = c.1 ∧
        ∃ a ∈ e.2, a.m_pCluster = c.2 ∧ a.m_closestApproach < FLT_MAX) ∧
      (o.calls.map Prod.fst).Nodup ∧ o.state = stateAfter commit p o.calls := by
  unfold Run at hrun
  split_ifs at hrun with hst
  · simp only [Option.some.injEq] at hrun
    subst hrun
    exact ⟨by simp, by simp, rfl⟩
  · obtain ⟨i1, i2⟩ := makeLoop_calls commit _ _ p o hrun
    exact ⟨i1, i2 (TrackAssociationInfoMap.wellFormed_nodup
      (GetTrackAssociationInfoMap_wellFormed s h p [] wellFormed_nil)),
      (makeLoop_abort commit _ _ p o hrun).1⟩

theorem stateAfter_track_of_not_mem (calls : List (Address × Address)) (p : Pandora)
    (t : Address) (ht : t ∉ calls.map Prod.fst) :
    (stateAfter AddTrackClusterAssociation p calls).track t = p.track t := by
  induction calls generalizing p with
  | nil => rfl
  | cons c cs ih =>
    obtain ⟨t0, c0⟩ := c
    simp only [List.map_cons, List.mem_cons, not_or] at ht
    simp only [stateAfter]
    rw [ih _ ht.2]
    simp only [AddTrackClusterAssociation]
    rw [if_neg ht.1]

theorem stateAfter_track_of_mem (calls : List (Address × Address)) (p : Pandora)
    (t c : Address) (hnd : (calls.map Prod.fst).Nodup) (hc : (t, c) ∈ calls) :
    (stateAfter AddTrackClusterAssociation p calls).track t =
      { p.track t with m_pAssociatedCluster := some c } := by
  induction calls generalizing p with
  | nil => cases hc
  | cons c1 cs ih =>
    obtain ⟨t0, c0⟩ := c1
    simp only [List.map_cons, List.nodup_cons] at hnd
    simp only [stateAfter]
    rcases List.mem_cons.1 hc with heq | hc
    · simp only [Prod.mk.injEq] at heq
      obtain ⟨rfl, rfl⟩ := heq
      rw [stateAfter_track_of_not_mem cs _ t hnd.1]
      simp only [AddTrackClusterAssociation, if_true]
    · have hne : t ≠ t0 := by
        intro heq
        apply hnd.1
        rw [← heq]
        exact List.mem_map.2 ⟨(t, c), hc, rfl⟩
      rw [ih _ hnd.2 hc]
      simp only [AddTrackClusterAssociation]
      rw [if_neg hne]

theorem stateAfter_cluster (calls : List (Address × Address)) (p : Pandora) (x : Address) :
    ((stateAfter AddTrackClusterAssociation p calls).cluster x).GetAssociatedTrackList =
      (p.cluster x).GetAssociatedTrackList ++
        (calls.filter (fun c => decide (c.2 = x))).map Prod.fst := by
  induction calls generalizing p with
  | nil => simp [stateAfter]
  | cons c1 cs ih =>
    obtain ⟨t0, c0⟩ := c1
    simp only [stateAfter]
    rw [ih]
    by_cases hx : c0 = x
    · subst hx
      simp [AddTrackClusterAssociation]
    · have hx1 : ¬ x = c0 := fun hh => hx hh.symm
      simp [AddTrackClusterAssociation, hx, hx1]

/-- Every entry of the generated map belongs to a track of the track list that passes the
track filters. -/
theorem generated_key_eligible (s : Settings) (h : Helpers) (p : Pandora)
    {e : Address × AssociationInfoVector} (he : e ∈ (GetTrackAssociationInfoMap s h p []).2) :
    e.1 ∈ p.GetCurrentTrackList.2 ∧ EligibleTrack p e.1 := by
  unfold GetTrackAssociationInfoMap at he
  split_ifs at he with h1 h2
  · simp at he
  · simp at he
  · exact trackStep_foldl_keys s h p _
      (fun t => t ∈ p.GetCurrentTrackList.2 ∧ EligibleTrack p t) p.GetCurrentTrackList.2
      (fun t ht hu => ⟨ht, (trackIsUsed_iff p t).1 hu⟩) [] (by simp) e he

/-! ## Exclusivity and termination -/

/-- C16: in any single `Run`, whatever the committer answers, no track is passed to the
committer twice, and every track passed to it is a track of the track list that had no
associated cluster and no daughter tracks before the pass. With the committer of the
specification, a track that is not passed to the committer is left as it was, a track that is
passed ends the pass with the cluster of its one call as its associated cluster, and every
cluster's list of associated tracks grows by the tracks committed to it. -/
theorem C16_exclusivity (s : Settings) (h : Helpers) (commit : Committer Pandora) (p : Pandora)
    (o : Outcome Pandora) (hrun : Run s h commit p = some o) :
    (o.calls.map Prod.fst).Nodup ∧
      (∀ c ∈ o.calls, c.1 ∈ p.GetCurrentTrackList.2 ∧
        (p.track c.1).HasAssociatedCluster = false ∧
        (p.track c.1).GetDaughterTrackList = []) ∧
      (commit = AddTrackClusterAssociation →
        (∀ t, t ∉ o.calls.map Prod.fst → o.state.track t = p.track t) ∧
        (∀ t c, (t, c) ∈ o.calls →
          o.state.track t = { p.track t with m_pAssociatedCluster := some c }) ∧
        (∀ x, (o.state.cluster x).GetAssociatedTrackList =
          (p.cluster x).GetAssociatedTrackList ++
            (o.calls.filter (fun c => decide (c.2 = x))).map Prod.fst)) := by
  obtain ⟨r1, r2, r3⟩ := Run_calls s h commit p o hrun
  refine ⟨r2, ?_, ?_⟩
  · intro c hc
    obtain ⟨e, he, hk, _⟩ := r1 c hc
    obtain ⟨hmem, h1, _, h3⟩ := generated_key_eligible s h p he
    rw [hk] at hmem h1 h3
    refine ⟨hmem, ?_, h3⟩
    unfold Track.HasAssociatedCluster
    rw [h1]
    rfl
  · intro hcommit
    subst hcommit
    rw [r3]
    exact ⟨fun t ht => stateAfter_track_of_not_mem _ p t ht,
      fun t c hc => stateAfter_track_of_mem _ p t c r2 hc,
      fun x => stateAfter_cluster _ p x⟩

/-- Witness of C16: a pass over the tracks 1 and 2 with the committer of the specification. -/
theorem C16_exclusivity_witness :
    ∃ o, Run defaultSettings (sampleHelpers (fun t => if t = 1 then 10 else 5))
        AddTrackClusterAssociation (sampleEvent [1, 2] 120) = some o ∧
      o.calls = [(2, 10), (1, 10)] ∧
      (o.calls.map Prod.fst).Nodup ∧
      (o.state.cluster 10).GetAssociatedTrackList =
        ((sampleEvent [1, 2] 120).cluster 10).GetAssociatedTrackList ++
          (o.calls.filter (fun c => decide (c.2 = 10))).map Prod.fst := by
  have hmap : (Run defaultSettings (sampleHelpers (fun t => if t = 1 then 10 else 5))
      AddTrackClusterAssociation (sampleEvent [1, 2] 120)).map (fun o => o.calls) =
      some [(2, 10), (1, 10)] := by decide!
  cases hrun : Run defaultSettings (sampleHelpers (fun t => if t = 1 then 10 else 5))
      AddTrackClusterAssociation (sampleEvent [1, 2] 120) with
  | none => rw [hrun] at hmap; cases hmap
  | some o =>
    rw [hrun] at hmap
    simp only [Option.map_some', Option.some.injEq] at hmap
    have hw := C16_exclusivity defaultSettings (sampleHelpers (fun t => if t = 1 then 10 else 5))
      AddTrackClusterAssociation (sampleEvent [1, 2] 120) o hrun
    exact ⟨o, rfl, hmap, hw.1, (hw.2.2 rfl).2.2 10⟩

/-- The number of calls never exceeds the number of entries of the map; the map only
shrinks, and after a successful return every entry is either still in the map or was
committed. -/
theorem makeLoop_length {σ : Type} (commit : Committer σ) :
    ∀ (fuel : Nat) (m : TrackAssociationInfoMap) (w : σ) (o : Outcome σ),
      makeLoop commit fuel m w = some o →
      o.calls.length ≤ m.length ∧ o.map.length ≤ m.length ∧
        (o.status = STATUS_CODE_SUCCESS → o.map.length + o.calls.length = m.length) := by
  intro fuel
  induction fuel with
  | zero => intro m w o hrun; simp [makeLoop] at hrun
  | succ fuel ih =>
    intro m w o hrun
    rcases makeLoop_cases commit fuel m w o hrun with ⟨_, rfl⟩ | ⟨e, he, a, _, _, _, h2 | h2⟩
    · exact ⟨by simp, le_refl _, fun _ => by simp⟩
    · obtain ⟨hf, rfl⟩ := h2
      refine ⟨?_, le_refl _, fun hs => absurd hs hf⟩
      simp only [List.length_singleton]
      exact List.length_pos_of_mem he
    · obtain ⟨_, o1, hrec, rfl⟩ := h2
      obtain ⟨i1, i2, i3⟩ := ih _ _ o1 hrec
      have hlen := TrackAssociationInfoMap.length_erase
        (List.mem_map.2 ⟨e, he, rfl⟩ : e.1 ∈ TrackAssociationInfoMap.keys m)
      refine ⟨?_, ?_, ?_⟩
      · simp only [List.length_cons]
        omega
      · simp only
        omega
      · intro hs
        have := i3 hs
        simp only [List.length_cons]
        omega

/-- The generated map has at most as many entries as the track list has eligible tracks. -/
theorem length_generated_le (s : Settings) (h : Helpers) (p : Pandora) :
    (GetTrackAssociationInfoMap s h p []).2.length ≤
      (p.GetCurrentTrackList.2.filter (fun t => decide (EligibleTrack p t))).length := by
  have hnd := TrackAssociationInfoMap.wellFormed_nodup
    (GetTrackAssociationInfoMap_wellFormed s h p [] wellFormed_nil)
  have hsub : TrackAssociationInfoMap.keys (GetTrackAssociationInfoMap s h p []).2 ⊆
      p.GetCurrentTrackList.2.filter (fun t => decide (EligibleTrack p t)) := by
    intro k hk
    obtain ⟨e, he, rfl⟩ := List.mem_map.1 hk
    obtain ⟨h1, h2⟩ := generated_key_eligible s h p he
    exact List.mem_filter.2 ⟨h1, by simpa using h2⟩
  have := (List.subperm_of_subset hnd hsub).length_le
  simpa [TrackAssociationInfoMap.keys] using this

/-- C17: the loop of `MakeTrackClusterAssociations` terminates for every map and every
committer. Each pass that commits erases exactly one entry and adds none, so the number of
calls to the committer is at most the number of tracks of the initial map, and for the map
that `Run` hands over this is at most the number of eligible tracks of the track list. -/
theorem C17_loop_terminates {σ : Type} (commit : Committer σ) (s : Settings) (h : Helpers)
    (p : Pandora) :
    (∀ m w, ∃ o, MakeTrackClusterAssociations commit m w = some o ∧
        o.calls.length ≤ m.length ∧ o.map.length ≤ m.length ∧
        (o.status = STATUS_CODE_SUCCESS → o.map.length + o.calls.length = m.length)) ∧
      (∀ m w pTrack pCluster m1 w1, whileBody commit m w = .committed pTrack pCluster m1 w1 →
        m1.length + 1 = m.length ∧
        (TrackAssociationInfoMap.keys m1).Sublist (TrackAssociationInfoMap.keys m)) ∧
      (GetTrackAssociationInfoMap s h p []).2.length ≤
        (p.GetCurrentTrackList.2.filter (fun t => decide (EligibleTrack p t))).length := by
  refine ⟨?_, ?_, length_generated_le s h p⟩
  · intro m w
    obtain ⟨o, ho⟩ := MakeTrackClusterAssociations_total commit m w
    exact ⟨o, ho, makeLoop_length commit _ m w o ho⟩
  · intro m w pTrack pCluster m1 w1 hpass
    rcases whileBody_spec commit m w with ⟨h1, _⟩ | ⟨e, he, a, _, _, _, _, h2 | h2⟩
    · rw [h1] at hpass; cases hpass
    · rw [h2.2] at hpass; cases hpass
    · rw [h2.2] at hpass
      injection hpass with e1 _ e3 _
      subst e1 e3
      exact ⟨TrackAssociationInfoMap.length_erase (List.mem_map.2 ⟨e, he, rfl⟩),
        TrackAssociationInfoMap.keys_erase_sublist m e.1⟩

/-- Witness of C17: the loop on a map of two tracks makes two calls and returns. -/
theorem C17_loop_terminates_witness :
    (∃ o, MakeTrackClusterAssociations (acceptAll : Committer Unit)
        [(1, [⟨10, 10⟩]), (2, [⟨10, 5⟩])] () = some o ∧
      o.calls.length ≤ 2 ∧ o.map.length ≤ 2 ∧
      (o.status = STATUS_CODE_SUCCESS → o.map.length + o.calls.length = 2)) ∧
      MakeTrackClusterAssociations (acceptAll : Committer Unit)
        [(1, [⟨10, 10⟩]), (2, [⟨10, 5⟩])] () =
        some ⟨STATUS_CODE_SUCCESS, [], (), [(2, 10), (1, 10)]⟩ :=
  ⟨(C17_loop_terminates (acceptAll : Committer Unit) defaultSettings
    (sampleHelpers (fun _ => 40)) (sampleEvent [1] 120)).1 [(1, [⟨10, 10⟩]), (2, [⟨10, 5⟩])] (),
    by decide!⟩

/-! ## Draining the map -/

/-- When every commit succeeds the loop returns success; what is left in the map are entries
of the initial map without a candidate below `FLT_MAX`, and every entry that had such a
candidate has seen its track committed. -/
theorem makeLoop_drains {σ : Type} (commit : Committer σ)
    (hall : ∀ w t c, (commit w t c).1 = STATUS_CODE_SUCCESS) :
    ∀ (fuel : Nat) (m : TrackAssociationInfoMap) (w : σ) (o : Outcome σ),
      makeLoop commit fuel m w = some o →
      o.status = STATUS_CODE_SUCCESS ∧
        (∀ e ∈ o.map, e ∈ m ∧ ∀ a ∈ e.2, FLT_MAX ≤ a.m_closestApproach) ∧
        (∀ e ∈ m, ∀ a ∈ e.2, a.m_closestApproach < FLT_MAX → e.1 ∈ o.calls.map Prod.fst) := by
  intro fuel
  induction fuel with
  | zero => intro m w o hrun; simp [makeLoop] at hrun
  | succ fuel ih =>
    intro m w o hrun
    rcases makeLoop_cases commit fuel m w o hrun with ⟨hno, rfl⟩ | ⟨e, he, a, ha, hlt, _, h2 | h2⟩
    · refine ⟨rfl, fun e he => ⟨he, hno e he⟩, ?_⟩
      intro e he a ha hlt
      exact absurd hlt (not_lt.2 (hno e he a ha))
    · exact absurd (hall w e.1 a.m_pCluster) h2.1
    · obtain ⟨_, o1, hrec, rfl⟩ := h2
      obtain ⟨i1, i2, i3⟩ := ih _ _ o1 hrec
      refine ⟨i1, ?_, ?_⟩
      · intro e1 he1
        exact ⟨TrackAssociationInfoMap.mem_erase (i2 e1 he1).1, (i2 e1 he1).2⟩
      · intro e1 he1 a1 ha1 hlt1
        simp only [List.map_cons, List.mem_cons]
        by_cases hne : e1.1 = e.1
        · exact Or.inl hne
        · exact Or.inr (i3 e1 (TrackAssociationInfoMap.mem_erase_of_ne he1 hne) a1 ha1 hlt1)

/-- C18 (amended): for every map whose candidates all have a score strictly below the
largest representable float, when every commit succeeds, `MakeTrackClusterAssociations`
iterates until no candidates remain: it returns success, every track left in the map has an
empty vector (so the map is empty when every track had a candidate), and every track that
had at least one candidate has been committed. -/
theorem C18_drains_below_sentinel {σ : Type} (commit : Committer σ)
    (m : TrackAssociationInfoMap) (w : σ)
    (hall : ∀ w1 t c, (commit w1 t c).1 = STATUS_CODE_SUCCESS)
    (hlt : ∀ e ∈ m, ∀ a ∈ e.2, a.GetClosestApproach < FLT_MAX) :
    ∃ o, MakeTrackClusterAssociations commit m w = some o ∧ o.status = STATUS_CODE_SUCCESS ∧
      (∀ e ∈ o.map, e.2 = []) ∧
      (∀ e ∈ m, e.2 ≠ [] → e.1 ∈ o.calls.map Prod.fst) ∧
      ((∀ e ∈ m, e.2 ≠ []) → o.map = []) := by
  obtain ⟨o, ho⟩ := MakeTrackClusterAssociations_total commit m w
  obtain ⟨r1, r2, r3⟩ := makeLoop_drains commit hall _ m w o ho
  have hempty : ∀ e ∈ o.map, e.2 = [] := by
    intro e he
    obtain ⟨hem, hge⟩ := r2 e he
    cases hv : e.2 with
    | nil => rfl
    | cons a as =>
      have ha : a ∈ e.2 := by rw [hv]; exact List.mem_cons_self _ _
      exact absurd (hlt e hem a ha) (not_lt.2 (hge a ha))
  refine ⟨o, ho, r1, hempty, ?_, ?_⟩
  · intro e he hne
    cases hv : e.2 with
    | nil => exact absurd hv hne
    | cons a as =>
      have ha : a ∈ e.2 := by rw [hv]; exact List.mem_cons_self _ _
      exact r3 e he a ha (hlt e he a ha)
  · intro hne
    apply List.eq_nil_iff_forall_not_mem.2
    intro e he
    exact hne e (r2 e he).1 (hempty e he)

/-- Witness of C18 (amended): a map of two tracks with the scores 10 and 5. -/
theorem C18_drains_below_sentinel_witness :
    ∃ o, MakeTrackClusterAssociations (acceptAll : Committer Unit)
        [(1, [⟨10, 10⟩]), (2, [⟨10, 5⟩])] () = some o ∧ o.status = STATUS_CODE_SUCCESS ∧
      (∀ e ∈ o.map, e.2 = []) ∧
      (∀ e ∈ ([(1, [⟨10, 10⟩]), (2, [⟨10, 5⟩])] : TrackAssociationInfoMap), e.2 ≠ [] →
        e.1 ∈ o.calls.map Prod.fst) ∧
      ((∀ e ∈ ([(1, [⟨10, 10⟩]), (2, [⟨10, 5⟩])] : TrackAssociationInfoMap), e.2 ≠ []) →
        o.map = []) :=
  C18_drains_below_sentinel acceptAll [(1, [⟨10, 10⟩]), (2, [⟨10, 5⟩])] ()
    (fun _ _ _ => rfl) (by decide!)

/-- Counterexample to C18 as stated: every commit succeeds, the only candidate of track 1
has the score `FLT_MAX`; on return the map still holds the entry of track 1 and the
committer was never called. -/
theorem C18_drains_counterexample :
    (∀ (w : Unit) (t c : Address), ((acceptAll : Committer Unit) w t c).1 = STATUS_CODE_SUCCESS) ∧
      MakeTrackClusterAssociations (acceptAll : Committer Unit) [(1, [⟨10, FLT_MAX⟩])] () =
        some ⟨STATUS_CODE_SUCCESS, [(1, [⟨10, FLT_MAX⟩])], (), []⟩ :=
  ⟨fun _ _ _ => rfl, by decide!⟩

/-! ## A whole pass with limits below the largest float -/

theorem scoreOf_lt_of_survives (s : Settings) (h : Helpers) (p : Pandora) (pTrack pCluster : Address)
    (hmax1 : s.m_maxTrackClusterDistance < FLT_MAX)
    (hmax2 : s.m_maxClosestHelixClusterDistance < FLT_MAX)
    (hp : PairSurvives s h p pTrack pCluster) : scoreOf s h p pTrack pCluster < FLT_MAX := by
  unfold scoreOf
  rcases hp.2.2.2.2.2.2.2 with h1 | ⟨h1, _⟩
  · exact lt_of_le_of_lt (min_le_left _ _) (lt_of_le_of_lt h1 hmax1)
  · exact lt_of_le_of_lt (min_le_right _ _) (lt_of_le_of_lt h1 hmax2)

/-- C19: for a whole `Run` in which both lists are retrieved, every commit succeeds and both
`maxTrackClusterDistance` and `maxClosestHelixClusterDistance` are below the largest
representable float, `Run` returns success, the committer is called exactly once for each
eligible track of the track list that has at least one surviving candidate, and never for
any other track. -/
theorem C19_run_commits_each_survivor_once (s : Settings) (h : Helpers)
    (commit : Committer Pandora) (p : Pandora)
    (hts : p.GetCurrentTrackList.1 = STATUS_CODE_SUCCESS)
    (hcs : p.GetCurrentClusterList.1 = STATUS_CODE_SUCCESS)
    (hall : ∀ w t c, (commit w t c).1 = STATUS_CODE_SUCCESS)
    (hmax1 : s.m_maxTrackClusterDistance < FLT_MAX)
    (hmax2 : s.m_maxClosestHelixClusterDistance < FLT_MAX) :
    ∃ o, Run s h commit p = some o ∧ o.status = STATUS_CODE_SUCCESS ∧
      ∀ t,
        ((t ∈ p.GetCurrentTrackList.2 ∧ ∃ c ∈ p.GetCurrentClusterList.2, PairSurvives s h p t c) →
          (o.calls.map Prod.fst).count t = 1) ∧
        (¬ (t ∈ p.GetCurrentTrackList.2 ∧
            ∃ c ∈ p.GetCurrentClusterList.2, PairSurvives s h p t c) →
          t ∉ o.calls.map Prod.fst) := by
  obtain ⟨o, r1, r2, r3, r4, r5⟩ := Run_of_success s h commit p hts hcs hall
  refine ⟨o, r1, r2, ?_⟩
  intro t
  constructor
  · rintro ⟨ht, c, hc, hp⟩
    obtain ⟨e, he, hk, ha⟩ := generated_candidate_of_survives s h p t c hts hcs ht hc hp
    have hmem : t ∈ o.calls.map Prod.fst := by
      rw [← hk]
      exact r5 e he _ ha (scoreOf_lt_of_survives s h p t c hmax1 hmax2 hp)
    exact List.count_eq_one_of_mem r3 hmem
  · intro hno hmem
    apply hno
    obtain ⟨call, hcall, hc1⟩ := List.mem_map.1 hmem
    obtain ⟨e, he, hk, a, ha, _, _⟩ := r4 call hcall
    obtain ⟨g1, g2, g3, g4⟩ := generated_of_mem s h p he ha
    rw [hk, hc1] at g1 g2 g4
    exact ⟨g1, a.m_pCluster, g3,
      (associationInfoFor_isSome_iff s h p _ _).1 ⟨g2, by simp [g4]⟩⟩

/-- Witness of C19: the default limits are below `FLT_MAX`; tracks 1 and 2 both survive
against cluster 10. -/
theorem C19_run_commits_each_survivor_once_witness :
    ∃ o, Run defaultSettings (sampleHelpers (fun t => if t = 1 then 10 else 5)) acceptAll
        (sampleEvent [1, 2] 120) = some o ∧ o.status = STATUS_CODE_SUCCESS ∧
      ∀ t,
        ((t ∈ (sampleEvent [1, 2] 120).GetCurrentTrackList.2 ∧
            ∃ c ∈ (sampleEvent [1, 2] 120).GetCurrentClusterList.2,
              PairSurvives defaultSettings (sampleHelpers (fun t => if t = 1 then 10 else 5))
                (sampleEvent [1, 2] 120) t c) →
          (o.calls.map Prod.fst).count t = 1) ∧
        (¬ (t ∈ (sampleEvent [1, 2] 120).GetCurrentTrackList.2 ∧
            ∃ c ∈ (sampleEvent [1, 2] 120).GetCurrentClusterList.2,
              PairSurvives defaultSettings (sampleHelpers (fun t => if t = 1 then 10 else 5))
                (sampleEvent [1, 2] 120) t c) →
          t ∉ o.calls.map Prod.fst) :=
  C19_run_commits_each_survivor_once defaultSettings
    (sampleHelpers (fun t => if t = 1 then 10 else 5)) acceptAll (sampleEvent [1, 2] 120)
    (by decide!) (by decide!) (fun _ _ _ => rfl) (by decide!) (by decide!)

/-! ## Ties in the search -/

theorem considerInfo_le (k : Address) (b0 : BestPairing) (a0 : AssociationInfo) :
    (considerInfo k b0 a0).closestApproach ≤ a0.m_closestApproach ∧
      (considerInfo k b0 a0).closestApproach ≤ b0.closestApproach ∧
      (considerInfo k b0 a0 = b0 ∨ (a0.m_closestApproach < b0.closestApproach ∧
        considerInfo k b0 a0 = ⟨a0.m_closestApproach, some k, some a0.m_pCluster⟩)) := by
  unfold considerInfo AssociationInfo.GetClosestApproach AssociationInfo.GetCluster
  split_ifs with hlt
  · exact ⟨le_refl _, hlt.le, Or.inr ⟨hlt, rfl⟩⟩
  · exact ⟨not_lt.1 hlt, le_refl _, Or.inl rfl⟩

/-- The loop over one vector stops at the first candidate that lies below the starting value
and below every candidate before it. -/
theorem considerInfo_foldl_first (k : Address) (v : AssociationInfoVector) (b0 : BestPairing) :
    v.foldl (considerInfo k) b0 = b0 ∨
      ∃ l1 a l2, v = l1 ++ a :: l2 ∧
        v.foldl (considerInfo k) b0 = ⟨a.m_closestApproach, some k, some a.m_pCluster⟩ ∧
        a.m_closestApproach < b0.closestApproach ∧
        ∀ x ∈ l1, a.m_closestApproach < x.m_closestApproach := by
  induction v generalizing b0 with
  | nil => left; rfl
  | cons a0 as ih =>
    rw [List.foldl_cons]
    obtain ⟨s1, s2, s3⟩ := considerInfo_le k b0 a0
    rcases ih (considerInfo k b0 a0) with i | ⟨l1, a, l2, e1, e2, e3, e4⟩
    · rw [i]
      rcases s3 with s3 | ⟨s3, s4⟩
      · left; exact s3
      · right
        exact ⟨[], a0, as, rfl, s4, s3, by simp⟩
    · right
      refine ⟨a0 :: l1, a, l2, by rw [e1]; rfl, e2, lt_of_lt_of_le e3 s2, ?_⟩
      intro x hx
      rcases List.mem_cons.1 hx with rfl | hx
      · exact lt_of_lt_of_le e3 s1
      · exact e4 x hx

/-- The search over the map stops at the first candidate, in the iteration order of the map
and of the vectors, that lies below the starting value and below every candidate before it. -/
theorem search_foldl_first (m : TrackAssociationInfoMap) (b0 : BestPairing) :
    m.foldl (fun best entry => entry.2.foldl (considerInfo entry.1) best) b0 = b0 ∨
      ∃ m1 e m2 l1 a l2, m = m1 ++ e :: m2 ∧ e.2 = l1 ++ a :: l2 ∧
        m.foldl (fun best entry => entry.2.foldl (considerInfo entry.1) best) b0 =
          ⟨a.m_closestApproach, some e.1, some a.m_pCluster⟩ ∧
        a.m_closestApproach < b0.closestApproach ∧
        (∀ e1 ∈ m1, ∀ x ∈ e1.2, a.m_closestApproach < x.m_closestApproach) ∧
        ∀ x ∈ l1, a.m_closestApproach < x.m_closestApproach := by
  induction m generalizing b0 with
  | nil => left; rfl
  | cons e0 es ih =>
    rw [List.foldl_cons]
    obtain ⟨s1, s2, _⟩ := considerInfo_foldl e0.1 e0.2 b0
    rcases ih (e0.2.foldl (considerInfo e0.1) b0) with i | ⟨m1, e, m2, l1, a, l2, e1, e2, e3, e4, e5, e6⟩
    · rw [i]
      rcases considerInfo_foldl_first e0.1 e0.2 b0 with f | ⟨l1, a, l2, f1, f2, f3, f4⟩
      · left; exact f
      · right
        exact ⟨[], e0, es, l1, a, l2, rfl, f1, f2, f3, by simp, f4⟩
    · right
      refine ⟨e0 :: m1, e, m2, l1, a, l2, by rw [e1]; rfl, e2, e3, lt_of_lt_of_le e4 s2, ?_, e6⟩
      intro e1' he1 x hx
      rcases List.mem_cons.1 he1 with rfl | he1
      · exact lt_of_lt_of_le e4 (s1 x hx)
      · exact e5 e1' he1 x hx

/-- C20 (amended): when several pairs of the map share the minimum score, a committing pass
of `MakeTrackClusterAssociations` commits the first of them in the iteration order of the
map: its track has the smallest address among the tied tracks, and among that track's tied
candidates it is the one stored first in the track's vector. That candidate has the smallest
cluster address among the tied candidates of the track when the vector is in ascending order
of cluster address. -/
theorem C20_first_minimum_wins {σ : Type} (commit : Committer σ)
    (m : TrackAssociationInfoMap) (w : σ) (pTrack pCluster : Address)
    (m1 : TrackAssociationInfoMap) (w1 : σ)
    (hwf : TrackAssociationInfoMap.WellFormed m)
    (hpass : whileBody commit m w = .committed pTrack pCluster m1 w1) :
    ∃ v l1 a l2, (pTrack, v) ∈ m ∧ v = l1 ++ a :: l2 ∧ a.GetCluster = pCluster ∧
      (∀ e ∈ m, ∀ x ∈ e.2, a.GetClosestApproach ≤ x.GetClosestApproach) ∧
      (∀ e ∈ m, ∀ x ∈ e.2, x.GetClosestApproach = a.GetClosestApproach → pTrack ≤ e.1) ∧
      (∀ x ∈ l1, a.GetClosestApproach < x.GetClosestApproach) ∧
      (v.Pairwise (fun x y => x.GetCluster ≤ y.GetCluster) →
        ∀ x ∈ v, x.GetClosestApproach = a.GetClosestApproach → pCluster ≤ x.GetCluster) := by
  have hmin := (search_foldl m ⟨FLT_MAX, none, none⟩).1
  rcases search_foldl_first m ⟨FLT_MAX, none, none⟩ with hnone | ⟨ma, e, mb, l1, a, l2, e1, e2, e3, _, e5, e6⟩
  · exfalso
    unfold whileBody findClosestPairing at hpass
    rw [hnone] at hpass
    simp at hpass
  · have hfind : findClosestPairing m = ⟨a.m_closestApproach, some e.1, some a.m_pCluster⟩ := e3
    rw [e3] at hmin
    unfold whileBody at hpass
    rw [hfind] at hpass
    simp only at hpass
    split_ifs at hpass with hst
    injection hpass with p1 p2 _ _
    subst p1 p2
    have hem : e ∈ m := by rw [e1]; simp
    refine ⟨e.2, l1, a, l2, hem, e2, rfl, hmin, ?_, e6, ?_⟩
    · intro e' he' x hx hxa
      rw [e1] at he'
      rcases List.mem_append.1 he' with hin | hin
      · exact absurd hxa (ne_of_gt (e5 e' hin x hx))
      · rcases List.mem_cons.1 hin with rfl | hin
        · exact le_refl _
        · have hs : (TrackAssociationInfoMap.keys (ma ++ e :: mb)).Sorted (· < ·) := by
            rw [← e1]; exact hwf
          simp only [TrackAssociationInfoMap.keys, List.map_append, List.map_cons] at hs
          have hs2 := (List.pairwise_append.1 hs).2.1
          have := (List.pairwise_cons.1 hs2).1 e'.1 (List.mem_map.2 ⟨e', hin, rfl⟩)
          exact le_of_lt this
    · intro hpw x hx hxa
      rw [e2] at hx hpw
      rcases List.mem_append.1 hx with hin | hin
      · exact absurd hxa (ne_of_gt (e6 x hin))
      · rcases List.mem_cons.1 hin with rfl | hin
        · exact le_refl _
        · have hp2 := (List.pairwise_append.1 hpw).2.1
          exact (List.pairwise_cons.1 hp2).1 x hin

/-- Witness of C20 (amended): track 1 holds two candidates of score 5, stored in the order
of the clusters 20 and 10; the pass commits cluster 20, the one stored first. -/
theorem C20_first_minimum_wins_witness :
    ∃ v l1 a l2, (1, v) ∈ ([(1, [⟨20, 5⟩, ⟨10, 5⟩]), (2, [⟨10, 5⟩])] : TrackAssociationInfoMap) ∧
      v = l1 ++ a :: l2 ∧ a.GetCluster = 20 ∧
      (∀ e ∈ ([(1, [⟨20, 5⟩, ⟨10, 5⟩]), (2, [⟨10, 5⟩])] : TrackAssociationInfoMap), ∀ x ∈ e.2,
        a.GetClosestApproach ≤ x.GetClosestApproach) ∧
      (∀ e ∈ ([(1, [⟨20, 5⟩, ⟨10, 5⟩]), (2, [⟨10, 5⟩])] : TrackAssociationInfoMap), ∀ x ∈ e.2,
        x.GetClosestApproach = a.GetClosestApproach → 1 ≤ e.1) ∧
      (∀ x ∈ l1, a.GetClosestApproach < x.GetClosestApproach) ∧
      (v.Pairwise (fun x y => x.GetCluster ≤ y.GetCluster) →
        ∀ x ∈ v, x.GetClosestApproach = a.GetClosestApproach → 20 ≤ x.GetCluster) :=
  C20_first_minimum_wins (acceptAll : Committer Unit)
    [(1, [⟨20, 5⟩, ⟨10, 5⟩]), (2, [⟨10, 5⟩])] () 1 20 [(2, [⟨10, 5⟩])] () (by decide!) (by decide!)

/-- Counterexample to C20 as stated: the candidates of track 1 for the clusters 20 and 10
share the minimum score 5; the pass commits track 1 with cluster 20, although cluster 10 has
the smaller address. -/
theorem C20_tie_break_counterexample :
    TrackAssociationInfoMap.WellFormed [(1, [⟨20, 5⟩, ⟨10, 5⟩])] ∧
      (⟨10, 5⟩ : AssociationInfo) ∈ [(⟨20, 5⟩ : AssociationInfo), ⟨10, 5⟩] ∧
      (10 : Address) < 20 ∧
      whileBody (acceptAll : Committer Unit) [(1, [⟨20, 5⟩, ⟨10, 5⟩])] () =
        .committed 1 20 [] () ∧
      MakeTrackClusterAssociations (acceptAll : Committer Unit) [(1, [⟨20, 5⟩, ⟨10, 5⟩])] () =
        some ⟨STATUS_CODE_SUCCESS, [], (), [(1, 20)]⟩ :=
  ⟨by decide!, by decide!, by decide!, by decide!, by decide!⟩

/-! ## The orderings and accessors of `Track` -/

/-- C26: `Track::operator<` orders by momentum, highest first: for two tracks whose momentum
magnitudes at dca differ, `a < b` holds exactly when the momentum magnitude of `a` is greater
than that of `b`. -/
theorem C26_operator_less_by_momentum (pA : Address) (a : Track) (pB : Address) (b : Track)
    (hdiff : a.m_momentumMagnitudeAtDca ≠ b.m_momentumMagnitudeAtDca) :
    Track.operatorLess pA a pB b = true ↔
      a.m_momentumMagnitudeAtDca > b.m_momentumMagnitudeAtDca := by
  unfold Track.operatorLess
  have hcases : ¬ (¬ (a.m_momentumMagnitudeAtDca > b.m_momentumMagnitudeAtDca) ∧
      ¬ (b.m_momentumMagnitudeAtDca > a.m_momentumMagnitudeAtDca)) := by
    rintro ⟨h1, h2⟩
    exact hdiff (le_antisymm (not_lt.1 h1) (not_lt.1 h2))
  rw [if_neg hcases]
  exact decide_eq_true_iff

/-- Witness of C26: momenta 3 and 2 at the addresses 1 and 2. -/
theorem C26_operator_less_by_momentum_witness :
    (sampleTrackWith 3 1).m_momentumMagnitudeAtDca ≠ (sampleTrackWith 2 1).m_momentumMagnitudeAtDca ∧
      (Track.operatorLess 1 (sampleTrackWith 3 1) 2 (sampleTrackWith 2 1) = true ↔
        (sampleTrackWith 3 1).m_momentumMagnitudeAtDca >
          (sampleTrackWith 2 1).m_momentumMagnitudeAtDca) :=
  ⟨by decide!, C26_operator_less_by_momentum 1 (sampleTrackWith 3 1) 2 (sampleTrackWith 2 1)
    (by decide!)⟩

theorem trackLess_iff (p : Pandora) (a b : Address) :
    trackLess p a b = true ↔
      (p.track a).m_momentumMagnitudeAtDca > (p.track b).m_momentumMagnitudeAtDca ∨
        ((p.track a).m_momentumMagnitudeAtDca = (p.track b).m_momentumMagnitudeAtDca ∧ a > b) := by
  unfold trackLess Track.operatorLess
  split_ifs with h
  · have heq := le_antisymm (not_lt.1 h.1) (not_lt.1 h.2)
    rw [decide_eq_true_iff]
    constructor
    · intro hab
      exact Or.inr ⟨heq, hab⟩
    · rintro (hgt | ⟨_, hab⟩)
      · exact absurd hgt h.1
      · exact hab
  · rw [decide_eq_true_iff]
    constructor
    · intro hgt
      exact Or.inl hgt
    · rintro (hgt | ⟨heq, _⟩)
      · exact hgt
      · exfalso
        apply h
        rw [heq]
        exact ⟨lt_irrefl _, lt_irrefl _⟩

/-- C27: on the tracks of an event, which have pairwise distinct addresses,
`Track::operator<` is a strict total order: it is irreflexive and transitive, and of two
distinct tracks exactly one is less than the other; tracks of equal momentum are ordered by
address, the higher address first. -/
theorem C27_operator_less_strict_total_order (p : Pandora) :
    (∀ a, trackLess p a a = false) ∧
      (∀ a b c, trackLess p a b = true → trackLess p b c = true → trackLess p a c = true) ∧
      (∀ a b, a ≠ b → (trackLess p a b = true ∨ trackLess p b a = true) ∧
        ¬ (trackLess p a b = true ∧ trackLess p b a = true)) ∧
      (∀ a b, (p.track a).m_momentumMagnitudeAtDca = (p.track b).m_momentumMagnitudeAtDca →
        (trackLess p a b = true ↔ a > b)) := by
  refine ⟨?_, ?_, ?_, ?_⟩
  · intro a
    cases hl : trackLess p a a with
    | false => rfl
    | true =>
      rcases (trackLess_iff p a a).1 hl with h | ⟨_, h⟩
      · exact absurd h (lt_irrefl _)
      · exact absurd h (lt_irrefl _)
  · intro a b c hab hbc
    rw [trackLess_iff] at hab hbc ⊢
    rcases hab with h1 | ⟨h1, h2⟩
    · rcases hbc with h3 | ⟨h3, _⟩
      · exact Or.inl (gt_trans h1 h3)
      · exact Or.inl (by rw [← h3]; exact h1)
    · rcases hbc with h3 | ⟨h3, h4⟩
      · exact Or.inl (by rw [h1]; exact h3)
      · exact Or.inr ⟨h1.trans h3, gt_trans h2 h4⟩
  · intro a b hne
    constructor
    · rcases lt_trichotomy (p.track a).m_momentumMagnitudeAtDca
        (p.track b).m_momentumMagnitudeAtDca with h | h | h
      · exact Or.inr ((trackLess_iff p b a).2 (Or.inl h))
      · rcases lt_or_gt_of_ne hne with h2 | h2
        · exact Or.inr ((trackLess_iff p b a).2 (Or.inr ⟨h.symm, h2⟩))
        · exact Or.inl ((trackLess_iff p a b).2 (Or.inr ⟨h, h2⟩))
      · exact Or.inl ((trackLess_iff p a b).2 (Or.inl h))
    · rintro ⟨hab, hba⟩
      rw [trackLess_iff] at hab hba
      rcases hab with h1 | ⟨h1, h2⟩
      · rcases hba with h3 | ⟨h3, _⟩
        · exact absurd h1 (not_lt.2 (le_of_lt h3))
        · rw [h3] at h1
          exact absurd h1 (lt_irrefl _)
      · rcases hba with h3 | ⟨_, h4⟩
        · rw [h1] at h3
          exact absurd h3 (lt_irrefl _)
        · exact absurd h2 (not_lt.2 (le_of_lt h4))
  · intro a b heq
    rw [trackLess_iff]
    constructor
    · rintro (h | ⟨_, h⟩)
      · rw [heq] at h
        exact absurd h (lt_irrefl _)
      · exact h
    · intro h
      exact Or.inr ⟨heq, h⟩

/-- C28: `Track::SortByEnergy(a, b)` is true exactly when the energy at dca of `a` is strictly
greater than that of `b`; it is irreflexive, asymmetric and transitive, being tied is
transitive, and a list sorted with it has non-increasing energy at dca. -/
theorem C28_sort_by_energy_strict_weak_order :
    (∀ a b : Track, Track.SortByEnergy a b = true ↔ a.GetEnergyAtDca > b.GetEnergyAtDca) ∧
      (∀ a : Track, Track.SortByEnergy a a = false) ∧
      (∀ a b : Track, Track.SortByEnergy a b = true → Track.SortByEnergy b a = false) ∧
      (∀ a b c : Track, Track.SortByEnergy a b = true → Track.SortByEnergy b c = true →
        Track.SortByEnergy a c = true) ∧
      (∀ a b c : Track, Track.SortByEnergy a b = false → Track.SortByEnergy b a = false →
        Track.SortByEnergy b c = false → Track.SortByEnergy c b = false →
        Track.SortByEnergy a c = false ∧ Track.SortByEnergy c a = false) ∧
      (∀ l : List Track, SortedWith Track.SortByEnergy l →
        l.Pairwise (fun a b => b.GetEnergyAtDca ≤ a.GetEnergyAtDca)) := by
  have hiff : ∀ a b : Track, Track.SortByEnergy a b = true ↔
      a.GetEnergyAtDca > b.GetEnergyAtDca := by
    intro a b
    unfold Track.SortByEnergy
    exact decide_eq_true_iff
  have hfalse : ∀ a b : Track, Track.SortByEnergy a b = false ↔
      a.GetEnergyAtDca ≤ b.GetEnergyAtDca := by
    intro a b
    rw [← Bool.not_eq_true, hiff]
    exact not_lt
  refine ⟨hiff, ?_, ?_, ?_, ?_, ?_⟩
  · intro a
    rw [hfalse]
  · intro a b hab
    rw [hiff] at hab
    rw [hfalse]
    exact le_of_lt hab
  · intro a b c hab hbc
    rw [hiff] at hab hbc ⊢
    exact gt_trans hab hbc
  · intro a b c h1 h2 h3 h4
    rw [hfalse] at h1 h2 h3 h4
    exact ⟨(hfalse a c).2 (h1.trans h3), (hfalse c a).2 (h4.trans h2)⟩
  · intro l hl
    unfold SortedWith at hl
    exact hl.imp (fun {a b} hab => (hfalse b a).1 hab)

/-- C29: `Track::GetAssociatedCluster` returns `STATUS_CODE_SUCCESS` and writes the associated
cluster to its output exactly when `Track::HasAssociatedCluster` is true; otherwise it returns
`STATUS_CODE_NOT_INITIALIZED` and leaves the output as it was. -/
theorem C29_get_associated_cluster (t : Track) (pCluster : Option Address) :
    (t.HasAssociatedCluster = true →
        t.GetAssociatedCluster pCluster = (STATUS_CODE_SUCCESS, t.m_pAssociatedCluster)) ∧
      (t.HasAssociatedCluster = false →
        t.GetAssociatedCluster pCluster = (STATUS_CODE_NOT_INITIALIZED, pCluster)) ∧
      ((t.GetAssociatedCluster pCluster).1 = STATUS_CODE_SUCCESS ↔
        t.HasAssociatedCluster = true) := by
  unfold Track.GetAssociatedCluster Track.HasAssociatedCluster
  cases t.m_pAssociatedCluster with
  | none => simp
  | some c => simp

/-- Witness of C27: three tracks of the sample event, all of the same momentum. -/
theorem C27_operator_less_strict_total_order_witness :
    trackLess (sampleEvent [1, 2] 120) 2 1 = true ∧
      trackLess (sampleEvent [1, 2] 120) 1 2 = false ∧
      ((1 : Address) ≠ 2 →
        (trackLess (sampleEvent [1, 2] 120) 1 2 = true ∨
            trackLess (sampleEvent [1, 2] 120) 2 1 = true) ∧
          ¬ (trackLess (sampleEvent [1, 2] 120) 1 2 = true ∧
            trackLess (sampleEvent [1, 2] 120) 2 1 = true)) :=
  ⟨by decide!, by decide!, (C27_operator_less_strict_total_order (sampleEvent [1, 2] 120)).2.2.1 1 2⟩

/-- Witness of C28: the energies 3, 2, 2 are sorted with `SortByEnergy`. -/
theorem C28_sort_by_energy_strict_weak_order_witness :
    SortedWith Track.SortByEnergy [sampleTrackWith 1 3, sampleTrackWith 1 2, sampleTrackWith 1 2] ∧
      [sampleTrackWith 1 3, sampleTrackWith 1 2, sampleTrackWith 1 2].Pairwise
        (fun a b => b.GetEnergyAtDca ≤ a.GetEnergyAtDca) := by
  have hs : SortedWith Track.SortByEnergy
      [sampleTrackWith 1 3, sampleTrackWith 1 2, sampleTrackWith 1 2] := by
    unfold SortedWith
    decide!
  exact ⟨hs, C28_sort_by_energy_strict_weak_order.2.2.2.2.2 _ hs⟩

/-- Witness of C29: a track associated with the cluster at address 10. -/
theorem C29_get_associated_cluster_witness :
    (sampleTrackAssociated (some 10)).HasAssociatedCluster = true ∧
      (sampleTrackAssociated (some 10)).GetAssociatedCluster none =
        (STATUS_CODE_SUCCESS, (sampleTrackAssociated (some 10)).m_pAssociatedCluster) ∧
      (sampleTrackAssociated none).GetAssociatedCluster (some 7) =
        (STATUS_CODE_NOT_INITIALIZED, some 7) :=
  ⟨by decide, (C29_get_associated_cluster (sampleTrackAssociated (some 10)) none).1 (by decide),
    (C29_get_associated_cluster (sampleTrackAssociated none) (some 7)).2.1 (by decide)⟩

/-! ## Reading the settings -/

/-- The status returned by `ReadSettings` is the first read status that is neither success
nor not-found, and success when there is none. -/
theorem ReadSettings_status (xmlHandle : TiXmlHandle) (s0 : Settings) :
    (ReadSettings xmlHandle s0).1 =
      ((readStatuses xmlHandle).find?
        (fun st => decide (st ≠ STATUS_CODE_SUCCESS ∧ st ≠ STATUS_CODE_NOT_FOUND))).getD
        STATUS_CODE_SUCCESS := by
  unfold ReadSettings readStatuses
  simp only []
  by_cases h0 : (xmlHandle.ReadFloat .MaxTrackClusterDeltaZ 250).1 ≠ STATUS_CODE_SUCCESS ∧ (xmlHandle.ReadFloat .MaxTrackClusterDeltaZ 250).1 ≠ STATUS_CODE_NOT_FOUND
  · rw [if_pos h0, List.find?_cons_of_pos _ (by simpa using h0)]
    rfl
  rw [if_neg h0, List.find?_cons_of_neg _ (by simpa using h0)]
  by_cases h1 : (xmlHandle.ReadFloat .MaxAbsoluteTrackClusterChi (5 / 2)).1 ≠ STATUS_CODE_SUCCESS ∧ (xmlHandle.ReadFloat .MaxAbsoluteTrackClusterChi (5 / 2)).1 ≠ STATUS_CODE_NOT_FOUND
  · rw [if_pos h1, List.find?_cons_of_pos _ (by simpa using h1)]
    rfl
  rw [if_neg h1, List.find?_cons_of_neg _ (by simpa using h1)]
  by_cases h2 : (xmlHandle.ReadUnsigned .MaxLayersCrossed 50).1 ≠ STATUS_CODE_SUCCESS ∧ (xmlHandle.ReadUnsigned .MaxLayersCrossed 50).1 ≠ STATUS_CODE_NOT_FOUND
  · rw [if_pos h2, List.find?_cons_of_pos _ (by simpa using h2)]
    rfl
  rw [if_neg h2, List.find?_cons_of_neg _ (by simpa using h2)]
  by_cases h3 : (xmlHandle.ReadUnsigned .MaxSearchLayer 20).1 ≠ STATUS_CODE_SUCCESS ∧ (xmlHandle.ReadUnsigned .MaxSearchLayer 20).1 ≠ STATUS_CODE_NOT_FOUND
  · rw [if_pos h3, List.find?_cons_of_pos _ (by simpa using h3)]
    rfl
  rw [if_neg h3, List.find?_cons_of_neg _ (by simpa using h3)]
  by_cases h4 : (xmlHandle.ReadFloat .ParallelDistanceCut 100).1 ≠ STATUS_CODE_SUCCESS ∧ (xmlHandle.ReadFloat .ParallelDistanceCut 100).1 ≠ STATUS_CODE_NOT_FOUND
  · rw [if_pos h4, List.find?_cons_of_pos _ (by simpa using h4)]
    rfl
  rw [if_neg h4, List.find?_cons_of_neg _ (by simpa using h4)]
  by_cases h5 : (xmlHandle.ReadUnsigned .HelixComparisonNLayers 20).1 ≠ STATUS_CODE_SUCCESS ∧ (xmlHandle.ReadUnsigned .HelixComparisonNLayers 20).1 ≠ STATUS_CODE_NOT_FOUND
  · rw [if_pos h5, List.find?_cons_of_pos _ (by simpa using h5)]
    rfl
  rw [if_neg h5, List.find?_cons_of_neg _ (by simpa using h5)]
  by_cases h6 : (xmlHandle.ReadUnsigned .HelixComparisonMaxOccupiedLayers 9).1 ≠ STATUS_CODE_SUCCESS ∧ (xmlHandle.ReadUnsigned .HelixComparisonMaxOccupiedLayers 9).1 ≠ STATUS_CODE_NOT_FOUND
  · rw [if_pos h6, List.find?_cons_of_pos _ (by simpa using h6)]
    rfl
  rw [if_neg h6, List.find?_cons_of_neg _ (by simpa using h6)]
  by_cases h7 : (xmlHandle.ReadFloat .MaxTrackClusterDistance 100).1 ≠ STATUS_CODE_SUCCESS ∧ (xmlHandle.ReadFloat .MaxTrackClusterDistance 100).1 ≠ STATUS_CODE_NOT_FOUND
  · rw [if_pos h7, List.find?_cons_of_pos _ (by simpa using h7)]
    rfl
  rw [if_neg h7, List.find?_cons_of_neg _ (by simpa using h7)]
  by_cases h8 : (xmlHandle.ReadFloat .MaxClosestHelixClusterDistance 100).1 ≠ STATUS_CODE_SUCCESS ∧ (xmlHandle.ReadFloat .MaxClosestHelixClusterDistance 100).1 ≠ STATUS_CODE_NOT_FOUND
  · rw [if_pos h8, List.find?_cons_of_pos _ (by simpa using h8)]
    rfl
  rw [if_neg h8, List.find?_cons_of_neg _ (by simpa using h8)]
  by_cases h9 : (xmlHandle.ReadFloat .MaxMeanHelixClusterDistance 150).1 ≠ STATUS_CODE_SUCCESS ∧ (xmlHandle.ReadFloat .MaxMeanHelixClusterDistance 150).1 ≠ STATUS_CODE_NOT_FOUND
  · rw [if_pos h9, List.find?_cons_of_pos _ (by simpa using h9)]
    rfl
  rw [if_neg h9, List.find?_cons_of_neg _ (by simpa using h9)]
  rfl

/-- C25: when every read reports not-found, leaving the variable as it is, `ReadSettings`
returns success and the settings are the defaults 250, 2.5, 50, 20, 100, 20, 9, 100, 100 and
150; in general the status returned is the first read status that is neither success nor
not-found, and success when there is none. -/
theorem C25_read_settings_defaults (xmlHandle : TiXmlHandle) (s0 : Settings) :
    ((∀ n v, xmlHandle.ReadFloat n v = (STATUS_CODE_NOT_FOUND, v)) →
      (∀ n v, xmlHandle.ReadUnsigned n v = (STATUS_CODE_NOT_FOUND, v)) →
      ReadSettings xmlHandle s0 = (STATUS_CODE_SUCCESS,
        { m_maxTrackClusterDeltaZ := 250
          m_maxAbsoluteTrackClusterChi := 5 / 2
          m_maxLayersCrossed := 50
          m_maxSearchLayer := 20
          m_parallelDistanceCut := 100
          m_helixComparisonNLayers := 20
          m_helixComparisonMaxOccupiedLayers := 9
          m_maxTrackClusterDistance := 100
          m_maxClosestHelixClusterDistance := 100
          m_maxMeanHelixClusterDistance := 150 })) ∧
      (ReadSettings xmlHandle s0).1 =
        ((readStatuses xmlHandle).find?
          (fun st => decide (st ≠ STATUS_CODE_SUCCESS ∧ st ≠ STATUS_CODE_NOT_FOUND))).getD
          STATUS_CODE_SUCCESS := by
  constructor
  · intro hf hu
    unfold ReadSettings
    simp only [hf, hu, ne_eq, not_true_eq_false, and_false, if_false]
  · exact ReadSettings_status xmlHandle s0

/-- Witness of C25: the empty configuration gives the defaults, and a read that reports
`STATUS_CODE_FAILURE` makes `ReadSettings` return that status. -/
theorem C25_read_settings_defaults_witness :
    ReadSettings emptyXmlHandle wideSettings = (STATUS_CODE_SUCCESS,
        { m_maxTrackClusterDeltaZ := 250
          m_maxAbsoluteTrackClusterChi := 5 / 2
          m_maxLayersCrossed := 50
          m_maxSearchLayer := 20
          m_parallelDistanceCut := 100
          m_helixComparisonNLayers := 20
          m_helixComparisonMaxOccupiedLayers := 9
          m_maxTrackClusterDistance := 100
          m_maxClosestHelixClusterDistance := 100
          m_maxMeanHelixClusterDistance := 150 }) ∧
      (ReadSettings brokenXmlHandle wideSettings).1 = STATUS_CODE_FAILURE :=
  ⟨(C25_read_settings_defaults emptyXmlHandle wideSettings).1 (fun _ _ => rfl) (fun _ _ => rfl),
    (C25_read_settings_defaults brokenXmlHandle wideSettings).2.trans (by decide)⟩

/-! ## The scenarios of the specification -/

theorem ten_lt_FLT_MAX : (10 : ℚ) < FLT_MAX := by decide!

theorem five_lt_FLT_MAX : (5 : ℚ) < FLT_MAX := by decide!

theorem forty_lt_FLT_MAX : (40 : ℚ) < FLT_MAX := by decide!

theorem findClosestPairing_single (t c : Address) (score : ℚ) (hlt : score < FLT_MAX) :
    findClosestPairing [(t, [⟨c, score⟩])] = ⟨score, some t, some c⟩ := by
  simp only [findClosestPairing, List.foldl, considerInfo, AssociationInfo.GetClosestApproach,
    AssociationInfo.GetCluster, if_pos hlt]

theorem findClosestPairing_pair_first (t1 t2 c1 c2 : Address) (s1 s2 : ℚ) (h1 : s1 < FLT_MAX)
    (h12 : ¬ (s2 < s1)) :
    findClosestPairing [(t1, [⟨c1, s1⟩]), (t2, [⟨c2, s2⟩])] = ⟨s1, some t1, some c1⟩ := by
  simp only [findClosestPairing, List.foldl, considerInfo, AssociationInfo.GetClosestApproach,
    AssociationInfo.GetCluster, if_pos h1, if_neg h12]

theorem findClosestPairing_pair_second (t1 t2 c1 c2 : Address) (s1 s2 : ℚ) (h1 : s1 < FLT_MAX)
    (h12 : s2 < s1) :
    findClosestPairing [(t1, [⟨c1, s1⟩]), (t2, [⟨c2, s2⟩])] = ⟨s2, some t2, some c2⟩ := by
  simp only [findClosestPairing, List.foldl, considerInfo, AssociationInfo.GetClosestApproach,
    AssociationInfo.GetCluster, if_pos h1, if_pos h12]

theorem findClosestPairing_nil : findClosestPairing [] = ⟨FLT_MAX, none, none⟩ := rfl

/-- The pass that the search decides: when the search stops at a pairing and the commit
succeeds, the pass commits that pairing and erases the entry of its track. -/
theorem whileBody_of_find {σ : Type} (commit : Committer σ) (m : TrackAssociationInfoMap) (w : σ)
    (score : ℚ) (t c : Address)
    (hf : findClosestPairing m = ⟨score, some t, some c⟩)
    (hs : (commit w t c).1 = STATUS_CODE_SUCCESS) :
    whileBody commit m w = .committed t c (m.erase t) (commit w t c).2 := by
  rcases whileBody_spec commit m w with ⟨_, hno⟩ | ⟨e, _, a, _, _, _, hfe, h2 | h2⟩
  · exfalso
    rcases findClosestPairing_spec m with ⟨h1, _⟩ | ⟨e, he, a, ha, _, hlt, _⟩
    · rw [h1] at hf
      injection hf with _ h3 _
      cases h3
    · exact absurd hlt (not_lt.2 (hno e he a ha))
  · rw [hfe] at hf
    injection hf with _ h3 h4
    injection h3 with h3
    injection h4 with h4
    rw [h3, h4] at h2
    exact absurd hs h2.1
  · rw [hfe] at hf
    injection hf with _ h3 h4
    injection h3 with h3
    injection h4 with h4
    rw [h3, h4] at h2
    exact h2.2

/-- A pass on a map without a candidate below `FLT_MAX` finds no pairing. -/
theorem whileBody_of_find_none {σ : Type} (commit : Committer σ) (m : TrackAssociationInfoMap)
    (w : σ) (hf : findClosestPairing m = ⟨FLT_MAX, none, none⟩) :
    whileBody commit m w = .finished := by
  rcases whileBody_spec commit m w with ⟨h1, _⟩ | ⟨e, _, a, _, _, _, hfe, _⟩
  · exact h1
  · rw [hfe] at hf
    injection hf with _ h3 _
    cases h3

theorem makeLoop_committed {σ : Type} (commit : Committer σ) (fuel : Nat)
    {m m1 : TrackAssociationInfoMap} {w w1 : σ} {t c : Address}
    (hb : whileBody commit m w = .committed t c m1 w1) :
    makeLoop commit (fuel + 1) m w =
      (makeLoop commit fuel m1 w1).map
        (fun o => ⟨o.status, o.map, o.state, (t, c) :: o.calls⟩) := by
  simp only [makeLoop, hb]

theorem makeLoop_finished {σ : Type} (commit : Committer σ) (fuel : Nat)
    {m : TrackAssociationInfoMap} {w : σ} (hb : whileBody commit m w = .finished) :
    makeLoop commit (fuel + 1) m w = some ⟨STATUS_CODE_SUCCESS, m, w, []⟩ := by
  simp only [makeLoop, hb]

theorem erase_single (t : Address) (v : AssociationInfoVector) :
    TrackAssociationInfoMap.erase [(t, v)] t = [] := by
  simp only [TrackAssociationInfoMap.erase, if_true]

/-- The loop on a map with a single entry of one candidate below `FLT_MAX`, when the commit
succeeds: one call, and the map ends empty. -/
theorem makeLoop_single {σ : Type} (commit : Committer σ) (w : σ) (fuel : Nat) (t c : Address)
    (score : ℚ) (hlt : score < FLT_MAX)
    (hs : (commit w t c).1 = STATUS_CODE_SUCCESS) :
    makeLoop commit (fuel + 2) [(t, [⟨c, score⟩])] w =
      some ⟨STATUS_CODE_SUCCESS, [], (commit w t c).2, [(t, c)]⟩ := by
  have hb1 := whileBody_of_find commit [(t, [⟨c, score⟩])] w score t c
    (findClosestPairing_single t c score hlt) hs
  rw [erase_single] at hb1
  have hb2 := whileBody_of_find_none commit [] (commit w t c).2 findClosestPairing_nil
  rw [makeLoop_committed commit (fuel + 1) hb1, makeLoop_finished commit fuel hb2]
  rfl

/-- C21 (amended): for a map holding exactly two tracks `A` and `B` whose only candidate is
the same cluster `X`, with score 10 for `A` and score 5 for `B`, when every commit succeeds
`MakeTrackClusterAssociations` commits `(B, X)` first and `(A, X)` second: the entry of `A`
is not touched by the commit of `B`, so `A` is associated to `X` as well and the map ends
empty. -/
theorem C21_both_tracks_committed {σ : Type} (commit : Committer σ) (w : σ)
    (pTrackA pTrackB pClusterX : Address) (m : TrackAssociationInfoMap)
    (hAB : pTrackA ≠ pTrackB)
    (hall : ∀ w1 t c, (commit w1 t c).1 = STATUS_CODE_SUCCESS)
    (hm : m = [(pTrackA, [⟨pClusterX, 10⟩]), (pTrackB, [⟨pClusterX, 5⟩])] ∨
      m = [(pTrackB, [⟨pClusterX, 5⟩]), (pTrackA, [⟨pClusterX, 10⟩])]) :
    ∃ o, MakeTrackClusterAssociations commit m w = some o ∧ o.status = STATUS_CODE_SUCCESS ∧
      o.calls = [(pTrackB, pClusterX), (pTrackA, pClusterX)] ∧ o.map = [] := by
  have hs := hall w pTrackB pClusterX
  have hrest := makeLoop_single commit (commit w pTrackB pClusterX).2 0 pTrackA pClusterX 10
    ten_lt_FLT_MAX (hall _ _ _)
  refine ⟨⟨STATUS_CODE_SUCCESS, [], (commit (commit w pTrackB pClusterX).2 pTrackA pClusterX).2,
    [(pTrackB, pClusterX), (pTrackA, pClusterX)]⟩, ?_, rfl, rfl, rfl⟩
  rcases hm with rfl | rfl
  · have hb := whileBody_of_find commit _ w 5 pTrackB pClusterX
      (findClosestPairing_pair_second pTrackA pTrackB pClusterX pClusterX 10 5 ten_lt_FLT_MAX
        (by norm_num)) hs
    have he : TrackAssociationInfoMap.erase
        [(pTrackA, [⟨pClusterX, 10⟩]), (pTrackB, [⟨pClusterX, 5⟩])] pTrackB =
        [(pTrackA, [⟨pClusterX, 10⟩])] := by
      simp only [TrackAssociationInfoMap.erase, if_neg hAB, if_true]
    rw [he] at hb
    unfold MakeTrackClusterAssociations
    rw [show ([(pTrackA, [(⟨pClusterX, 10⟩ : AssociationInfo)]),
      (pTrackB, [⟨pClusterX, 5⟩])] : TrackAssociationInfoMap).length + 1 = 2 + 1 from rfl,
      makeLoop_committed commit 2 hb, hrest]
    rfl
  · have hb := whileBody_of_find commit _ w 5 pTrackB pClusterX
      (findClosestPairing_pair_first pTrackB pTrackA pClusterX pClusterX 5 10 five_lt_FLT_MAX
        (by norm_num)) hs
    have he : TrackAssociationInfoMap.erase
        [(pTrackB, [⟨pClusterX, 5⟩]), (pTrackA, [⟨pClusterX, 10⟩])] pTrackB =
        [(pTrackA, [⟨pClusterX, 10⟩])] := by
      simp only [TrackAssociationInfoMap.erase, if_true]
    rw [he] at hb
    unfold MakeTrackClusterAssociations
    rw [show ([(pTrackB, [(⟨pClusterX, 5⟩ : AssociationInfo)]),
      (pTrackA, [⟨pClusterX, 10⟩])] : TrackAssociationInfoMap).length + 1 = 2 + 1 from rfl,
      makeLoop_committed commit 2 hb, hrest]
    rfl

/-- Witness of C21 (amended): tracks 1 and 2 with cluster 10. -/
theorem C21_both_tracks_committed_witness :
    ∃ o, MakeTrackClusterAssociations (acceptAll : Committer Unit)
        [(1, [⟨10, 10⟩]), (2, [⟨10, 5⟩])] () = some o ∧ o.status = STATUS_CODE_SUCCESS ∧
      o.calls = [(2, 10), (1, 10)] ∧ o.map = [] :=
  C21_both_tracks_committed acceptAll () 1 2 10 [(1, [⟨10, 10⟩]), (2, [⟨10, 5⟩])] (by decide)
    (fun _ _ _ => rfl) (Or.inl rfl)

/-- Counterexample to C21 as stated: track 1 (score 10) and track 2 (score 5) both hold
cluster 10 as their only candidate; after `(2, 10)` the committer is called for track 1 as
well, with cluster 10. -/
theorem C21_second_track_counterexample :
    MakeTrackClusterAssociations (acceptAll : Committer Unit)
        [(1, [⟨10, 10⟩]), (2, [⟨10, 5⟩])] () =
      some ⟨STATUS_CODE_SUCCESS, [], (), [(2, 10), (1, 10)]⟩ := by
  decide!

/-- C22 (amended): with the default configuration, for one eligible track with ECal
projection z = +100 and a valid helix, and one eligible cluster with inner-layer centroid
z = +120, `|chi|` within tolerance, zero layers crossed, computed track-cluster distance 40,
and a helix distance computation that succeeds with a closest distance to a hit of at least
40, `GetTrackAssociationInfoMap` generates exactly that pair as a candidate with score 40, and
when the commit succeeds `Run` commits it as the sole association. -/
theorem C22_single_pair_scenario (h : Helpers) (commit : Committer Pandora) (p : Pandora)
    (pTrack pCluster : Address)
    (htl : p.GetCurrentTrackList = (STATUS_CODE_SUCCESS, [pTrack]))
    (hcl : p.GetCurrentClusterList = (STATUS_CODE_SUCCESS, [pCluster]))
    (hT : EligibleTrack p pTrack) (hC : EligibleCluster p pCluster)
    (_hhelix : (p.track pTrack).GetHelixFitAtECal.isSome = true)
    (hzT : zTrack p pTrack = 100) (hzC : zCluster p pCluster = 120)
    (hchi : |chiOf h p pTrack pCluster| ≤ defaultSettings.m_maxAbsoluteTrackClusterChi)
    (hlayers : nLayersCrossedOf h p pTrack pCluster = 0)
    (hdist : trackClusterDistanceOf defaultSettings h pTrack pCluster = (STATUS_CODE_SUCCESS, 40))
    (hhelixd : (clusterHelixDistanceOf defaultSettings h p pTrack pCluster).1 = STATUS_CODE_SUCCESS)
    (hclosest : 40 ≤ (clusterHelixDistanceOf defaultSettings h p pTrack pCluster).2.1)
    (hall : ∀ w t c, (commit w t c).1 = STATUS_CODE_SUCCESS) :
    GetTrackAssociationInfoMap defaultSettings h p [] =
        (STATUS_CODE_SUCCESS, [(pTrack, [⟨pCluster, 40⟩])]) ∧
      ∃ o, Run defaultSettings h commit p = some o ∧ o.status = STATUS_CODE_SUCCESS ∧
        o.calls = [(pTrack, pCluster)] ∧ o.map = [] := by
  have hinfo : associationInfoFor defaultSettings h p pTrack pCluster = some ⟨pCluster, 40⟩ := by
    rw [associationInfoFor_eq_some_iff]
    refine ⟨⟨hC, ⟨?_, ?_⟩, not_lt.2 hchi, ?_, ?_, hhelixd, ?_⟩, ?_⟩
    · rw [hzT, hzC]
      decide!
    · rw [hzT, hzC]
      decide!
    · unfold PassesLayersCrossedCut
      rw [hlayers]
      exact Nat.not_lt_zero _
    · rw [hdist]
    · left
      rw [hdist]
      show (40 : ℚ) ≤ 100
      norm_num
    · rw [hdist]
      unfold stdMin
      split_ifs with hlt
      · rfl
      · exact congrArg _ (le_antisymm hclosest (not_lt.1 hlt))
  have hused : trackIsUsed p pTrack = true := (trackIsUsed_iff p pTrack).2 hT
  have hget : GetTrackAssociationInfoMap defaultSettings h p [] =
      (STATUS_CODE_SUCCESS, [(pTrack, [⟨pCluster, 40⟩])]) := by
    unfold GetTrackAssociationInfoMap
    rw [htl, hcl]
    simp only [ne_eq, not_true_eq_false, if_false, List.foldl, trackStep, hused, if_true,
      clusterStep, hinfo, TrackAssociationInfoMap.pushBack]
  refine ⟨hget, ⟨STATUS_CODE_SUCCESS, [], (commit p pTrack pCluster).2, [(pTrack, pCluster)]⟩,
    ?_, rfl, rfl, rfl⟩
  unfold Run
  rw [hget]
  simp only [ne_eq, not_true_eq_false, if_false]
  unfold MakeTrackClusterAssociations
  exact makeLoop_single commit p 0 pTrack pCluster 40 forty_lt_FLT_MAX (hall _ _ _)

/-- Witness of C22 (amended): the sample event, with closest helix distance 60. -/
theorem C22_single_pair_scenario_witness :
    GetTrackAssociationInfoMap defaultSettings (sampleHelpers (fun _ => 40))
        (sampleEvent [1] 120) [] = (STATUS_CODE_SUCCESS, [(1, [⟨10, 40⟩])]) ∧
      ∃ o, Run defaultSettings (sampleHelpers (fun _ => 40)) acceptAll (sampleEvent [1] 120) =
          some o ∧ o.status = STATUS_CODE_SUCCESS ∧ o.calls = [(1, 10)] ∧ o.map = [] :=
  C22_single_pair_scenario (sampleHelpers (fun _ => 40)) acceptAll (sampleEvent [1] 120) 1 10
    rfl rfl (by decide!) (by decide!) (by decide!) (by decide!) (by decide!) (by decide!)
    (by decide!) (by decide!) (by decide!) (by decide!) (fun _ _ _ => rfl)

/-- Counterexample to C22 as stated: everything the scenario fixes holds (default
configuration, eligible track at z = +100 with a helix, eligible cluster at z = +120, chi 0,
no layer crossed, track-cluster distance 40), the closest distance from the helix to a hit is
30, and the candidate generated for the pair has the score 30, not 40. -/
theorem C22_score_counterexample :
    EligibleTrack (sampleEvent [1] 120) 1 ∧ EligibleCluster (sampleEvent [1] 120) 10 ∧
      ((sampleEvent [1] 120).track 1).GetHelixFitAtECal.isSome = true ∧
      zTrack (sampleEvent [1] 120) 1 = 100 ∧ zCluster (sampleEvent [1] 120) 10 = 120 ∧
      |chiOf (sampleHelpersClosest 30) (sampleEvent [1] 120) 1 10| ≤
        defaultSettings.m_maxAbsoluteTrackClusterChi ∧
      nLayersCrossedOf (sampleHelpersClosest 30) (sampleEvent [1] 120) 1 10 = 0 ∧
      trackClusterDistanceOf defaultSettings (sampleHelpersClosest 30) 1 10 =
        (STATUS_CODE_SUCCESS, 40) ∧
      GetTrackAssociationInfoMap defaultSettings (sampleHelpersClosest 30)
        (sampleEvent [1] 120) [] = (STATUS_CODE_SUCCESS, [(1, [⟨10, 30⟩])]) := by
  refine ⟨by decide!, by decide!, by decide!, by decide!, by decide!, by decide!, by decide!,
    by decide!, by decide!⟩

/-! ## Independence of the order of the lists -/

theorem pushBack_ne_nil {m : TrackAssociationInfoMap} (k : Address) (info : AssociationInfo)
    (hm : ∀ e ∈ m, e.2 ≠ []) : ∀ e ∈ m.pushBack k info, e.2 ≠ [] := by
  induction m with
  | nil =>
    intro e he
    simp only [TrackAssociationInfoMap.pushBack, List.mem_singleton] at he
    subst he
    simp
  | cons hd tl ih =>
    obtain ⟨k0, v0⟩ := hd
    intro e he
    simp only [TrackAssociationInfoMap.pushBack] at he
    split_ifs at he with h1 h2
    · rcases List.mem_cons.1 he with rfl | he
      · simp
      · exact hm e he
    · rcases List.mem_cons.1 he with rfl | he
      · simp
      · exact hm e (List.mem_cons_of_mem _ he)
    · rcases List.mem_cons.1 he with rfl | he
      · exact hm _ (List.mem_cons_self _ _)
      · exact ih (fun e he => hm e (List.mem_cons_of_mem _ he)) e he

theorem clusterStep_foldl_ne_nil (s : Settings) (h : Helpers) (p : Pandora) (pTrack : Address)
    (clusters : List Address) (m : TrackAssociationInfoMap) (hm : ∀ e ∈ m, e.2 ≠ []) :
    ∀ e ∈ clusters.foldl (clusterStep s h p pTrack) m, e.2 ≠ [] := by
  induction clusters generalizing m with
  | nil => exact hm
  | cons c cs ih =>
    rw [List.foldl_cons]
    apply ih
    unfold clusterStep
    cases associationInfoFor s h p pTrack c with
    | none => exact hm
    | some info => exact pushBack_ne_nil _ _ hm

theorem trackStep_foldl_ne_nil (s : Settings) (h : Helpers) (p : Pandora)
    (clusters tracks : List Address) (m : TrackAssociationInfoMap) (hm : ∀ e ∈ m, e.2 ≠ []) :
    ∀ e ∈ tracks.foldl (trackStep s h p clusters) m, e.2 ≠ [] := by
  induction tracks generalizing m with
  | nil => exact hm
  | cons t ts ih =>
    rw [List.foldl_cons]
    apply ih
    unfold trackStep
    split_ifs
    · exact clusterStep_foldl_ne_nil s h p t clusters m hm
    · exact hm

/-- Every track of the generated map has at least one candidate. -/
theorem generated_entry_ne_nil (s : Settings) (h : Helpers) (p : Pandora)
    {e : Address × AssociationInfoVector} (he : e ∈ (GetTrackAssociationInfoMap s h p []).2) :
    e.2 ≠ [] := by
  unfold GetTrackAssociationInfoMap at he
  split_ifs at he with h1 h2
  · simp at he
  · simp at he
  · exact trackStep_foldl_ne_nil s h p _ _ [] (by simp) e he

theorem generated_statuses (s : Settings) (h : Helpers) (p : Pandora)
    {e : Address × AssociationInfoVector} (he : e ∈ (GetTrackAssociationInfoMap s h p []).2) :
    p.GetCurrentTrackList.1 = STATUS_CODE_SUCCESS ∧
      p.GetCurrentClusterList.1 = STATUS_CODE_SUCCESS := by
  unfold GetTrackAssociationInfoMap at he
  split_ifs at he with h1 h2
  · simp at he
  · simp at he
  · exact ⟨not_not.1 h1, not_not.1 h2⟩

/-- The candidates of the generated map, as a set: `a` is stored under the track `k` exactly
when both lists are retrieved, `k` is a listed track that passes the track filters, the
cluster of `a` is listed, and the inner loop body produces `a` for the pair. -/
theorem mem_generated_iff (s : Settings) (h : Helpers) (p : Pandora) (k : Address)
    (a : AssociationInfo) :
    (∃ e ∈ (GetTrackAssociationInfoMap s h p []).2, e.1 = k ∧ a ∈ e.2) ↔
      (p.GetCurrentTrackList.1 = STATUS_CODE_SUCCESS ∧
        p.GetCurrentClusterList.1 = STATUS_CODE_SUCCESS ∧
        k ∈ p.GetCurrentTrackList.2 ∧ a.m_pCluster ∈ p.GetCurrentClusterList.2 ∧
        trackIsUsed p k = true ∧ associationInfoFor s h p k a.m_pCluster = some a) := by
  constructor
  · rintro ⟨e, he, rfl, ha⟩
    obtain ⟨g1, g2, g3, g4⟩ := generated_of_mem s h p he ha
    obtain ⟨s1, s2⟩ := generated_statuses s h p he
    exact ⟨s1, s2, g1, g3, g2, g4⟩
  · rintro ⟨s1, s2, g1, g3, g2, g4⟩
    have hp : PairSurvives s h p k a.m_pCluster :=
      (associationInfoFor_isSome_iff s h p _ _).1 ⟨g2, by simp [g4]⟩
    obtain ⟨e, he, hk, ha⟩ := generated_candidate_of_survives s h p k a.m_pCluster s1 s2 g1 g3 hp
    refine ⟨e, he, hk, ?_⟩
    have h2 := ((associationInfoFor_eq_some_iff s h p _ _ a).1 g4).2
    rw [stdMin_eq_min] at h2
    rw [h2]
    exact ha

theorem mem_keys_generated_iff (s : Settings) (h : Helpers) (p : Pandora) (k : Address) :
    k ∈ TrackAssociationInfoMap.keys (GetTrackAssociationInfoMap s h p []).2 ↔
      ∃ a, ∃ e ∈ (GetTrackAssociationInfoMap s h p []).2, e.1 = k ∧ a ∈ e.2 := by
  constructor
  · intro hk
    obtain ⟨e, he, rfl⟩ := List.mem_map.1 hk
    cases hv : e.2 with
    | nil => exact absurd hv (generated_entry_ne_nil s h p he)
    | cons a as => exact ⟨a, e, he, rfl, by rw [hv]; exact List.mem_cons_self _ _⟩
  · rintro ⟨a, e, he, rfl, _⟩
    exact List.mem_map.2 ⟨e, he, rfl⟩

/-- C23: the content of the generated map does not depend on the order of the lists. For any
reordering of the track list and of the cluster list, with the same configuration and
helpers, `GetTrackAssociationInfoMap` produces maps with the same set of track keys and, for
every track, the same set of candidates (cluster and score), each the same number of times. -/
theorem C23_content_independent_of_order (s : Settings) (h : Helpers) (p : Pandora)
    (tracks clusters : List Address)
    (hT : tracks.Perm p.GetCurrentTrackList.2) (hC : clusters.Perm p.GetCurrentClusterList.2) :
    (∀ k, k ∈ TrackAssociationInfoMap.keys (GetTrackAssociationInfoMap s h p []).2 ↔
        k ∈ TrackAssociationInfoMap.keys
          (GetTrackAssociationInfoMap s h (reordered p tracks clusters) []).2) ∧
      (∀ k a, (∃ e ∈ (GetTrackAssociationInfoMap s h p []).2, e.1 = k ∧ a ∈ e.2) ↔
        (∃ e ∈ (GetTrackAssociationInfoMap s h (reordered p tracks clusters) []).2,
          e.1 = k ∧ a ∈ e.2)) ∧
      (∀ k c, (candidatesOf (GetTrackAssociationInfoMap s h p []).2 k c).length =
        (candidatesOf (GetTrackAssociationInfoMap s h (reordered p tracks clusters) []).2
          k c).length) := by
  have hmem : ∀ k a, (∃ e ∈ (GetTrackAssociationInfoMap s h p []).2, e.1 = k ∧ a ∈ e.2) ↔
      (∃ e ∈ (GetTrackAssociationInfoMap s h (reordered p tracks clusters) []).2,
        e.1 = k ∧ a ∈ e.2) := by
    intro k a
    rw [mem_generated_iff, mem_generated_iff]
    have e1 : trackIsUsed (reordered p tracks clusters) k = trackIsUsed p k := rfl
    have e2 : associationInfoFor s h (reordered p tracks clusters) k a.m_pCluster =
        associationInfoFor s h p k a.m_pCluster := rfl
    rw [e1, e2]
    show _ ↔ (p.GetCurrentTrackList.1 = STATUS_CODE_SUCCESS ∧
      p.GetCurrentClusterList.1 = STATUS_CODE_SUCCESS ∧ k ∈ tracks ∧ a.m_pCluster ∈ clusters ∧ _)
    rw [hT.mem_iff, hC.mem_iff]
  refine ⟨?_, hmem, ?_⟩
  · intro k
    rw [mem_keys_generated_iff, mem_keys_generated_iff]
    exact exists_congr (fun a => hmem k a)
  · intro k c
    by_cases hst : p.GetCurrentTrackList.1 = STATUS_CODE_SUCCESS ∧
        p.GetCurrentClusterList.1 = STATUS_CODE_SUCCESS
    · rw [length_candidatesOf_generated s h p k c hst.1 hst.2,
        length_candidatesOf_generated s h (reordered p tracks clusters) k c hst.1 hst.2]
      have e3 : PairSurvives s h (reordered p tracks clusters) k c ↔ PairSurvives s h p k c :=
        Iff.rfl
      show _ = if PairSurvives s h (reordered p tracks clusters) k c
        then tracks.count k * clusters.count c else 0
      rw [hT.count_eq, hC.count_eq]
      by_cases hp : PairSurvives s h p k c
      · rw [if_pos hp, if_pos (e3.2 hp)]
      · rw [if_neg hp, if_neg (fun hh => hp (e3.1 hh))]
    · have hnil : ∀ q : Pandora, ¬ (q.GetCurrentTrackList.1 = STATUS_CODE_SUCCESS ∧
          q.GetCurrentClusterList.1 = STATUS_CODE_SUCCESS) →
          (GetTrackAssociationInfoMap s h q []).2 = [] := by
        intro q hq
        apply List.eq_nil_iff_forall_not_mem.2
        intro e he
        exact hq (generated_statuses s h q he)
      rw [hnil p hst, hnil (reordered p tracks clusters) hst]

/-- Witness of C23: the sample event with the track list `[1, 2]` and with `[2, 1]`. -/
theorem C23_content_independent_of_order_witness :
    (∀ k, k ∈ TrackAssociationInfoMap.keys (GetTrackAssociationInfoMap defaultSettings
          (sampleHelpers (fun _ => 40)) (sampleEvent [1, 2] 120) []).2 ↔
        k ∈ TrackAssociationInfoMap.keys (GetTrackAssociationInfoMap defaultSettings
          (sampleHelpers (fun _ => 40)) (reordered (sampleEvent [1, 2] 120) [2, 1] [10]) []).2) ∧
      (∀ k a, (∃ e ∈ (GetTrackAssociationInfoMap defaultSettings (sampleHelpers (fun _ => 40))
          (sampleEvent [1, 2] 120) []).2, e.1 = k ∧ a ∈ e.2) ↔
        (∃ e ∈ (GetTrackAssociationInfoMap defaultSettings (sampleHelpers (fun _ => 40))
          (reordered (sampleEvent [1, 2] 120) [2, 1] [10]) []).2, e.1 = k ∧ a ∈ e.2)) ∧
      (∀ k c, (candidatesOf (GetTrackAssociationInfoMap defaultSettings
          (sampleHelpers (fun _ => 40)) (sampleEvent [1, 2] 120) []).2 k c).length =
        (candidatesOf (GetTrackAssociationInfoMap defaultSettings (sampleHelpers (fun _ => 40))
          (reordered (sampleEvent [1, 2] 120) [2, 1] [10]) []).2 k c).length) :=
  C23_content_independent_of_order defaultSettings (sampleHelpers (fun _ => 40))
    (sampleEvent [1, 2] 120) [2, 1] [10] (List.Perm.swap 1 2 []) (List.Perm.refl _)

/-! ## The greedy loop and the per-track choice -/

theorem selectedPairings_of_find (fuel : Nat) (m : TrackAssociationInfoMap) (score : ℚ)
    (t c : Address) (hf : findClosestPairing m = ⟨score, some t, some c⟩) :
    selectedPairings (fuel + 1) m = (t, ⟨c, score⟩) :: selectedPairings fuel (m.erase t) := by
  simp only [selectedPairings, hf]

theorem selectedPairings_of_find_none (fuel : Nat) (m : TrackAssociationInfoMap)
    (hf : findClosestPairing m = ⟨FLT_MAX, none, none⟩) :
    selectedPairings (fuel + 1) m = [] := by
  simp only [selectedPairings, hf]

theorem findClosestPairing_of_no_candidate (m : TrackAssociationInfoMap)
    (hno : ∀ e ∈ m, ∀ a ∈ e.2, FLT_MAX ≤ a.m_closestApproach) :
    findClosestPairing m = ⟨FLT_MAX, none, none⟩ := by
  rcases findClosestPairing_spec m with ⟨h1, _⟩ | ⟨e, he, a, ha, _, hlt, _⟩
  · exact h1
  · exact absurd hlt (not_lt.2 (hno e he a ha))

/-- When every commit succeeds, the calls of the loop are the selected pairings. -/
theorem makeLoop_calls_eq_selected {σ : Type} (commit : Committer σ)
    (hall : ∀ w t c, (commit w t c).1 = STATUS_CODE_SUCCESS) :
    ∀ (fuel : Nat) (m : TrackAssociationInfoMap) (w : σ) (o : Outcome σ),
      makeLoop commit fuel m w = some o → o.calls = (selectedPairings fuel m).map callOf := by
  intro fuel
  induction fuel with
  | zero => intro m w o hrun; simp [makeLoop] at hrun
  | succ fuel ih =>
    intro m w o hrun
    rcases whileBody_spec commit m w with ⟨h1, hno⟩ | ⟨e, _, a, _, _, _, hfe, h2 | h2⟩
    · rw [makeLoop_finished commit fuel h1] at hrun
      simp only [Option.some.injEq] at hrun
      rw [← hrun, selectedPairings_of_find_none fuel m (findClosestPairing_of_no_candidate m hno)]
      rfl
    · exact absurd (hall w e.1 a.m_pCluster) h2.1
    · rw [makeLoop_committed commit fuel h2.2] at hrun
      cases hrec : makeLoop commit fuel (m.erase e.1) (commit w e.1 a.m_pCluster).2 with
      | none => rw [hrec] at hrun; cases hrun
      | some o1 =>
        rw [hrec] at hrun
        simp only [Option.map_some', Option.some.injEq] at hrun
        rw [← hrun, selectedPairings_of_find fuel m _ _ _ hfe]
        simp only [List.map_cons]
        rw [← ih _ _ o1 hrec]
        rfl

theorem firstMinimum_nil : firstMinimum [] = none := rfl

theorem find_append_first {α : Type} (P : α → Bool) (l1 : List α) (a : α) (l2 : List α)
    (h1 : ∀ x ∈ l1, P x = false) (ha : P a = true) :
    (l1 ++ a :: l2).find? P = some a := by
  induction l1 with
  | nil => simp [List.find?, ha]
  | cons x xs ih =>
    have hx : P x = false := h1 x (List.mem_cons_self _ _)
    simp only [List.cons_append, List.find?, hx]
    exact ih (fun y hy => h1 y (List.mem_cons_of_mem _ hy))

/-- The candidate that comes before every candidate of equal score and has no candidate of
smaller score is the first minimum of its vector. -/
theorem firstMinimum_eq (v l1 l2 : AssociationInfoVector) (a : AssociationInfo)
    (hv : v = l1 ++ a :: l2)
    (hbefore : ∀ x ∈ l1, a.m_closestApproach < x.m_closestApproach)
    (hmin : ∀ x ∈ v, a.m_closestApproach ≤ x.m_closestApproach) :
    firstMinimum v = some a := by
  subst hv
  have ha : a ∈ l1 ++ a :: l2 := by simp
  unfold firstMinimum
  apply find_append_first
  · intro x hx
    rw [List.all_eq_false]
    refine ⟨a, ha, ?_⟩
    simp only [AssociationInfo.GetClosestApproach, decide_eq_true_eq, not_le]
    exact hbefore x hx
  · rw [List.all_eq_true]
    intro x hx
    simp only [AssociationInfo.GetClosestApproach, decide_eq_true_eq]
    exact hmin x hx

theorem erase_middle (ma mb : TrackAssociationInfoMap) (e : Address × AssociationInfoVector)
    (hk : e.1 ∉ TrackAssociationInfoMap.keys ma) :
    TrackAssociationInfoMap.erase (ma ++ e :: mb) e.1 = ma ++ mb := by
  induction ma with
  | nil =>
    obtain ⟨k, v⟩ := e
    simp only [List.nil_append, TrackAssociationInfoMap.erase, if_true]
  | cons hd tl ih =>
    obtain ⟨k0, v0⟩ := hd
    simp only [TrackAssociationInfoMap.keys, List.map_cons, List.mem_cons, not_or] at hk
    have hne : ¬ k0 = e.1 := fun hh => hk.1 hh.symm
    simp only [List.cons_append, TrackAssociationInfoMap.erase, if_neg hne]
    exact congrArg _ (ih hk.2)

theorem perTrackChoice_append (ma mb : TrackAssociationInfoMap) :
    perTrackChoice (ma ++ mb) = perTrackChoice ma ++ perTrackChoice mb := by
  unfold perTrackChoice
  exact List.filterMap_append _ _ _

theorem perTrackChoice_cons_some (e : Address × AssociationInfoVector)
    (mb : TrackAssociationInfoMap) (a : AssociationInfo) (ha : firstMinimum e.2 = some a) :
    perTrackChoice (e :: mb) = (e.1, a) :: perTrackChoice mb := by
  unfold perTrackChoice
  simp only [List.filterMap_cons, ha, Option.map_some']

theorem perTrackChoice_cons_nil (e : Address × AssociationInfoVector)
    (mb : TrackAssociationInfoMap) (he : e.2 = []) :
    perTrackChoice (e :: mb) = perTrackChoice mb := by
  unfold perTrackChoice
  simp only [List.filterMap_cons, he, firstMinimum_nil, Option.map_none']

theorem perTrackChoice_of_no_candidate (m : TrackAssociationInfoMap)
    (hno : ∀ e ∈ m, e.2 = []) : perTrackChoice m = [] := by
  induction m with
  | nil => rfl
  | cons e es ih =>
    rw [perTrackChoice_cons_nil e es (hno e (List.mem_cons_self _ _))]
    exact ih (fun e1 he1 => hno e1 (List.mem_cons_of_mem _ he1))

/-- On a well-formed map whose scores all lie below `FLT_MAX`, the selected pairings are, up
to their order, the per-track choice. -/
theorem selectedPairings_perm (fuel : Nat) :
    ∀ (m : TrackAssociationInfoMap), TrackAssociationInfoMap.WellFormed m →
      (∀ e ∈ m, ∀ a ∈ e.2, a.m_closestApproach < FLT_MAX) → m.length < fuel →
      (selectedPairings fuel m).Perm (perTrackChoice m) := by
  induction fuel with
  | zero => intro m _ _ hlen; omega
  | succ fuel ih =>
    intro m hwf hlt hlen
    have hmin := (search_foldl m ⟨FLT_MAX, none, none⟩).1
    rcases search_foldl_first m ⟨FLT_MAX, none, none⟩ with hnone |
      ⟨ma, e, mb, l1, a, l2, e1, e2, e3, _, _, e6⟩
    · have hf : findClosestPairing m = ⟨FLT_MAX, none, none⟩ := hnone
      rw [selectedPairings_of_find_none fuel m hf]
      have hempty : ∀ e ∈ m, e.2 = [] := by
        intro e he
        cases hv : e.2 with
        | nil => rfl
        | cons a as =>
          have ha : a ∈ e.2 := by rw [hv]; exact List.mem_cons_self _ _
          have h1 := hmin e he a ha
          rw [hnone] at h1
          exact absurd (hlt e he a ha) (not_lt.2 h1)
      rw [perTrackChoice_of_no_candidate m hempty]
    · have hf : findClosestPairing m = ⟨a.m_closestApproach, some e.1, some a.m_pCluster⟩ := e3
      rw [e3] at hmin
      have hem : e ∈ m := by rw [e1]; simp
      have hfirst : firstMinimum e.2 = some a :=
        firstMinimum_eq e.2 l1 l2 a e2 e6 (hmin e hem)
      have hs : (TrackAssociationInfoMap.keys (ma ++ e :: mb)).Sorted (· < ·) := by
        rw [← e1]; exact hwf
      simp only [TrackAssociationInfoMap.keys, List.map_append, List.map_cons] at hs
      have hnotin : e.1 ∉ TrackAssociationInfoMap.keys ma := by
        intro hin
        have := (List.pairwise_append.1 hs).2.2 e.1 hin e.1 (List.mem_cons_self _ _)
        exact absurd this (lt_irrefl _)
      have hwf1 : TrackAssociationInfoMap.WellFormed (ma ++ mb) := by
        unfold TrackAssociationInfoMap.WellFormed
        simp only [TrackAssociationInfoMap.keys, List.map_append]
        exact List.Pairwise.sublist
          (List.Sublist.append_left (List.sublist_cons_self _ _) _) hs
      have hlt1 : ∀ e' ∈ ma ++ mb, ∀ x ∈ e'.2, x.m_closestApproach < FLT_MAX := by
        intro e' he' x hx
        apply hlt e' _ x hx
        rw [e1]
        rcases List.mem_append.1 he' with hin | hin
        · exact List.mem_append_left _ hin
        · exact List.mem_append_right _ (List.mem_cons_of_mem _ hin)
      have hlen1 : (ma ++ mb).length < fuel := by
        rw [e1] at hlen
        simp only [List.length_append, List.length_cons] at hlen ⊢
        omega
      rw [selectedPairings_of_find fuel m _ _ _ hf]
      have herase : TrackAssociationInfoMap.erase m e.1 = ma ++ mb := by
        rw [e1]
        exact erase_middle ma mb e hnotin
      rw [herase]
      have hptc : perTrackChoice m = perTrackChoice ma ++ (e.1, a) :: perTrackChoice mb := by
        rw [e1, perTrackChoice_append, perTrackChoice_cons_some e mb a hfirst]
      rw [hptc]
      have hih := ih (ma ++ mb) hwf1 hlt1 hlen1
      rw [perTrackChoice_append] at hih
      exact (List.Perm.cons _ hih).trans List.perm_middle.symm

theorem exists_minimum (v : AssociationInfoVector) (hv : v ≠ []) :
    ∃ a ∈ v, ∀ x ∈ v, a.m_closestApproach ≤ x.m_closestApproach := by
  induction v with
  | nil => exact absurd rfl hv
  | cons a0 as ih =>
    by_cases has : as = []
    · subst has
      exact ⟨a0, List.mem_cons_self _ _, by simp⟩
    · obtain ⟨b, hb, hbmin⟩ := ih has
      by_cases hab : a0.m_closestApproach ≤ b.m_closestApproach
      · refine ⟨a0, List.mem_cons_self _ _, ?_⟩
        intro x hx
        rcases List.mem_cons.1 hx with rfl | hx
        · exact le_refl _
        · exact hab.trans (hbmin x hx)
      · refine ⟨b, List.mem_cons_of_mem _ hb, ?_⟩
        intro x hx
        rcases List.mem_cons.1 hx with rfl | hx
        · exact le_of_lt (not_le.1 hab)
        · exact hbmin x hx

/-- A non-empty vector has a first minimum; it is a candidate of the vector and no candidate
of the vector has a smaller score. -/
theorem firstMinimum_spec (v : AssociationInfoVector) (hv : v ≠ []) :
    ∃ a, firstMinimum v = some a ∧ a ∈ v ∧ ∀ x ∈ v, a.m_closestApproach ≤ x.m_closestApproach := by
  obtain ⟨b, hb, hbmin⟩ := exists_minimum v hv
  cases hf : firstMinimum v with
  | none =>
    exfalso
    unfold firstMinimum at hf
    rw [List.find?_eq_none] at hf
    apply hf b hb
    rw [List.all_eq_true]
    intro x hx
    simp only [AssociationInfo.GetClosestApproach, decide_eq_true_eq]
    exact hbmin x hx
  | some a =>
    refine ⟨a, rfl, ?_, ?_⟩
    · unfold firstMinimum at hf
      exact List.mem_of_find?_eq_some hf
    · unfold firstMinimum at hf
      have hp := List.find?_some hf
      rw [List.all_eq_true] at hp
      intro x hx
      simpa [AssociationInfo.GetClosestApproach] using hp x hx

theorem isEmpty_eq_false_of_ne_nil {α : Type} (l : List α) (hl : l ≠ []) :
    l.isEmpty = false := by
  cases l with
  | nil => exact absurd rfl hl
  | cons a as => rfl

/-- The per-track choice is an assignment. -/
theorem perTrackChoice_isAssignment (m : TrackAssociationInfoMap) :
    IsAssignment m (perTrackChoice m) := by
  unfold IsAssignment
  induction m with
  | nil => exact List.Forall₂.nil
  | cons e es ih =>
    by_cases he : e.2 = []
    · rw [perTrackChoice_cons_nil e es he]
      have : (List.filter (fun e => !e.2.isEmpty) (e :: es)) =
          List.filter (fun e => !e.2.isEmpty) es := by
        rw [List.filter_cons]
        simp [he]
      rw [this]
      exact ih
    · obtain ⟨a, ha, hmem, _⟩ := firstMinimum_spec e.2 he
      rw [perTrackChoice_cons_some e es a ha]
      have : (List.filter (fun e => !e.2.isEmpty) (e :: es)) =
          e :: List.filter (fun e => !e.2.isEmpty) es := by
        rw [List.filter_cons]
        simp [isEmpty_eq_false_of_ne_nil e.2 he]
      rw [this]
      exact List.Forall₂.cons ⟨rfl, hmem⟩ ih

/-- No assignment has a smaller total score than the per-track choice. -/
theorem totalScore_perTrackChoice_le (m : TrackAssociationInfoMap) :
    ∀ l, IsAssignment m l → totalScore (perTrackChoice m) ≤ totalScore l := by
  induction m with
  | nil =>
    intro l hl
    unfold IsAssignment at hl
    simp only [List.filter_nil, List.forall₂_nil_left_iff] at hl
    subst hl
    exact le_refl _
  | cons e es ih =>
    intro l hl
    unfold IsAssignment at hl
    by_cases he : e.2 = []
    · rw [perTrackChoice_cons_nil e es he]
      have : (List.filter (fun e => !e.2.isEmpty) (e :: es)) =
          List.filter (fun e => !e.2.isEmpty) es := by
        rw [List.filter_cons]
        simp [he]
      rw [this] at hl
      exact ih l hl
    · obtain ⟨a, ha, _, hmin⟩ := firstMinimum_spec e.2 he
      rw [perTrackChoice_cons_some e es a ha]
      have : (List.filter (fun e => !e.2.isEmpty) (e :: es)) =
          e :: List.filter (fun e => !e.2.isEmpty) es := by
        rw [List.filter_cons]
        simp [isEmpty_eq_false_of_ne_nil e.2 he]
      rw [this] at hl
      cases hl with
      | cons hx hrest =>
        rename_i x l'
        unfold totalScore
        simp only [List.map_cons, List.sum_cons]
        exact add_le_add (hmin x.2 hx.2) (ih l' hrest)

/-- C30: the greedy resolver is equivalent to an independent per-track choice. For every
well-formed map in which all scores are below `FLT_MAX`, when every commit succeeds, the pairs
committed by `MakeTrackClusterAssociations` are, up to the order of the calls, each track of
the map with a non-empty vector paired with the first candidate of minimum score in its own
vector; hence the total committed score is the minimum over all assignments of one candidate
per track. -/
theorem C30_greedy_equals_per_track_choice {σ : Type} (commit : Committer σ)
    (m : TrackAssociationInfoMap) (w : σ)
    (hwf : TrackAssociationInfoMap.WellFormed m)
    (hall : ∀ w1 t c, (commit w1 t c).1 = STATUS_CODE_SUCCESS)
    (hlt : ∀ e ∈ m, ∀ a ∈ e.2, a.GetClosestApproach < FLT_MAX) :
    ∃ o, MakeTrackClusterAssociations commit m w = some o ∧
      o.calls = (selectedPairings (m.length + 1) m).map callOf ∧
      (selectedPairings (m.length + 1) m).Perm (perTrackChoice m) ∧
      o.calls.Perm ((perTrackChoice m).map callOf) ∧
      IsAssignment m (perTrackChoice m) ∧
      (∀ l, IsAssignment m l → totalScore (selectedPairings (m.length + 1) m) ≤ totalScore l) := by
  obtain ⟨o, ho⟩ := MakeTrackClusterAssociations_total commit m w
  have hcalls := makeLoop_calls_eq_selected commit hall _ m w o ho
  have hperm := selectedPairings_perm (m.length + 1) m hwf hlt (Nat.lt_succ_self _)
  refine ⟨o, ho, hcalls, hperm, ?_, perTrackChoice_isAssignment m, ?_⟩
  · rw [hcalls]
    exact hperm.map _
  · intro l hl
    have hsum : totalScore (selectedPairings (m.length + 1) m) = totalScore (perTrackChoice m) := by
      unfold totalScore
      exact (hperm.map _).sum_eq
    rw [hsum]
    exact totalScore_perTrackChoice_le m l hl

/-- Witness of C30: track 1 holds the clusters 20 (score 7) and 10 (score 5), track 2 holds
cluster 10 at score 6; the loop commits (1, 10) and then (2, 10). -/
theorem C30_greedy_equals_per_track_choice_witness :
    perTrackChoice [(1, [⟨20, 7⟩, ⟨10, 5⟩]), (2, [⟨10, 6⟩])] = [(1, ⟨10, 5⟩), (2, ⟨10, 6⟩)] ∧
      ∃ o, MakeTrackClusterAssociations (acceptAll : Committer Unit)
          [(1, [⟨20, 7⟩, ⟨10, 5⟩]), (2, [⟨10, 6⟩])] () = some o ∧
        o.calls = (selectedPairings 3 [(1, [⟨20, 7⟩, ⟨10, 5⟩]), (2, [⟨10, 6⟩])]).map callOf ∧
        (selectedPairings 3 [(1, [⟨20, 7⟩, ⟨10, 5⟩]), (2, [⟨10, 6⟩])]).Perm
          (perTrackChoice [(1, [⟨20, 7⟩, ⟨10, 5⟩]), (2, [⟨10, 6⟩])]) ∧
        o.calls.Perm ((perTrackChoice [(1, [⟨20, 7⟩, ⟨10, 5⟩]), (2, [⟨10, 6⟩])]).map callOf) ∧
        IsAssignment [(1, [⟨20, 7⟩, ⟨10, 5⟩]), (2, [⟨10, 6⟩])]
          (perTrackChoice [(1, [⟨20, 7⟩, ⟨10, 5⟩]), (2, [⟨10, 6⟩])]) ∧
        (∀ l, IsAssignment [(1, [⟨20, 7⟩, ⟨10, 5⟩]), (2, [⟨10, 6⟩])] l →
          totalScore (selectedPairings 3 [(1, [⟨20, 7⟩, ⟨10, 5⟩]), (2, [⟨10, 6⟩])]) ≤
            totalScore l) :=
  ⟨by decide!, C30_greedy_equals_per_track_choice acceptAll
    [(1, [⟨20, 7⟩, ⟨10, 5⟩]), (2, [⟨10, 6⟩])] () (by decide!) (fun _ _ _ => rfl) (by decide!)⟩

/-! ## The order of the commits -/

theorem makeLoop_aborted {σ : Type} (commit : Committer σ) (fuel : Nat)
    {m : TrackAssociationInfoMap} {w w1 : σ} {status : StatusCode} {t c : Address}
    (hb : whileBody commit m w = .aborted status t c w1) :
    makeLoop commit (fuel + 1) m w = some ⟨status, m, w1, [(t, c)]⟩ := by
  simp only [makeLoop, hb]

/-- Whatever the committer answers, the calls of the loop are the first selected pairings:
the loop follows the selection until it ends or a commit is refused. -/
theorem makeLoop_calls_initial {σ : Type} (commit : Committer σ) :
    ∀ (fuel : Nat) (m : TrackAssociationInfoMap) (w : σ) (o : Outcome σ),
      makeLoop commit fuel m w = some o →
      ∃ l, l <+: selectedPairings fuel m ∧ o.calls = l.map callOf := by
  intro fuel
  induction fuel with
  | zero => intro m w o hrun; simp [makeLoop] at hrun
  | succ fuel ih =>
    intro m w o hrun
    rcases whileBody_spec commit m w with ⟨h1, _⟩ | ⟨e, _, a, _, _, _, hfe, h2 | h2⟩
    · rw [makeLoop_finished commit fuel h1] at hrun
      simp only [Option.some.injEq] at hrun
      exact ⟨[], List.nil_prefix, by rw [← hrun]; rfl⟩
    · rw [makeLoop_aborted commit fuel h2.2] at hrun
      simp only [Option.some.injEq] at hrun
      refine ⟨[(e.1, ⟨a.m_pCluster, a.m_closestApproach⟩)], ?_, by rw [← hrun]; rfl⟩
      rw [selectedPairings_of_find fuel m _ _ _ hfe]
      exact ⟨_, rfl⟩
    · rw [makeLoop_committed commit fuel h2.2] at hrun
      cases hrec : makeLoop commit fuel (m.erase e.1) (commit w e.1 a.m_pCluster).2 with
      | none => rw [hrec] at hrun; cases hrun
      | some o1 =>
        rw [hrec] at hrun
        simp only [Option.map_some', Option.some.injEq] at hrun
        obtain ⟨l, hl, hcalls⟩ := ih _ _ o1 hrec
        refine ⟨(e.1, ⟨a.m_pCluster, a.m_closestApproach⟩) :: l, ?_, ?_⟩
        · rw [selectedPairings_of_find fuel m _ _ _ hfe]
          obtain ⟨r, hr⟩ := hl
          exact ⟨r, by rw [← hr]; rfl⟩
        · rw [← hrun]
          simp only [List.map_cons, hcalls]
          rfl

/-- Every selected pairing is a candidate of the map, stored under its track, with a score
below `FLT_MAX`. -/
theorem selectedPairings_mem (fuel : Nat) :
    ∀ (m : TrackAssociationInfoMap), ∀ x ∈ selectedPairings fuel m,
      (∃ e ∈ m, e.1 = x.1 ∧ x.2 ∈ e.2) ∧ x.2.m_closestApproach < FLT_MAX := by
  induction fuel with
  | zero => intro m x hx; simp [selectedPairings] at hx
  | succ fuel ih =>
    intro m x hx
    rcases findClosestPairing_spec m with ⟨h1, _⟩ | ⟨e, he, a, ha, hfe, hlt, _⟩
    · rw [selectedPairings_of_find_none fuel m h1] at hx
      cases hx
    · rw [selectedPairings_of_find fuel m _ _ _ hfe] at hx
      rcases List.mem_cons.1 hx with rfl | hx
      · exact ⟨⟨e, he, rfl, ha⟩, hlt⟩
      · obtain ⟨⟨e1, he1, h1, h2⟩, h3⟩ := ih _ x hx
        exact ⟨⟨e1, TrackAssociationInfoMap.mem_erase he1, h1, h2⟩, h3⟩

/-- The scores of the selected pairings never decrease. -/
theorem selectedPairings_sorted (fuel : Nat) :
    ∀ (m : TrackAssociationInfoMap), (scoresOf (selectedPairings fuel m)).Sorted (· ≤ ·) := by
  induction fuel with
  | zero => intro m; simp [selectedPairings, scoresOf]
  | succ fuel ih =>
    intro m
    rcases findClosestPairing_spec m with ⟨h1, _⟩ | ⟨e, he, a, ha, hfe, _, hmin⟩
    · rw [selectedPairings_of_find_none fuel m h1]
      simp [scoresOf]
    · rw [selectedPairings_of_find fuel m _ _ _ hfe]
      unfold scoresOf
      rw [List.map_cons, List.sorted_cons]
      refine ⟨?_, ih _⟩
      intro b hb
      obtain ⟨x, hx, rfl⟩ := List.mem_map.1 hb
      obtain ⟨⟨e1, he1, _, h2⟩, _⟩ := selectedPairings_mem fuel _ x hx
      exact hmin e1 (TrackAssociationInfoMap.mem_erase he1) x.2 h2

theorem sorted_of_initial {l1 l2 : List ℚ} (hp : l1 <+: l2) (hs : l2.Sorted (· ≤ ·)) :
    l1.Sorted (· ≤ ·) :=
  List.Pairwise.sublist hp.sublist hs

theorem scoresOf_initial {l1 l2 : List (Address × AssociationInfo)} (hp : l1 <+: l2) :
    scoresOf l1 <+: scoresOf l2 := by
  obtain ⟨r, rfl⟩ := hp
  exact ⟨scoresOf r, by simp [scoresOf]⟩

/-- C31: the scores of the pairs committed by `MakeTrackClusterAssociations` form a
non-decreasing sequence in commit order. For every map and every committer the loop returns;
the pairs it hands to the committer are, in order, candidates of the map taken with their
scores (the first selected pairings), and the list of these scores is sorted: each score is
less than or equal to every later one, in particular to the next. -/
theorem C31_committed_scores_non_decreasing {σ : Type} (commit : Committer σ)
    (m : TrackAssociationInfoMap) (w : σ) :
    ∃ o l, MakeTrackClusterAssociations commit m w = some o ∧
      l <+: selectedPairings (m.length + 1) m ∧ o.calls = l.map callOf ∧
      (∀ x ∈ l, ∃ e ∈ m, e.1 = x.1 ∧ x.2 ∈ e.2) ∧
      (scoresOf l).Sorted (· ≤ ·) ∧
      ∀ k (hk : k + 1 < (scoresOf l).length),
        (scoresOf l).get ⟨k, Nat.lt_of_succ_lt hk⟩ ≤ (scoresOf l).get ⟨k + 1, hk⟩ := by
  obtain ⟨o, ho⟩ := MakeTrackClusterAssociations_total commit m w
  obtain ⟨l, hl, hcalls⟩ := makeLoop_calls_initial commit _ m w o ho
  have hsorted : (scoresOf l).Sorted (· ≤ ·) :=
    sorted_of_initial (scoresOf_initial hl) (selectedPairings_sorted _ m)
  refine ⟨o, l, ho, hl, hcalls, ?_, hsorted, ?_⟩
  · intro x hx
    exact (selectedPairings_mem _ m x (hl.subset hx)).1
  · intro k hk
    exact List.Sorted.rel_get_of_lt hsorted (by simp)

/-- Witness of C31: track 1 holds the clusters 20 (score 7) and 10 (score 5), track 2 holds
cluster 10 at score 6, track 3 holds cluster 30 at score 2; the commits are (3, 30), (1, 10),
(2, 10), at the scores 2, 5, 6. -/
theorem C31_committed_scores_non_decreasing_witness :
    scoresOf (selectedPairings 4 [(1, [⟨20, 7⟩, ⟨10, 5⟩]), (2, [⟨10, 6⟩]), (3, [⟨30, 2⟩])]) =
        [2, 5, 6] ∧
      ∃ o l, MakeTrackClusterAssociations (acceptAll : Committer Unit)
          [(1, [⟨20, 7⟩, ⟨10, 5⟩]), (2, [⟨10, 6⟩]), (3, [⟨30, 2⟩])] () = some o ∧
        l <+: selectedPairings 4 [(1, [⟨20, 7⟩, ⟨10, 5⟩]), (2, [⟨10, 6⟩]), (3, [⟨30, 2⟩])] ∧
        o.calls = l.map callOf ∧
        (∀ x ∈ l, ∃ e ∈ ([(1, [⟨20, 7⟩, ⟨10, 5⟩]), (2, [⟨10, 6⟩]), (3, [⟨30, 2⟩])] :
          TrackAssociationInfoMap), e.1 = x.1 ∧ x.2 ∈ e.2) ∧
        (scoresOf l).Sorted (· ≤ ·) ∧
        ∀ k (hk : k + 1 < (scoresOf l).length),
          (scoresOf l).get ⟨k, Nat.lt_of_succ_lt hk⟩ ≤ (scoresOf l).get ⟨k + 1, hk⟩ :=
  ⟨by decide!, C31_committed_scores_non_decreasing acceptAll
    [(1, [⟨20, 7⟩, ⟨10, 5⟩]), (2, [⟨10, 6⟩]), (3, [⟨30, 2⟩])] ()⟩

/-! ## Candidates at the sentinel -/

/-- When the loop returns success, what is left in the map are entries of the initial map
whose candidates all lie at or above `FLT_MAX`; this holds whatever the committer answers. -/
theorem makeLoop_success_rest {σ : Type} (commit : Committer σ) :
    ∀ (fuel : Nat) (m : TrackAssociationInfoMap) (w : σ) (o : Outcome σ),
      makeLoop commit fuel m w = some o → o.status = STATUS_CODE_SUCCESS →
      ∀ e ∈ o.map, e ∈ m ∧ ∀ a ∈ e.2, FLT_MAX ≤ a.m_closestApproach := by
  intro fuel
  induction fuel with
  | zero => intro m w o hrun; simp [makeLoop] at hrun
  | succ fuel ih =>
    intro m w o hrun hst
    rcases makeLoop_cases commit fuel m w o hrun with ⟨hno, rfl⟩ | ⟨e, he, a, ha, hlt, _, h2 | h2⟩
    · exact fun e he => ⟨he, hno e he⟩
    · obtain ⟨hfail, rfl⟩ := h2
      exact absurd hst hfail
    · obtain ⟨_, o1, hrec, rfl⟩ := h2
      intro e1 he1
      obtain ⟨i1, i2⟩ := ih _ _ o1 hrec hst e1 he1
      exact ⟨TrackAssociationInfoMap.mem_erase i1, i2⟩

/-- C33: a candidate whose score is not strictly below `FLT_MAX` is never committed. Every
pair that `MakeTrackClusterAssociations` hands to the committer is a candidate of the map
whose score is strictly below `FLT_MAX`. When the function returns success, every entry left
in the map is an entry of the initial map, every candidate left has a score of at least
`FLT_MAX`, hence equal to `FLT_MAX` when the scores are floats (at most `FLT_MAX`); and the
map can indeed be left non-empty, as for a single candidate at `FLT_MAX`. -/
theorem C33_sentinel_never_committed {σ : Type} (commit : Committer σ)
    (m : TrackAssociationInfoMap) (w : σ) (o : Outcome σ)
    (ho : MakeTrackClusterAssociations commit m w = some o) :
    (∃ l, l <+: selectedPairings (m.length + 1) m ∧ o.calls = l.map callOf ∧
        ∀ x ∈ l, (∃ e ∈ m, e.1 = x.1 ∧ x.2 ∈ e.2) ∧ x.2.GetClosestApproach < FLT_MAX) ∧
      (o.status = STATUS_CODE_SUCCESS →
        ∀ e ∈ o.map, e ∈ m ∧ (∀ a ∈ e.2, FLT_MAX ≤ a.GetClosestApproach) ∧
          ((∀ a ∈ e.2, a.GetClosestApproach ≤ FLT_MAX) →
            ∀ a ∈ e.2, a.GetClosestApproach = FLT_MAX)) ∧
      MakeTrackClusterAssociations (acceptAll : Committer Unit) [(1, [⟨10, FLT_MAX⟩])] () =
        some ⟨STATUS_CODE_SUCCESS, [(1, [⟨10, FLT_MAX⟩])], (), []⟩ := by
  refine ⟨?_, ?_, by decide!⟩
  · obtain ⟨l, hl, hcalls⟩ := makeLoop_calls_initial commit _ m w o ho
    exact ⟨l, hl, hcalls, fun x hx => selectedPairings_mem _ m x (hl.subset hx)⟩
  · intro hst e he
    obtain ⟨h1, h2⟩ := makeLoop_success_rest commit _ m w o ho hst e he
    exact ⟨h1, h2, fun hle a ha => le_antisymm (hle a ha) (h2 a ha)⟩

/-- Witness of C33: track 1 holds cluster 10 at the score `FLT_MAX` and track 2 holds cluster
10 at the score 5; only (2, 10) is committed and the entry of track 1 is left in the map. -/
theorem C33_sentinel_never_committed_witness :
    (∃ l, l <+: selectedPairings 3 [(1, [⟨10, FLT_MAX⟩]), (2, [⟨10, 5⟩])] ∧
        [((2 : Address), (10 : Address))] = l.map callOf ∧
        ∀ x ∈ l, (∃ e ∈ ([(1, [⟨10, FLT_MAX⟩]), (2, [⟨10, 5⟩])] : TrackAssociationInfoMap),
          e.1 = x.1 ∧ x.2 ∈ e.2) ∧ x.2.GetClosestApproach < FLT_MAX) ∧
      (STATUS_CODE_SUCCESS = STATUS_CODE_SUCCESS →
        ∀ e ∈ ([(1, [⟨10, FLT_MAX⟩])] : TrackAssociationInfoMap),
          e ∈ ([(1, [⟨10, FLT_MAX⟩]), (2, [⟨10, 5⟩])] : TrackAssociationInfoMap) ∧
          (∀ a ∈ e.2, FLT_MAX ≤ a.GetClosestApproach) ∧
          ((∀ a ∈ e.2, a.GetClosestApproach ≤ FLT_MAX) →
            ∀ a ∈ e.2, a.GetClosestApproach = FLT_MAX)) ∧
      MakeTrackClusterAssociations (acceptAll : Committer Unit) [(1, [⟨10, FLT_MAX⟩])] () =
        some ⟨STATUS_CODE_SUCCESS, [(1, [⟨10, FLT_MAX⟩])], (), []⟩ :=
  C33_sentinel_never_committed acceptAll [(1, [⟨10, FLT_MAX⟩]), (2, [⟨10, 5⟩])] ()
    ⟨STATUS_CODE_SUCCESS, [(1, [⟨10, FLT_MAX⟩])], (), [(2, 10)]⟩ (by decide!)

/-! ## A bound on the generated scores -/

/-- The score that the inner loop body stores is at most the larger of the two distance
limits of the proximity cut. -/
theorem associationInfoFor_score_le (s : Settings) (h : Helpers) (p : Pandora)
    (pTrack pCluster : Address) (a : AssociationInfo)
    (ha : associationInfoFor s h p pTrack pCluster = some a) :
    a.m_closestApproach ≤ max s.m_maxTrackClusterDistance s.m_maxClosestHelixClusterDistance := by
  obtain ⟨⟨_, _, _, _, _, _, hprox⟩, rfl⟩ := (associationInfoFor_eq_some_iff s h p _ _ a).1 ha
  show stdMin _ _ ≤ _
  rw [stdMin_eq_min]
  rcases hprox with h1 | ⟨h1, _⟩
  · exact (min_le_left _ _).trans (h1.trans (le_max_left _ _))
  · exact (min_le_right _ _).trans (h1.trans (le_max_right _ _))

/-- C32: every candidate generated by `GetTrackAssociationInfoMap` has a score that is at most
the larger of `maxTrackClusterDistance` and `maxClosestHelixClusterDistance`; with the default
configuration every generated score is at most 100. -/
theorem C32_generated_score_bounded (s : Settings) (h : Helpers) (p : Pandora)
    (e : Address × AssociationInfoVector) (he : e ∈ (GetTrackAssociationInfoMap s h p []).2)
    (a : AssociationInfo) (ha : a ∈ e.2) :
    a.GetClosestApproach ≤
        max s.m_maxTrackClusterDistance s.m_maxClosestHelixClusterDistance ∧
      ∀ e1 ∈ (GetTrackAssociationInfoMap defaultSettings h p []).2, ∀ a1 ∈ e1.2,
        a1.GetClosestApproach ≤ 100 := by
  refine ⟨associationInfoFor_score_le s h p _ _ a (generated_of_mem s h p he ha).2.2.2, ?_⟩
  intro e1 he1 a1 ha1
  have hle := associationInfoFor_score_le defaultSettings h p _ _ a1
    (generated_of_mem defaultSettings h p he1 ha1).2.2.2
  have hmax : max defaultSettings.m_maxTrackClusterDistance
      defaultSettings.m_maxClosestHelixClusterDistance = 100 := by
    show max (100 : ℚ) 100 = 100
    exact max_self _
  rw [hmax] at hle
  exact hle

/-- Witness of C32 on the sample event with the limits 100 and 200: the track-cluster
distance is 150 and the helix distances are 60 and 70, the score is 60. -/
theorem C32_generated_score_bounded_witness :
    ((1, [⟨10, 60⟩]) ∈ (GetTrackAssociationInfoMap
        { defaultSettings with m_maxClosestHelixClusterDistance := 200 }
        (sampleHelpers (fun _ => 150)) (sampleEvent [1] 120) []).2 ∧
      (⟨10, 60⟩ : AssociationInfo) ∈ [(⟨10, 60⟩ : AssociationInfo)]) ∧
      ((60 : ℚ) ≤ max 100 200 ∧
        ∀ e1 ∈ (GetTrackAssociationInfoMap defaultSettings (sampleHelpers (fun _ => 150))
          (sampleEvent [1] 120) []).2, ∀ a1 ∈ e1.2, a1.GetClosestApproach ≤ 100) :=
  ⟨⟨by decide!, by decide!⟩, C32_generated_score_bounded
    { defaultSettings with m_maxClosestHelixClusterDistance := 200 }
    (sampleHelpers (fun _ => 150)) (sampleEvent [1] 120) (1, [⟨10, 60⟩]) (by decide!) ⟨10, 60⟩
    (by decide!)⟩

/-! ## The shape of the generated vectors -/

theorem vectorOf_of_not_mem {m : TrackAssociationInfoMap} {t : Address}
    (ht : t ∉ TrackAssociationInfoMap.keys m) : vectorOf m t = [] := by
  induction m with
  | nil => rfl
  | cons hd tl ih =>
    obtain ⟨k0, v0⟩ := hd
    simp only [TrackAssociationInfoMap.keys, List.map_cons, List.mem_cons, not_or] at ht
    have hne : ¬ k0 = t := fun hh => ht.1 hh.symm
    have := ih ht.2
    unfold vectorOf at this ⊢
    simp only [TrackAssociationInfoMap.find, if_neg hne]
    exact this

theorem vectorOf_of_mem {m : TrackAssociationInfoMap}
    (hm : (TrackAssociationInfoMap.keys m).Nodup) {e : Address × AssociationInfoVector}
    (he : e ∈ m) : vectorOf m e.1 = e.2 := by
  induction m with
  | nil => cases he
  | cons hd tl ih =>
    obtain ⟨k0, v0⟩ := hd
    simp only [TrackAssociationInfoMap.keys, List.map_cons, List.nodup_cons] at hm
    rcases List.mem_cons.1 he with rfl | he
    · unfold vectorOf
      simp only [TrackAssociationInfoMap.find, if_true, Option.getD_some]
    · have hne : ¬ k0 = e.1 := by
        intro hh
        apply hm.1
        rw [hh]
        exact List.mem_map.2 ⟨e, he, rfl⟩
      have := ih hm.2 he
      unfold vectorOf at this ⊢
      simp only [TrackAssociationInfoMap.find, if_neg hne]
      exact this

theorem vectorOf_pushBack {m : TrackAssociationInfoMap}
    (hm : TrackAssociationInfoMap.WellFormed m) (k : Address) (info : AssociationInfo)
    (t : Address) :
    vectorOf (m.pushBack k info) t = if t = k then vectorOf m k ++ [info] else vectorOf m t := by
  induction m with
  | nil =>
    unfold vectorOf
    simp only [TrackAssociationInfoMap.pushBack, TrackAssociationInfoMap.find]
    by_cases htk : t = k
    · subst htk
      simp
    · have : ¬ k = t := fun hh => htk hh.symm
      simp [htk, this]
  | cons hd tl ih =>
    obtain ⟨k0, v0⟩ := hd
    have hm0 : (∀ b ∈ TrackAssociationInfoMap.keys tl, k0 < b) ∧
        TrackAssociationInfoMap.WellFormed tl := by
      simpa [TrackAssociationInfoMap.WellFormed, TrackAssociationInfoMap.keys] using hm
    simp only [TrackAssociationInfoMap.pushBack]
    by_cases h1 : k < k0
    · rw [if_pos h1]
      have hnot : k ∉ TrackAssociationInfoMap.keys ((k0, v0) :: tl) := by
        simp only [TrackAssociationInfoMap.keys, List.map_cons, List.mem_cons, not_or]
        refine ⟨ne_of_lt h1, ?_⟩
        intro hin
        exact absurd (lt_trans h1 (hm0.1 k hin)) (lt_irrefl _)
      rw [vectorOf_of_not_mem hnot]
      by_cases htk : t = k
      · subst htk
        unfold vectorOf
        simp [TrackAssociationInfoMap.find]
      · have : ¬ k = t := fun hh => htk hh.symm
        rw [if_neg htk]
        unfold vectorOf
        simp only [TrackAssociationInfoMap.find, if_neg this]
    · rw [if_neg h1]
      by_cases h2 : k = k0
      · rw [if_pos h2]
        subst h2
        by_cases htk : t = k
        · subst htk
          unfold vectorOf
          simp [TrackAssociationInfoMap.find]
        · have : ¬ k = t := fun hh => htk hh.symm
          rw [if_neg htk]
          unfold vectorOf
          simp only [TrackAssociationInfoMap.find, if_neg this]
      · rw [if_neg h2]
        have h3 : ¬ k0 = k := fun hh => h2 hh.symm
        have hrec := ih hm0.2
        by_cases htk : t = k
        · subst htk
          rw [if_pos rfl] at hrec ⊢
          unfold vectorOf at hrec ⊢
          simp only [TrackAssociationInfoMap.find, if_neg h3]
          exact hrec
        · rw [if_neg htk] at hrec ⊢
          unfold vectorOf at hrec ⊢
          simp only [TrackAssociationInfoMap.find]
          by_cases h4 : k0 = t
          · simp only [if_pos h4]
          · simp only [if_neg h4]
            exact hrec

theorem vectorOf_clusterStep_foldl (s : Settings) (h : Helpers) (p : Pandora) (pTrack : Address)
    (clusters : List Address) (m : TrackAssociationInfoMap)
    (hm : TrackAssociationInfoMap.WellFormed m) (t : Address) :
    vectorOf (clusters.foldl (clusterStep s h p pTrack) m) t =
      if t = pTrack then vectorOf m pTrack ++ clusters.filterMap (associationInfoFor s h p pTrack)
      else vectorOf m t := by
  induction clusters generalizing m with
  | nil =>
    by_cases htk : t = pTrack
    · subst htk
      simp
    · simp [htk]
  | cons c cs ih =>
    rw [List.foldl_cons]
    cases hc : associationInfoFor s h p pTrack c with
    | none =>
      have hstep : clusterStep s h p pTrack m c = m := by
        unfold clusterStep
        rw [hc]
      rw [hstep, ih m hm, List.filterMap_cons_none hc]
    | some info =>
      have hstep : clusterStep s h p pTrack m c = m.pushBack pTrack info := by
        unfold clusterStep
        rw [hc]
      rw [hstep, ih _ (TrackAssociationInfoMap.pushBack_wellFormed hm pTrack info),
        List.filterMap_cons_some hc]
      by_cases htk : t = pTrack
      · rw [if_pos htk, if_pos htk, vectorOf_pushBack hm, if_pos rfl, List.append_assoc]
        rfl
      · rw [if_neg htk, if_neg htk, vectorOf_pushBack hm, if_neg htk]

theorem vectorOf_trackStep_foldl (s : Settings) (h : Helpers) (p : Pandora)
    (clusters tracks : List Address) (htracks : tracks.Nodup) (m : TrackAssociationInfoMap)
    (hm : TrackAssociationInfoMap.WellFormed m) (t : Address) :
    vectorOf (tracks.foldl (trackStep s h p clusters) m) t =
      vectorOf m t ++
        if t ∈ tracks ∧ trackIsUsed p t = true
          then clusters.filterMap (associationInfoFor s h p t) else [] := by
  induction tracks generalizing m with
  | nil => simp
  | cons t0 ts ih =>
    rw [List.foldl_cons]
    obtain ⟨hnot, hts⟩ := List.nodup_cons.1 htracks
    by_cases hu : trackIsUsed p t0 = true
    · have hstep : trackStep s h p clusters m t0 = clusters.foldl (clusterStep s h p t0) m := by
        unfold trackStep
        rw [if_pos hu]
      rw [hstep, ih hts _ (clusterStep_foldl_wellFormed s h p t0 clusters m hm),
        vectorOf_clusterStep_foldl s h p t0 clusters m hm]
      by_cases htk : t = t0
      · subst htk
        rw [if_pos rfl, if_neg (fun hh => hnot hh.1), if_pos ⟨List.mem_cons_self _ _, hu⟩,
          List.append_nil]
      · rw [if_neg htk]
        have hiff : (t ∈ t0 :: ts ∧ trackIsUsed p t = true) ↔ (t ∈ ts ∧ trackIsUsed p t = true) := by
          simp [htk]
        simp only [hiff]
    · have hstep : trackStep s h p clusters m t0 = m := by
        unfold trackStep
        rw [if_neg hu]
      rw [hstep, ih hts m hm]
      by_cases htk : t = t0
      · subst htk
        rw [if_neg (fun hh => hnot hh.1), if_neg (fun hh => hu hh.2)]
      · have hiff : (t ∈ t0 :: ts ∧ trackIsUsed p t = true) ↔ (t ∈ ts ∧ trackIsUsed p t = true) := by
          simp [htk]
        simp only [hiff]

theorem clusters_filterMap_sublist (s : Settings) (h : Helpers) (p : Pandora) (pTrack : Address)
    (clusters : List Address) :
    ((clusters.filterMap (associationInfoFor s h p pTrack)).map AssociationInfo.GetCluster).Sublist
      clusters := by
  induction clusters with
  | nil => exact List.Sublist.slnil
  | cons c cs ih =>
    cases hc : associationInfoFor s h p pTrack c with
    | none =>
      rw [List.filterMap_cons_none hc]
      exact List.Sublist.cons _ ih
    | some info =>
      rw [List.filterMap_cons_some hc, List.map_cons]
      have : info.GetCluster = c := associationInfoFor_cluster hc
      rw [this]
      exact List.Sublist.cons₂ _ ih

/-- Started on the empty map with a track list without duplicates, the vector that the
generator stores under a track is the list of the candidates that the inner loop produces
for the track, in the iteration order of the cluster list. -/
theorem generated_vector_eq (s : Settings) (h : Helpers) (p : Pandora)
    (htracks : p.GetCurrentTrackList.2.Nodup)
    {e : Address × AssociationInfoVector} (he : e ∈ (GetTrackAssociationInfoMap s h p []).2) :
    e.2 = candidatesInOrder s h p e.1 := by
  have hwf := GetTrackAssociationInfoMap_wellFormed s h p [] wellFormed_nil
  have hv := vectorOf_of_mem (TrackAssociationInfoMap.wellFormed_nodup hwf) he
  have hne := generated_entry_ne_nil s h p he
  obtain ⟨s1, s2⟩ := generated_statuses s h p he
  have hgen : (GetTrackAssociationInfoMap s h p []).2 =
      p.GetCurrentTrackList.2.foldl (trackStep s h p p.GetCurrentClusterList.2) [] := by
    unfold GetTrackAssociationInfoMap
    rw [if_neg (not_not.2 s1), if_neg (not_not.2 s2)]
  rw [hgen, vectorOf_trackStep_foldl s h p _ _ htracks [] wellFormed_nil] at hv
  have hnil : vectorOf [] e.1 = [] := rfl
  rw [hnil, List.nil_append] at hv
  split_ifs at hv with hc
  · exact hv.symm
  · exact absurd hv.symm hne

/-- C34: well-formedness of the map after generation. Starting from the empty map, with a
track list and a cluster list that contain no duplicates, every track key of the map produced
by `GetTrackAssociationInfoMap` has a non-empty vector, no cluster occurs twice in the vector
of a track, and the candidates of a track appear in the iteration order of the cluster list:
the vector is the list of the candidates that the inner loop produces along the cluster list,
so its clusters form a sublist of the cluster list. -/
theorem C34_generated_vectors_well_formed (s : Settings) (h : Helpers) (p : Pandora)
    (htracks : p.GetCurrentTrackList.2.Nodup) (hclusters : p.GetCurrentClusterList.2.Nodup)
    (e : Address × AssociationInfoVector) (he : e ∈ (GetTrackAssociationInfoMap s h p []).2) :
    e.2 ≠ [] ∧ (e.2.map AssociationInfo.GetCluster).Nodup ∧
      (e.2.map AssociationInfo.GetCluster).Sublist p.GetCurrentClusterList.2 ∧
      e.2 = candidatesInOrder s h p e.1 := by
  have heq := generated_vector_eq s h p htracks he
  have hsub : (e.2.map AssociationInfo.GetCluster).Sublist p.GetCurrentClusterList.2 := by
    rw [heq]
    exact clusters_filterMap_sublist s h p e.1 _
  exact ⟨generated_entry_ne_nil s h p he, List.Nodup.sublist hsub hclusters, hsub, heq⟩

/-- Witness of C34: one track and the cluster list 30, 10, 20, with the track-cluster
distances 5, 500 and 7; cluster 10 fails the proximity cut and the vector of the track holds
the clusters 30 and 20, in this order. -/
theorem C34_generated_vectors_well_formed_witness :
    ([(⟨30, 5⟩ : AssociationInfo), ⟨20, 7⟩] ≠ [] ∧
      ([(⟨30, 5⟩ : AssociationInfo), ⟨20, 7⟩].map AssociationInfo.GetCluster).Nodup ∧
      ([(⟨30, 5⟩ : AssociationInfo), ⟨20, 7⟩].map AssociationInfo.GetCluster).Sublist
        [30, 10, 20] ∧
      [(⟨30, 5⟩ : AssociationInfo), ⟨20, 7⟩] = candidatesInOrder defaultSettings
        (sampleHelpersByCluster (fun c => if c = 30 then 5 else if c = 10 then 500 else 7))
        (sampleEventWithClusters [1] [30, 10, 20]) 1) :=
  C34_generated_vectors_well_formed defaultSettings
    (sampleHelpersByCluster (fun c => if c = 30 then 5 else if c = 10 then 500 else 7))
    (sampleEventWithClusters [1] [30, 10, 20]) (by decide) (by decide)
    (1, [⟨30, 5⟩, ⟨20, 7⟩]) (by decide!)

/-! ## A refused commit -/

theorem keys_eraseAll_sublist (tracks : List Address) :
    ∀ (m : TrackAssociationInfoMap),
      (TrackAssociationInfoMap.keys (eraseAll m tracks)).Sublist (TrackAssociationInfoMap.keys m) := by
  induction tracks with
  | nil => intro m; exact List.Sublist.refl _
  | cons t ts ih =>
    intro m
    exact (ih (m.erase t)).trans (TrackAssociationInfoMap.keys_erase_sublist m t)

/-- A track that was erased from a map with distinct keys is not a key afterwards. -/
theorem not_mem_keys_eraseAll (tracks : List Address) :
    ∀ (m : TrackAssociationInfoMap), (TrackAssociationInfoMap.keys m).Nodup →
      ∀ t ∈ tracks, t ∉ TrackAssociationInfoMap.keys (eraseAll m tracks) := by
  induction tracks with
  | nil => intro m _ t ht; cases ht
  | cons t0 ts ih =>
    intro m hm t ht
    have hnd : (TrackAssociationInfoMap.keys (m.erase t0)).Nodup :=
      List.Nodup.sublist (TrackAssociationInfoMap.keys_erase_sublist m t0) hm
    rcases List.mem_cons.1 ht with rfl | ht
    · intro hin
      exact TrackAssociationInfoMap.not_mem_keys_erase t hm
        ((keys_eraseAll_sublist ts (m.erase t)).subset hin)
    · exact ih (m.erase t0) hnd t ht

/-- When the loop returns a status other than success, its calls are a list of accepted
commits followed by the refused one; the map at return is the initial map without the
entries of the accepted commits, the refused pair is the one that the search finds on it,
and status and state are those that the committer returned for the refused pair. -/
theorem makeLoop_failure {σ : Type} (commit : Committer σ) :
    ∀ (fuel : Nat) (m : TrackAssociationInfoMap) (w : σ) (o : Outcome σ),
      makeLoop commit fuel m w = some o → o.status ≠ STATUS_CODE_SUCCESS →
      ∃ done t c, o.calls = done ++ [(t, c)] ∧
        commitsSucceed commit w done = true ∧
        o.map = eraseAll m (done.map Prod.fst) ∧
        (findClosestPairing o.map).pBestTrack = some t ∧
        (findClosestPairing o.map).pBestCluster = some c ∧
        t ∈ TrackAssociationInfoMap.keys o.map ∧
        o.status = (commit (stateAfter commit w done) t c).1 ∧
        o.state = (commit (stateAfter commit w done) t c).2 := by
  intro fuel
  induction fuel with
  | zero => intro m w o hrun; simp [makeLoop] at hrun
  | succ fuel ih =>
    intro m w o hrun hst
    rcases whileBody_spec commit m w with ⟨h1, _⟩ | ⟨e, he, a, _, _, _, hfe, h2 | h2⟩
    · rw [makeLoop_finished commit fuel h1] at hrun
      simp only [Option.some.injEq] at hrun
      rw [← hrun] at hst
      exact absurd rfl hst
    · rw [makeLoop_aborted commit fuel h2.2] at hrun
      simp only [Option.some.injEq] at hrun
      subst hrun
      refine ⟨[], e.1, a.m_pCluster, rfl, rfl, rfl, ?_, ?_, List.mem_map.2 ⟨e, he, rfl⟩, rfl, rfl⟩
      · show (findClosestPairing m).pBestTrack = some e.1
        rw [hfe]
      · show (findClosestPairing m).pBestCluster = some a.m_pCluster
        rw [hfe]
    · rw [makeLoop_committed commit fuel h2.2] at hrun
      cases hrec : makeLoop commit fuel (m.erase e.1) (commit w e.1 a.m_pCluster).2 with
      | none => rw [hrec] at hrun; cases hrun
      | some o1 =>
        rw [hrec] at hrun
        simp only [Option.map_some', Option.some.injEq] at hrun
        subst hrun
        obtain ⟨done, t, c, i1, i2, i3, i4, i5, i6, i7, i8⟩ := ih _ _ o1 hrec hst
        refine ⟨(e.1, a.m_pCluster) :: done, t, c, ?_, ?_, i3, i4, i5, i6, i7, i8⟩
        · show (e.1, a.m_pCluster) :: o1.calls = (e.1, a.m_pCluster) :: done ++ [(t, c)]
          rw [i1]
          rfl
        · show (decide ((commit w e.1 a.m_pCluster).1 = STATUS_CODE_SUCCESS) &&
            commitsSucceed commit (commit w e.1 a.m_pCluster).2 done) = true
          rw [i2, Bool.and_true]
          exact decide_eq_true h2.1

/-- C35: no rollback and no partial erase on commit failure. If `MakeTrackClusterAssociations`
returns a status other than success, the committer has accepted a list of pairs and refused
the next selected pair `(t, c)`; the map at return is the map as it was at the start of that
iteration, that is the initial map without the entries of the accepted tracks, none of which
is a key any more, while the entry of the refused track `t` is still present and `(t, c)` is
the pairing that the search finds on the returned map; the status is the one the committer
returned, and the state is the state after the accepted commits and the refused call. -/
theorem C35_no_rollback_on_commit_failure {σ : Type} (commit : Committer σ)
    (m : TrackAssociationInfoMap) (w : σ) (o : Outcome σ)
    (hwf : TrackAssociationInfoMap.WellFormed m)
    (ho : MakeTrackClusterAssociations commit m w = some o)
    (hfail : o.status ≠ STATUS_CODE_SUCCESS) :
    ∃ done t c, o.calls = done ++ [(t, c)] ∧
      commitsSucceed commit w done = true ∧
      (commit (stateAfter commit w done) t c).1 ≠ STATUS_CODE_SUCCESS ∧
      o.map = eraseAll m (done.map Prod.fst) ∧
      (∀ x ∈ done, x.1 ∉ TrackAssociationInfoMap.keys o.map) ∧
      t ∈ TrackAssociationInfoMap.keys o.map ∧
      (findClosestPairing o.map).pBestTrack = some t ∧
      (findClosestPairing o.map).pBestCluster = some c ∧
      o.status = (commit (stateAfter commit w done) t c).1 ∧
      o.state = (commit (stateAfter commit w done) t c).2 := by
  obtain ⟨done, t, c, i1, i2, i3, i4, i5, i6, i7, i8⟩ := makeLoop_failure commit _ m w o ho hfail
  refine ⟨done, t, c, i1, i2, ?_, i3, ?_, i6, i4, i5, i7, i8⟩
  · rw [← i7]
    exact hfail
  · intro x hx
    rw [i3]
    exact not_mem_keys_eraseAll _ m (TrackAssociationInfoMap.wellFormed_nodup hwf) x.1
      (List.mem_map.2 ⟨x, hx, rfl⟩)

/-- Witness of C35: the tracks 1, 2 and 3 at the scores 10, 5 and 7, the committer refuses
track 3; (2, 10) is committed, (3, 30) is refused, and the map at return holds the entries of
the tracks 1 and 3. -/
theorem C35_no_rollback_on_commit_failure_witness :
    ∃ done t c, [((2 : Address), (10 : Address)), (3, 30)] = done ++ [(t, c)] ∧
      commitsSucceed (rejectTrack 3 : Committer Unit) () done = true ∧
      ((rejectTrack 3 : Committer Unit) (stateAfter (rejectTrack 3) () done) t c).1 ≠
        STATUS_CODE_SUCCESS ∧
      ([(1, [⟨10, 10⟩]), (3, [⟨30, 7⟩])] : TrackAssociationInfoMap) =
        eraseAll [(1, [⟨10, 10⟩]), (2, [⟨10, 5⟩]), (3, [⟨30, 7⟩])] (done.map Prod.fst) ∧
      (∀ x ∈ done, x.1 ∉ TrackAssociationInfoMap.keys [(1, [⟨10, 10⟩]), (3, [⟨30, 7⟩])]) ∧
      t ∈ TrackAssociationInfoMap.keys [(1, [⟨10, 10⟩]), (3, [⟨30, 7⟩])] ∧
      (findClosestPairing [(1, [⟨10, 10⟩]), (3, [⟨30, 7⟩])]).pBestTrack = some t ∧
      (findClosestPairing [(1, [⟨10, 10⟩]), (3, [⟨30, 7⟩])]).pBestCluster = some c ∧
      STATUS_CODE_FAILURE = ((rejectTrack 3 : Committer Unit)
        (stateAfter (rejectTrack 3) () done) t c).1 ∧
      () = ((rejectTrack 3 : Committer Unit) (stateAfter (rejectTrack 3) () done) t c).2 :=
  C35_no_rollback_on_commit_failure (rejectTrack 3)
    [(1, [⟨10, 10⟩]), (2, [⟨10, 5⟩]), (3, [⟨30, 7⟩])] ()
    ⟨STATUS_CODE_FAILURE, [(1, [⟨10, 10⟩]), (3, [⟨30, 7⟩])], (), [(2, 10), (3, 30)]⟩
    (by decide) (by decide!) (by decide)

/-! ## The running mean and RMS -/

namespace RunningMeanRMS

theorem wrapInt_of_lt (k : Nat) (hk : k ≤ INT_MAX) : wrapInt (k : Int) = (k : Int) := by
  unfold INT_MAX at hk
  unfold wrapInt
  omega

/-- On the counter, the test against `epsilon` is the test for zero. -/
theorem epsilon_test (n : Int) : |(n : ℚ) - 0| < epsilon ↔ n = 0 := by
  constructor
  · intro h
    by_contra hne
    have h1 : (1 : ℚ) ≤ |(n : ℚ)| := by
      rw [← Int.cast_abs]
      exact_mod_cast Int.one_le_abs hne
    rw [sub_zero] at h
    have : epsilon < 1 := by unfold epsilon; norm_num
    linarith
  · rintro rfl
    unfold epsilon
    norm_num

theorem CalcMean_zero (meanOld valNew weightsumOld evweight : ℚ) :
    CalcMean meanOld ((0 : Int) : ℚ) valNew weightsumOld evweight = valNew := by
  unfold CalcMean
  rw [if_pos ((epsilon_test 0).2 rfl)]

theorem CalcMean_of_ne (n : Int) (hn : n ≠ 0) (meanOld valNew weightsumOld evweight : ℚ) :
    CalcMean meanOld (n : ℚ) valNew weightsumOld evweight =
      (weightsumOld * meanOld + evweight * valNew) / (weightsumOld + evweight) := by
  unfold CalcMean
  rw [if_neg (fun h => hn ((epsilon_test n).1 h))]

theorem CalcS2_of_ne (n : Int) (hn : n ≠ 0) (meanOld meanNew s2Old valNew : ℚ) :
    CalcS2 meanOld meanNew (n : ℚ) s2Old valNew =
      (((n : ℚ) - 1) * s2Old + (valNew - meanNew) * (valNew - meanOld)) / (n : ℚ) := by
  unfold CalcS2
  rw [if_neg (fun h => hn ((epsilon_test n).1 h))]

theorem fillAll_append (sqrt : ℚ → ℚ) (r : RunningMeanRMS) (l : List (ℚ × ℚ)) (e : ℚ × ℚ) :
    fillAll sqrt r (l ++ [e]) = Fill sqrt (fillAll sqrt r l) e.1 e.2 := by
  unfold fillAll
  rw [List.foldl_append]
  rfl

end RunningMeanRMS

theorem weightSum_append (l : List (ℚ × ℚ)) (e : ℚ × ℚ) :
    weightSum (l ++ [e]) = weightSum l + e.2 := by
  simp [weightSum]

theorem weightedSum_append (l : List (ℚ × ℚ)) (e : ℚ × ℚ) :
    weightedSum (l ++ [e]) = weightedSum l + e.2 * e.1 := by
  simp [weightedSum]

theorem weightSum_nonneg (l : List (ℚ × ℚ)) (hw : ∀ e ∈ l, 0 < e.2) : 0 ≤ weightSum l := by
  induction l with
  | nil => simp [weightSum]
  | cons e es ih =>
    have h1 := hw e (List.mem_cons_self _ _)
    have h2 := ih (fun e1 he1 => hw e1 (List.mem_cons_of_mem _ he1))
    unfold weightSum at h2 ⊢
    rw [List.map_cons, List.sum_cons]
    linarith

theorem weightSum_pos (l : List (ℚ × ℚ)) (hne : l ≠ []) (hw : ∀ e ∈ l, 0 < e.2) :
    0 < weightSum l := by
  cases l with
  | nil => exact absurd rfl hne
  | cons e es =>
    have h1 := hw e (List.mem_cons_self _ _)
    have h2 := weightSum_nonneg es (fun e1 he1 => hw e1 (List.mem_cons_of_mem _ he1))
    unfold weightSum at h2 ⊢
    rw [List.map_cons, List.sum_cons]
    linarith

/-- The state of a fresh object after a sequence of `Fill` calls with positive weights, as
long as the counter does not overflow. -/
theorem fillAll_invariant (sqrt : ℚ → ℚ) (l : List (ℚ × ℚ)) :
    (∀ e ∈ l, 0 < e.2) → l.length ≤ INT_MAX →
      (RunningMeanRMS.fillAll sqrt RunningMeanRMS.fresh l).m_nEvents = (l.length : Int) ∧
      (RunningMeanRMS.fillAll sqrt RunningMeanRMS.fresh l).m_weights = weightSum l ∧
      (l ≠ [] → (RunningMeanRMS.fillAll sqrt RunningMeanRMS.fresh l).m_mean =
        weightedSum l / weightSum l) ∧
      0 ≤ (RunningMeanRMS.fillAll sqrt RunningMeanRMS.fresh l).m_s2 := by
  induction l using List.reverseRecOn with
  | nil =>
    intro _ _
    refine ⟨rfl, rfl, fun h => absurd rfl h, le_refl _⟩
  | append_singleton l e ih =>
    intro hw hlen
    have hwl : ∀ e1 ∈ l, 0 < e1.2 := fun e1 he1 => hw e1 (List.mem_append_left _ he1)
    have hwe : 0 < e.2 := hw e (List.mem_append_right _ (List.mem_singleton_self _))
    have hlen1 : l.length + 1 ≤ INT_MAX := by
      rw [List.length_append, List.length_singleton] at hlen
      exact hlen
    obtain ⟨i1, i2, i3, i4⟩ := ih hwl (Nat.le_of_succ_le hlen1)
    have hnNew : wrapInt ((RunningMeanRMS.fillAll sqrt RunningMeanRMS.fresh l).m_nEvents + 1) =
        ((l.length + 1 : Nat) : Int) := by
      rw [i1]
      have := RunningMeanRMS.wrapInt_of_lt (l.length + 1) hlen1
      push_cast at this ⊢
      exact this
    have hne1 : ((l.length + 1 : Nat) : Int) ≠ 0 := by
      intro hh
      have := Int.natCast_eq_zero.1 hh
      omega
    have hprod : 0 ≤ (e.1 - RunningMeanRMS.CalcMean
        (RunningMeanRMS.fillAll sqrt RunningMeanRMS.fresh l).m_mean
        ((RunningMeanRMS.fillAll sqrt RunningMeanRMS.fresh l).m_nEvents : ℚ) e.1
        (RunningMeanRMS.fillAll sqrt RunningMeanRMS.fresh l).m_weights e.2) *
        (e.1 - (RunningMeanRMS.fillAll sqrt RunningMeanRMS.fresh l).m_mean) := by
      rw [i1, i2]
      by_cases hl : l = []
      · subst hl
        rw [show ((([] : List (ℚ × ℚ)).length : Int) : ℚ) = ((0 : Int) : ℚ) from rfl,
          RunningMeanRMS.CalcMean_zero, sub_self, zero_mul]
      · have hlen0 : ((l.length : Nat) : Int) ≠ 0 := by
          intro hh
          exact hl (List.length_eq_zero.1 (Int.natCast_eq_zero.1 hh))
        have hW := weightSum_pos l hl hwl
        rw [RunningMeanRMS.CalcMean_of_ne _ hlen0]
        have hsum : weightSum l + e.2 ≠ 0 := by linarith
        have heq : (e.1 - (weightSum l *
            (RunningMeanRMS.fillAll sqrt RunningMeanRMS.fresh l).m_mean + e.2 * e.1) /
            (weightSum l + e.2)) *
            (e.1 - (RunningMeanRMS.fillAll sqrt RunningMeanRMS.fresh l).m_mean) =
            weightSum l * (e.1 - (RunningMeanRMS.fillAll sqrt RunningMeanRMS.fresh l).m_mean) ^ 2 /
              (weightSum l + e.2) := by
          field_simp
          ring
        rw [heq]
        exact div_nonneg (mul_nonneg hW.le (sq_nonneg _)) (by linarith)
    rw [RunningMeanRMS.fillAll_append]
    refine ⟨?_, ?_, ?_, ?_⟩
    · show wrapInt ((RunningMeanRMS.fillAll sqrt RunningMeanRMS.fresh l).m_nEvents + 1) = _
      rw [hnNew, List.length_append, List.length_singleton]
    · show (RunningMeanRMS.fillAll sqrt RunningMeanRMS.fresh l).m_weights + e.2 = _
      rw [i2, weightSum_append]
    · intro _
      show RunningMeanRMS.CalcMean (RunningMeanRMS.fillAll sqrt RunningMeanRMS.fresh l).m_mean
        ((RunningMeanRMS.fillAll sqrt RunningMeanRMS.fresh l).m_nEvents : ℚ) e.1
        (RunningMeanRMS.fillAll sqrt RunningMeanRMS.fresh l).m_weights e.2 = _
      rw [weightedSum_append, weightSum_append, i1, i2]
      by_cases hl : l = []
      · subst hl
        rw [show ((([] : List (ℚ × ℚ)).length : Int) : ℚ) = ((0 : Int) : ℚ) from rfl,
          RunningMeanRMS.CalcMean_zero]
        have hw0 : e.2 ≠ 0 := ne_of_gt hwe
        simp only [weightedSum, weightSum, List.map_nil, List.sum_nil, zero_add]
        field_simp
      · have hlen0 : ((l.length : Nat) : Int) ≠ 0 := by
          intro hh
          exact hl (List.length_eq_zero.1 (Int.natCast_eq_zero.1 hh))
        have hW := weightSum_pos l hl hwl
        rw [RunningMeanRMS.CalcMean_of_ne _ hlen0, i3 hl, mul_div_cancel₀ _ (ne_of_gt hW)]
    · show 0 ≤ RunningMeanRMS.CalcS2 (RunningMeanRMS.fillAll sqrt RunningMeanRMS.fresh l).m_mean
        (RunningMeanRMS.CalcMean (RunningMeanRMS.fillAll sqrt RunningMeanRMS.fresh l).m_mean
          ((RunningMeanRMS.fillAll sqrt RunningMeanRMS.fresh l).m_nEvents : ℚ) e.1
          (RunningMeanRMS.fillAll sqrt RunningMeanRMS.fresh l).m_weights e.2)
        ((wrapInt ((RunningMeanRMS.fillAll sqrt RunningMeanRMS.fresh l).m_nEvents + 1) : Int) : ℚ)
        (RunningMeanRMS.fillAll sqrt RunningMeanRMS.fresh l).m_s2 e.1
      rw [hnNew, RunningMeanRMS.CalcS2_of_ne _ hne1]
      apply div_nonneg
      · apply add_nonneg
        · apply mul_nonneg
          · push_cast
            linarith [(Nat.cast_nonneg l.length : (0 : ℚ) ≤ (l.length : ℚ))]
          · exact i4
        · exact hprod
      · exact_mod_cast Int.natCast_nonneg _

/-- C36: `RunningMeanRMS` computes the weighted mean. Starting from a freshly constructed or
cleared object, after `Fill(x1, w1)`, ..., `Fill(xn, wn)` with `n ≥ 1`, every weight strictly
positive and `n` within the range of the `int` counter, `GetMean` equals
`(w1 * x1 + ... + wn * xn) / (w1 + ... + wn)`, `GetWeightSum` equals `w1 + ... + wn` and
`GetN` equals `n`. -/
theorem C36_running_weighted_mean (sqrt : ℚ → ℚ) (r0 : RunningMeanRMS) (l : List (ℚ × ℚ))
    (hne : l ≠ []) (hw : ∀ e ∈ l, 0 < e.2) (hlen : l.length ≤ INT_MAX) :
    (RunningMeanRMS.fillAll sqrt RunningMeanRMS.fresh l).GetMean = weightedSum l / weightSum l ∧
      (RunningMeanRMS.fillAll sqrt RunningMeanRMS.fresh l).GetWeightSum = weightSum l ∧
      (RunningMeanRMS.fillAll sqrt RunningMeanRMS.fresh l).GetN = (l.length : ℚ) ∧
      RunningMeanRMS.fillAll sqrt r0.Clear l =
        RunningMeanRMS.fillAll sqrt RunningMeanRMS.fresh l := by
  obtain ⟨i1, i2, i3, _⟩ := fillAll_invariant sqrt l hw hlen
  refine ⟨i3 hne, i2, ?_, rfl⟩
  unfold RunningMeanRMS.GetN
  rw [i1]
  rfl

/-- Witness of C36: the entries (1, 1), (4, 2) give the mean 3, the weight sum 3 and the
count 2. -/
theorem C36_running_weighted_mean_witness :
    (RunningMeanRMS.fillAll sqrtFloor RunningMeanRMS.fresh [(1, 1), (4, 2)]).GetMean = 3 ∧
      weightedSum [(1, 1), (4, 2)] / weightSum [(1, 1), (4, 2)] = 3 ∧
      ((RunningMeanRMS.fillAll sqrtFloor RunningMeanRMS.fresh [(1, 1), (4, 2)]).GetMean =
          weightedSum [(1, 1), (4, 2)] / weightSum [(1, 1), (4, 2)] ∧
        (RunningMeanRMS.fillAll sqrtFloor RunningMeanRMS.fresh [(1, 1), (4, 2)]).GetWeightSum =
          weightSum [(1, 1), (4, 2)] ∧
        (RunningMeanRMS.fillAll sqrtFloor RunningMeanRMS.fresh [(1, 1), (4, 2)]).GetN =
          (([((1 : ℚ), (1 : ℚ)), (4, 2)] : List (ℚ × ℚ)).length : ℚ) ∧
        RunningMeanRMS.fillAll sqrtFloor (RunningMeanRMS.Clear ⟨7, 3, 2, 1, 1⟩) [(1, 1), (4, 2)] =
          RunningMeanRMS.fillAll sqrtFloor RunningMeanRMS.fresh [(1, 1), (4, 2)]) :=
  ⟨by decide!, by decide!, C36_running_weighted_mean sqrtFloor ⟨7, 3, 2, 1, 1⟩ [(1, 1), (4, 2)]
    (by decide) (by decide!) (by decide)⟩

theorem withWeight_append (w : ℚ) (xs : List ℚ) (x : ℚ) :
    withWeight w (xs ++ [x]) = withWeight w xs ++ [(x, w)] := by
  simp [withWeight]

theorem weightSum_withWeight (w : ℚ) (xs : List ℚ) :
    weightSum (withWeight w xs) = (xs.length : ℚ) * w := by
  induction xs with
  | nil => simp [weightSum, withWeight]
  | cons x xs ih =>
    unfold weightSum withWeight at ih ⊢
    simp only [List.map_cons, List.sum_cons, List.length_cons, Nat.cast_succ]
    rw [ih]
    ring

theorem weightedSum_withWeight (w : ℚ) (xs : List ℚ) :
    weightedSum (withWeight w xs) = w * xs.sum := by
  induction xs with
  | nil => simp [weightedSum, withWeight]
  | cons x xs ih =>
    unfold weightedSum withWeight at ih ⊢
    simp only [List.map_cons, List.sum_cons]
    rw [ih]
    ring

/-- With one common positive weight, the mean is the arithmetic mean and the counter is the
number of values. -/
theorem fillAll_withWeight_mean (sqrt : ℚ → ℚ) (w : ℚ) (hw : 0 < w) (xs : List ℚ)
    (hne : xs ≠ []) (hlen : xs.length ≤ INT_MAX) :
    (RunningMeanRMS.fillAll sqrt RunningMeanRMS.fresh (withWeight w xs)).m_mean =
        xs.sum / (xs.length : ℚ) ∧
      (RunningMeanRMS.fillAll sqrt RunningMeanRMS.fresh (withWeight w xs)).m_nEvents =
        (xs.length : Int) := by
  have hw1 : ∀ e ∈ withWeight w xs, 0 < e.2 := by
    intro e he
    obtain ⟨x, _, rfl⟩ := List.mem_map.1 he
    exact hw
  have hlen1 : (withWeight w xs).length ≤ INT_MAX := by
    unfold withWeight
    rw [List.length_map]
    exact hlen
  have hne1 : withWeight w xs ≠ [] := by
    intro hh
    apply hne
    unfold withWeight at hh
    exact List.map_eq_nil_iff.1 hh
  obtain ⟨i1, _, i3, _⟩ := fillAll_invariant sqrt (withWeight w xs) hw1 hlen1
  constructor
  · rw [i3 hne1, weightedSum_withWeight, weightSum_withWeight]
    have hn : (xs.length : ℚ) ≠ 0 := by
      intro hh
      exact hne (List.length_eq_zero.1 (Nat.cast_eq_zero.1 hh))
    have hw0 : w ≠ 0 := ne_of_gt hw
    field_simp
    ring
  · rw [i1]
    unfold withWeight
    rw [List.length_map]

/-- The sum of the squared deviations from any value `a`. -/
theorem sum_sq_dev (xs : List ℚ) (a : ℚ) :
    (xs.map (fun x => (x - a) ^ 2)).sum =
      (xs.map (fun x => x ^ 2)).sum - 2 * a * xs.sum + (xs.length : ℚ) * a ^ 2 := by
  induction xs with
  | nil => simp
  | cons x xs ih =>
    simp only [List.map_cons, List.sum_cons, List.length_cons, Nat.cast_succ]
    rw [ih]
    ring

theorem populationVariance_eq (xs : List ℚ) (hne : xs ≠ []) :
    populationVariance xs =
      ((xs.map (fun x => x ^ 2)).sum - xs.sum ^ 2 / (xs.length : ℚ)) / (xs.length : ℚ) := by
  have hn : (xs.length : ℚ) ≠ 0 := by
    intro hh
    exact hne (List.length_eq_zero.1 (Nat.cast_eq_zero.1 hh))
  unfold populationVariance arithmeticMean
  rw [sum_sq_dev]
  field_simp
  ring

/-- With one common positive weight, the stored `m_s2` is the mean of the squares minus the
square of the mean. -/
theorem fillAll_withWeight_s2 (sqrt : ℚ → ℚ) (w : ℚ) (hw : 0 < w) (xs : List ℚ) :
    xs.length ≤ INT_MAX → xs ≠ [] →
      (RunningMeanRMS.fillAll sqrt RunningMeanRMS.fresh (withWeight w xs)).m_s2 =
        ((xs.map (fun x => x ^ 2)).sum - xs.sum ^ 2 / (xs.length : ℚ)) / (xs.length : ℚ) := by
  induction xs using List.reverseRecOn with
  | nil => intro _ h; exact absurd rfl h
  | append_singleton xs x ih =>
    intro hlen _
    have hlen1 : xs.length + 1 ≤ INT_MAX := by
      rw [List.length_append, List.length_singleton] at hlen
      exact hlen
    have hstep : RunningMeanRMS.fillAll sqrt RunningMeanRMS.fresh (withWeight w (xs ++ [x])) =
        RunningMeanRMS.Fill sqrt
          (RunningMeanRMS.fillAll sqrt RunningMeanRMS.fresh (withWeight w xs)) x w := by
      rw [withWeight_append, RunningMeanRMS.fillAll_append]
    obtain ⟨hm1, hn1⟩ := fillAll_withWeight_mean sqrt w hw (xs ++ [x]) (by simp) hlen
    rw [hstep] at hm1 hn1 ⊢
    have hne1 : (((xs ++ [x]).length : Nat) : Int) ≠ 0 := by
      rw [List.length_append, List.length_singleton]
      intro hh
      have := Int.natCast_eq_zero.1 hh
      omega
    show RunningMeanRMS.CalcS2
      (RunningMeanRMS.fillAll sqrt RunningMeanRMS.fresh (withWeight w xs)).m_mean
      (RunningMeanRMS.Fill sqrt
        (RunningMeanRMS.fillAll sqrt RunningMeanRMS.fresh (withWeight w xs)) x w).m_mean
      (((RunningMeanRMS.Fill sqrt
        (RunningMeanRMS.fillAll sqrt RunningMeanRMS.fresh (withWeight w xs)) x w).m_nEvents : Int) : ℚ)
      (RunningMeanRMS.fillAll sqrt RunningMeanRMS.fresh (withWeight w xs)).m_s2 x = _
    rw [hn1, hm1, RunningMeanRMS.CalcS2_of_ne _ hne1]
    have hcast : ((((xs ++ [x]).length : Nat) : Int) : ℚ) = (xs.length : ℚ) + 1 := by
      rw [Int.cast_natCast, List.length_append, List.length_singleton]
      push_cast
      rfl
    have hcast2 : (((xs ++ [x]).length : Nat) : ℚ) = (xs.length : ℚ) + 1 := by
      rw [List.length_append, List.length_singleton]
      push_cast
      rfl
    rw [hcast, hcast2]
    have hsum : (xs ++ [x]).sum = xs.sum + x := by simp
    have hsq : ((xs ++ [x]).map (fun y => y ^ 2)).sum = (xs.map (fun y => y ^ 2)).sum + x ^ 2 := by
      simp
    rw [hsum, hsq]
    have hpos : (0 : ℚ) ≤ (xs.length : ℚ) := Nat.cast_nonneg _
    have hn0 : (xs.length : ℚ) + 1 ≠ 0 := by linarith
    by_cases hxs : xs = []
    · subst hxs
      simp only [List.length_nil, Nat.cast_zero, List.sum_nil, List.map_nil, zero_add]
      have h0 : (RunningMeanRMS.fillAll sqrt RunningMeanRMS.fresh (withWeight w [])).m_s2 = 0 := rfl
      rw [h0]
      field_simp
    · obtain ⟨hm0, _⟩ := fillAll_withWeight_mean sqrt w hw xs hxs (Nat.le_of_succ_le hlen1)
      rw [hm0, ih (Nat.le_of_succ_le hlen1) hxs]
      have hn : (xs.length : ℚ) ≠ 0 := by
        intro hh
        exact hxs (List.length_eq_zero.1 (Nat.cast_eq_zero.1 hh))
      field_simp
      ring

theorem fillAll_rms (sqrt : ℚ → ℚ) (l : List (ℚ × ℚ)) (hne : l ≠ []) :
    (RunningMeanRMS.fillAll sqrt RunningMeanRMS.fresh l).m_Rms =
      sqrt (RunningMeanRMS.fillAll sqrt RunningMeanRMS.fresh l).m_s2 := by
  induction l using List.reverseRecOn with
  | nil => exact absurd rfl hne
  | append_singleton l e _ =>
    rw [RunningMeanRMS.fillAll_append]
    rfl

/-- C37: `RunningMeanRMS` computes the RMS about the mean for equally weighted entries.
Starting from a fresh object, after `n ≥ 1` calls `Fill(xi, w)` with one common positive
weight `w`, `n` within the range of the `int` counter, the stored `m_s2`, of which `GetRMS`
is the square root, equals the population variance `(1/n) * sum (xi - mean)^2`, where `mean`
is the arithmetic mean of `x1..xn`, which `GetMean` returns; in particular `m_s2` is 0 after
the first `Fill`. -/
theorem C37_running_rms_equal_weights (sqrt : ℚ → ℚ) (w : ℚ) (hw : 0 < w) (xs : List ℚ)
    (hne : xs ≠ []) (hlen : xs.length ≤ INT_MAX) :
    (RunningMeanRMS.fillAll sqrt RunningMeanRMS.fresh (withWeight w xs)).m_s2 =
        populationVariance xs ∧
      (RunningMeanRMS.fillAll sqrt RunningMeanRMS.fresh (withWeight w xs)).GetRMS =
        sqrt (RunningMeanRMS.fillAll sqrt RunningMeanRMS.fresh (withWeight w xs)).m_s2 ∧
      (RunningMeanRMS.fillAll sqrt RunningMeanRMS.fresh (withWeight w xs)).GetMean =
        arithmeticMean xs ∧
      ∀ x, (RunningMeanRMS.Fill sqrt RunningMeanRMS.fresh x w).m_s2 = 0 := by
  refine ⟨?_, ?_, (fillAll_withWeight_mean sqrt w hw xs hne hlen).1, ?_⟩
  · rw [fillAll_withWeight_s2 sqrt w hw xs hlen hne, populationVariance_eq xs hne]
  · apply fillAll_rms
    intro hh
    apply hne
    unfold withWeight at hh
    exact List.map_eq_nil_iff.1 hh
  · intro x
    have h1 := fillAll_withWeight_s2 sqrt w hw [x]
      (show ([x] : List ℚ).length ≤ INT_MAX from Nat.succ_le_of_lt (by decide)) (by simp)
    have h2 : RunningMeanRMS.fillAll sqrt RunningMeanRMS.fresh (withWeight w [x]) =
        RunningMeanRMS.Fill sqrt RunningMeanRMS.fresh x w := rfl
    rw [h2] at h1
    rw [h1]
    simp

/-- Witness of C37: the values 2, 4, 4, 6 with the weight 3 have the mean 4 and the
population variance 2. -/
theorem C37_running_rms_equal_weights_witness :
    populationVariance [2, 4, 4, 6] = 2 ∧
      (RunningMeanRMS.fillAll sqrtFloor RunningMeanRMS.fresh (withWeight 3 [2, 4, 4, 6])).m_s2 =
        2 ∧
      ((RunningMeanRMS.fillAll sqrtFloor RunningMeanRMS.fresh (withWeight 3 [2, 4, 4, 6])).m_s2 =
          populationVariance [2, 4, 4, 6] ∧
        (RunningMeanRMS.fillAll sqrtFloor RunningMeanRMS.fresh
          (withWeight 3 [2, 4, 4, 6])).GetRMS =
          sqrtFloor (RunningMeanRMS.fillAll sqrtFloor RunningMeanRMS.fresh
            (withWeight 3 [2, 4, 4, 6])).m_s2 ∧
        (RunningMeanRMS.fillAll sqrtFloor RunningMeanRMS.fresh
          (withWeight 3 [2, 4, 4, 6])).GetMean = arithmeticMean [2, 4, 4, 6] ∧
        ∀ x, (RunningMeanRMS.Fill sqrtFloor RunningMeanRMS.fresh x 3).m_s2 = 0) :=
  ⟨by decide!, by decide!, C37_running_rms_equal_weights sqrtFloor 3 (by norm_num)
    [2, 4, 4, 6] (by decide) (by decide)⟩

/-! ## The running RMS in `double` arithmetic -/

/-- In exact arithmetic, where the rounding changes nothing, `FillRounded` is `Fill`. -/
theorem FillRounded_id (sqrt : ℚ → ℚ) (r : RunningMeanRMS) (value eventWeight : ℚ) :
    RunningMeanRMS.FillRounded id sqrt r value eventWeight =
      RunningMeanRMS.Fill sqrt r value eventWeight := rfl

theorem fillAllRounded_id (sqrt : ℚ → ℚ) (r : RunningMeanRMS) (entries : List (ℚ × ℚ)) :
    RunningMeanRMS.fillAllRounded id sqrt r entries = RunningMeanRMS.fillAll sqrt r entries :=
  rfl

end pandora
